import Mathlib

/-!
# Voedger: application definition and event/record engine

A shallow embedding of parts of `pkg/appdef` (identifier validation, data kinds,
data types and their constraints, command validation), of
`pkg/istructsmem/event-types.go` (events, the CUD plan, ID regeneration and
record updates) and of `pkg/sys/uniques/impl.go` (unique keys and the unique
validator of events), followed by theorems about them.

Conventions of the embedding:

* Go unsigned integers (`uint8`, `uint64`) are natural numbers.
* A Go `string` holding UTF-8 text is a Lean `String`; `len` is the number of
  bytes and `range` yields the runes together with their byte offsets.
* A Go `map` is an association list read through `GoMap.get`; `range` over a
  map visits the entries in list order, which is arbitrary.
* A Go `panic` and a returned `error` are explicit result values.
-/

set_option autoImplicit false

/-! ## Definitions -/

/-! ### Package appdef -/

namespace appdef

/-- Errors of package `appdef` used by the embedded functions. -/
inductive Error where
  | ErrNameMissed
  | ErrInvalidName (msg : String)
  | ErrIncompatibleConstraints (msg : String)
  | ErrNameNotFound (msg : String)
  | ErrInvalidTypeKind (msg : String)
  deriving DecidableEq, Repr

/-- Go `len(s)` of a string: the number of bytes of its UTF-8 encoding. -/
def goLen (s : String) : Nat := s.utf8ByteSize

/-- Go `for p, c := range s`: the runes of `s`, each paired with the byte offset
at which it starts; `p` is the offset of the first rune of `cs`. -/
def goRange : Nat → List Char → List (Nat × Char)
  | _, [] => []
  | p, c :: cs => (p, c) :: goRange (p + c.utf8Size) cs

/-- The `for p, c := range ident` loop of `ValidIdent` (names.go), with the four
local closures of the function passed in. Returning from inside the loop ends it. -/
def ValidIdent.loop (letter underScore buck digit : Nat → Bool) :
    List (Nat × Char) → Bool × Option Error
  | [] => (true, none)
  | (p, c) :: rest =>
    if !letter c.toNat && !underScore c.toNat && !buck c.toNat then
      if p == 0 || !digit c.toNat then
        (false, some (Error.ErrInvalidName "name char is not valid"))
      else ValidIdent.loop letter underScore buck digit rest
    else ValidIdent.loop letter underScore buck digit rest

/-- `ValidIdent` of names.go. `MaxIdentLen` is a constant of the package whose
declaration is not among the sources; it is a parameter here. -/
def ValidIdent (MaxIdentLen : Nat) (ident : String) : Bool × Option Error :=
  if goLen ident < 1 then
    (false, some Error.ErrNameMissed)
  else if goLen ident > MaxIdentLen then
    (false, some (Error.ErrInvalidName "ident too long"))
  else
    let char_a : Nat := 97
    let char_A : Nat := 65
    let char_z : Nat := 122
    let char_Z : Nat := 90
    let char_0 : Nat := 48
    let char_9 : Nat := 57
    let char__ : Nat := 95
    let char_Buck : Nat := 36
    let digit := fun (r : Nat) => decide (char_0 ≤ r) && decide (r ≤ char_9)
    let letter := fun (r : Nat) =>
      (decide (char_a ≤ r) && decide (r ≤ char_z)) || (decide (char_A ≤ r) && decide (r ≤ char_Z))
    let underScore := fun (r : Nat) => r == char__
    let buck := fun (r : Nat) => r == char_Buck
    ValidIdent.loop letter underScore buck digit (goRange 0 ident.data)

/-- A character that may start an identifier: a letter, `_` or `$`. -/
def identStart (c : Char) : Prop := c.isAlpha = true ∨ c = '_' ∨ c = '$'

/-- A character that may follow the first one: a letter, a digit, `_` or `$`. -/
def identPart (c : Char) : Prop := c.isAlpha = true ∨ c.isDigit = true ∨ c = '_' ∨ c = '$'

/-- The test the loop body of `ValidIdent` applies to the rune `c` at byte offset `p`. -/
def identAccepts (p : Nat) (c : Char) : Bool :=
  c.isAlpha || decide (c = '_') || decide (c = '$') || (decide (p ≠ 0) && c.isDigit)

/-- `DataKind` of interface-data.go: a `uint8`. -/
abbrev DataKind := Nat

@[match_pattern] def DataKind_null : DataKind := 0
@[match_pattern] def DataKind_int32 : DataKind := 1
@[match_pattern] def DataKind_int64 : DataKind := 2
@[match_pattern] def DataKind_float32 : DataKind := 3
@[match_pattern] def DataKind_float64 : DataKind := 4
@[match_pattern] def DataKind_bytes : DataKind := 5
@[match_pattern] def DataKind_string : DataKind := 6
@[match_pattern] def DataKind_QName : DataKind := 7
@[match_pattern] def DataKind_bool : DataKind := 8
@[match_pattern] def DataKind_RecordID : DataKind := 9
@[match_pattern] def DataKind_Record : DataKind := 10
@[match_pattern] def DataKind_Event : DataKind := 11
@[match_pattern] def DataKind_FakeLast : DataKind := 12

/-- Modelled from the spec: the `ConstraintKind_*` constants are declared in
data-constraint-kind.go, which is not among the sources. `ConstraintKind` is a
`uint8` (interface-data.go); the eight kinds the spec and data-kind.go name are
the constructors, and `other n` stands for every remaining value of the type
(the null kind, the count sentinel and out-of-range values). -/
inductive ConstraintKind where
  | MinLen
  | MaxLen
  | Pattern
  | MinIncl
  | MinExcl
  | MaxIncl
  | MaxExcl
  | Enum
  | other (n : Nat)
  deriving DecidableEq, Repr

/-- `DataKind.IsSupportedConstraint` of data-kind.go. -/
def IsSupportedConstraint (k : DataKind) (c : ConstraintKind) : Bool :=
  match k with
  | DataKind_bytes =>
    match c with
    | ConstraintKind.MinLen | ConstraintKind.MaxLen | ConstraintKind.Pattern => true
    | _ => false
  | DataKind_string =>
    match c with
    | ConstraintKind.MinLen | ConstraintKind.MaxLen | ConstraintKind.Pattern
    | ConstraintKind.Enum => true
    | _ => false
  | DataKind_int32 | DataKind_int64 | DataKind_float32 | DataKind_float64 =>
    match c with
    | ConstraintKind.MinIncl | ConstraintKind.MinExcl | ConstraintKind.MaxIncl
    | ConstraintKind.MaxExcl | ConstraintKind.Enum => true
    | _ => false
  | _ => false

/-- The support table of constraint kinds per data kind, as the spec lists it. -/
def supportTable : List (DataKind × List ConstraintKind) :=
  [ (DataKind_bytes, [ConstraintKind.MinLen, ConstraintKind.MaxLen, ConstraintKind.Pattern]),
    (DataKind_string, [ConstraintKind.MinLen, ConstraintKind.MaxLen, ConstraintKind.Pattern,
      ConstraintKind.Enum]),
    (DataKind_int32, [ConstraintKind.MinIncl, ConstraintKind.MinExcl, ConstraintKind.MaxIncl,
      ConstraintKind.MaxExcl, ConstraintKind.Enum]),
    (DataKind_int64, [ConstraintKind.MinIncl, ConstraintKind.MinExcl, ConstraintKind.MaxIncl,
      ConstraintKind.MaxExcl, ConstraintKind.Enum]),
    (DataKind_float32, [ConstraintKind.MinIncl, ConstraintKind.MinExcl, ConstraintKind.MaxIncl,
      ConstraintKind.MaxExcl, ConstraintKind.Enum]),
    (DataKind_float64, [ConstraintKind.MinIncl, ConstraintKind.MinExcl, ConstraintKind.MaxIncl,
      ConstraintKind.MaxExcl, ConstraintKind.Enum]) ]

/-- The pair `(k, c)` is present in the support table. -/
def inSupportTable (k : DataKind) (c : ConstraintKind) : Prop :=
  ∃ e ∈ supportTable, e.1 = k ∧ c ∈ e.2

instance (k : DataKind) (c : ConstraintKind) : Decidable (inSupportTable k c) :=
  inferInstanceAs (Decidable (∃ e ∈ supportTable, e.1 = k ∧ c ∈ e.2))

/-- A Go `map[K]V` as an association list. The first entry of a key is the one
the map holds; `range` visits the entries in list order. -/
abbrev GoMap (K V : Type) := List (K × V)

/-- Go `v, ok := m[k]`: `some v` when `ok`, `none` otherwise. -/
def GoMap.get {K V : Type} [DecidableEq K] (m : GoMap K V) (k : K) : Option V :=
  match m with
  | [] => none
  | (k', v) :: rest => if k' = k then some v else GoMap.get rest k

/-- Go `m[k] = v`. -/
def GoMap.set {K V : Type} [DecidableEq K] (m : GoMap K V) (k : K) (v : V) : GoMap K V :=
  match m with
  | [] => [(k, v)]
  | (k', v') :: rest => if k' = k then (k, v) :: rest else (k', v') :: GoMap.set rest k v

/-- Qualified name: package and entity. -/
structure QName where
  pkg : String
  entity : String
  deriving DecidableEq, Repr

/-- The reserved absent name. -/
def NullQName : QName := ⟨"", ""⟩

/-- The dynamic type and content of the `any` returned by `IConstraint.Value()`
(interface-data.go): `uint16` for lengths, a regular expression for a pattern,
`float64` for bounds, a slice for an enumeration. Floating-point numbers are
carried as their bit patterns; `other` is a value of any other dynamic type. -/
inductive ConstraintValue where
  | uint16 (v : Nat)
  | regexp (source : String)
  | float64 (bits : Nat)
  | int32s (vs : List Int)
  | int64s (vs : List Int)
  | float32s (bits : List Nat)
  | float64s (bits : List Nat)
  | strings (vs : List String)
  | other (typeName : String)
  deriving DecidableEq, Repr

/-- An implementation of `IConstraint` (interface-data.go): what `Kind()`,
`Value()` and `Comment()` return. -/
structure IConstraint where
  Kind : ConstraintKind
  Value : ConstraintValue
  Comment : String
  deriving DecidableEq, Repr

/-- The `data` struct of data.go: the data type's name (of the embedded `typ`),
its kind, its ancestor (`nil` is `none`) and its own constraints. -/
inductive data where
  | mk (name : QName) (dataKind : DataKind) (ancestor : Option data)
      (constraints : GoMap ConstraintKind IConstraint)

/-- The `QName()` of the embedded `typ`. -/
def data.QName : data → QName
  | .mk n _ _ _ => n

/-- `data.DataKind` of data.go. -/
def data.DataKind : data → DataKind
  | .mk _ k _ _ => k

/-- `data.Ancestor` of data.go. -/
def data.Ancestor : data → Option data
  | .mk _ _ a _ => a

/-- The field `constraints` of `data`. -/
def data.constraints : data → GoMap ConstraintKind IConstraint
  | .mk _ _ _ cs => cs

/-- The data type with its field `constraints` replaced. -/
def data.withConstraints : data → GoMap ConstraintKind IConstraint → data
  | .mk n k a _, cs => .mk n k a cs

/-- The type switch on `dk` in the `ConstraintKind_Enum` case of
`data.AddConstraints`: the `ok` of the type assertion on `c.Value()`. -/
def enumValueOk (dk : DataKind) (v : ConstraintValue) : Bool :=
  match dk with
  | DataKind_int32 => match v with | ConstraintValue.int32s _ => true | _ => false
  | DataKind_int64 => match v with | ConstraintValue.int64s _ => true | _ => false
  | DataKind_float32 => match v with | ConstraintValue.float32s _ => true | _ => false
  | DataKind_float64 => match v with | ConstraintValue.float64s _ => true | _ => false
  | DataKind_string => match v with | ConstraintValue.strings _ => true | _ => false
  | _ => false

/-- The loop of `data.AddConstraints` over `cc`, on the map `d.constraints`.
Returns the map as the loop leaves it and the value of the panic, if one is raised. -/
def data.AddConstraints.loop (dk : appdef.DataKind) :
    List IConstraint → GoMap ConstraintKind IConstraint →
      GoMap ConstraintKind IConstraint × Option Error
  | [], m => (m, none)
  | c :: rest, m =>
    let ck := c.Kind
    if !IsSupportedConstraint dk ck then
      (m, some (Error.ErrIncompatibleConstraints "data is not compatible with constraint"))
    else
      match c.Kind with
      | ConstraintKind.MinLen => data.AddConstraints.loop dk rest (GoMap.set m ck c)
      | ConstraintKind.MaxLen => data.AddConstraints.loop dk rest (GoMap.set m ck c)
      | ConstraintKind.Enum =>
        let ok := enumValueOk dk c.Value
        if !ok then
          (m, some (Error.ErrIncompatibleConstraints "constraint values type is not applicable to data"))
        else data.AddConstraints.loop dk rest (GoMap.set m ck c)
      | _ => data.AddConstraints.loop dk rest (GoMap.set m ck c)

/-- `data.AddConstraints` of data.go: the data type after the call (the receiver
is modified in place, also when the call panics) and the panic, if any. -/
def data.AddConstraints (d : data) (cc : List IConstraint) : data × Option Error :=
  let dk := d.DataKind
  let r := data.AddConstraints.loop dk cc d.constraints
  (d.withConstraints r.1, r.2)

/-- The inner loop of `data.Constraints`: `for k, c := range a.constraints`,
adding to `cc` the entries whose key `cc` does not hold yet. -/
def data.Constraints.merge (cc : GoMap ConstraintKind IConstraint) :
    GoMap ConstraintKind IConstraint → GoMap ConstraintKind IConstraint
  | [] => cc
  | (k, c) :: rest =>
    if (GoMap.get cc k).isNone then data.Constraints.merge (GoMap.set cc k c) rest
    else data.Constraints.merge cc rest

/-- The outer loop of `data.Constraints`: `for a := d; a != nil;`, leaving at
the type without ancestor. -/
def data.Constraints.walk (cc : GoMap ConstraintKind IConstraint) :
    data → GoMap ConstraintKind IConstraint
  | .mk _ _ none cs => data.Constraints.merge cc cs
  | .mk _ _ (some a) cs => data.Constraints.walk (data.Constraints.merge cc cs) a

/-- `data.Constraints` of data.go. -/
def data.Constraints (d : data) (withInherited : Bool) : GoMap ConstraintKind IConstraint :=
  if !withInherited then d.constraints
  else data.Constraints.walk [] d

/-- The chain `d, d.Ancestor(), d.Ancestor().Ancestor(), ...` up to the type
without ancestor. -/
def data.chain : data → List data
  | .mk n k none cs => [.mk n k none cs]
  | .mk n k (some a) cs => .mk n k (some a) cs :: data.chain a

/-- The value `v` is a slice of exactly the element type that matches the data
kind `dk`: `[]int32`, `[]int64`, `[]float32`, `[]float64` or `[]string`. -/
def isSliceOfKind (dk : DataKind) (v : ConstraintValue) : Prop :=
  (dk = DataKind_int32 ∧ ∃ vs, v = ConstraintValue.int32s vs) ∨
  (dk = DataKind_int64 ∧ ∃ vs, v = ConstraintValue.int64s vs) ∨
  (dk = DataKind_float32 ∧ ∃ vs, v = ConstraintValue.float32s vs) ∨
  (dk = DataKind_float64 ∧ ∃ vs, v = ConstraintValue.float64s vs) ∨
  (dk = DataKind_string ∧ ∃ vs, v = ConstraintValue.strings vs)

/-- The system data type `sys.string`. -/
def sysString : data := data.mk ⟨"sys", "string"⟩ DataKind_string none []

/-- The data type `test.string` of example-data_test.go: a string of 1 to 4 bytes. -/
def testString : data :=
  data.mk ⟨"test", "string"⟩ DataKind_string (some sysString)
    [(ConstraintKind.MinLen, ⟨ConstraintKind.MinLen, ConstraintValue.uint16 1, ""⟩),
     (ConstraintKind.MaxLen, ⟨ConstraintKind.MaxLen, ConstraintValue.uint16 4, ""⟩)]

/-- The data type `test.weekDay` of example-data_test.go before its constraints
are added. -/
def weekDay : data := data.mk ⟨"test", "weekDay"⟩ DataKind_string (some testString) []

/-- The constraint `Enum("Mon", ..., "Sun")`, its values sorted. -/
def weekDayEnum : IConstraint :=
  ⟨ConstraintKind.Enum,
    ConstraintValue.strings ["Fri", "Mon", "Sat", "Sun", "Thu", "Tue", "Wed"], ""⟩

/-- An enumeration constraint over `int32` values. -/
def int32Enum : IConstraint := ⟨ConstraintKind.Enum, ConstraintValue.int32s [1, 2, 3], ""⟩

/-- The pair of `dk` and the kind of `c` is absent from the support table, or `c`
is an enumeration whose value is not a slice of the element type matching `dk`. -/
def constraintRejected (dk : DataKind) (c : IConstraint) : Prop :=
  ¬ inSupportTable dk c.Kind ∨ (c.Kind = ConstraintKind.Enum ∧ ¬ isSliceOfKind dk c.Value)

/-- A data type derived from `test.string` that declares its own `MaxLen`. -/
def shortString : data :=
  data.mk ⟨"test", "short"⟩ DataKind_string (some testString)
    [(ConstraintKind.MaxLen, ⟨ConstraintKind.MaxLen, ConstraintValue.uint16 2, ""⟩)]

/-- `DataKind.IsFixed` of data-kind.go. -/
def IsFixed (k : DataKind) : Bool :=
  match k with
  | DataKind_int32 | DataKind_int64 | DataKind_float32 | DataKind_float64
  | DataKind_QName | DataKind_bool | DataKind_RecordID => true
  | _ => false

/-- What `newData` uses of `appDef`, a struct declared in a file not among the
sources: `app.SysData(kind)`, the system data type of a kind, and
`app.Data(name)`, the data type of a name; `none` is `nil`. -/
structure appDef where
  SysData : DataKind → Option data
  Data : QName → Option data

/-- The first statement of `newData`: the ancestor it finds, or the panic. -/
def newData.ancestor (app : appDef) (kind : DataKind) (anc : QName) : Except Error data :=
  if anc = NullQName then
    match app.SysData kind with
    | none => Except.error (Error.ErrInvalidTypeKind "system data type for data kind is not exists")
    | some ancestor => Except.ok ancestor
  else
    match app.Data anc with
    | none => Except.error (Error.ErrNameNotFound "ancestor data type not found")
    | some ancestor =>
      if kind ≠ DataKind_null ∧ ancestor.DataKind ≠ kind then
        Except.error (Error.ErrInvalidTypeKind "ancestor has wrong data type")
      else Except.ok ancestor

/-- `newData` of data.go: the data type created, or the value of the panic. -/
def newData (app : appDef) (name : QName) (kind : DataKind) (anc : QName) : Except Error data :=
  match newData.ancestor app kind anc with
  | Except.error err => Except.error err
  | Except.ok ancestor => Except.ok (data.mk name ancestor.DataKind (some ancestor) [])

/-- `newAnonymousData` of data.go. -/
def newAnonymousData (app : appDef) (kind : DataKind) (anc : QName)
    (constraints : List IConstraint) : Except Error data :=
  match newData app NullQName kind anc with
  | Except.error err => Except.error err
  | Except.ok d =>
    match d.AddConstraints constraints with
    | (_, some err) => Except.error err
    | (d, none) => Except.ok d

/-- Every data type of the ancestor chain that has an ancestor has the data
kind of that ancestor. -/
def data.kindInherited : data → Bool
  | .mk _ _ none _ => true
  | .mk _ k (some a) _ => decide (k = a.DataKind) && a.kindInherited

/-- An application with the system data type `sys.string` and the data type
`test.string` of example-data_test.go. -/
def exampleAppDef : appDef where
  SysData := fun k => if k = DataKind_string then some sysString else none
  Data := fun q =>
    if q = ⟨"sys", "string"⟩ then some sysString
    else if q = ⟨"test", "string"⟩ then some testString
    else none

/-- Modelled from the spec: the `TypeKind_*` constants are declared in a file
not among the sources. The kinds the sources and the spec name are the
constructors, and `other n` stands for every remaining value of the type. -/
inductive TypeKind where
  | Any
  | Data
  | GDoc
  | CDoc
  | ODoc
  | WDoc
  | CRecord
  | ORecord
  | WRecord
  | Object
  | View
  | Command
  | Query
  | Projector
  | other (n : Nat)
  deriving DecidableEq, Repr

/-- The error values `command.Validate` handles: `external` is an error returned
by `function.Validate`, a function not among the sources; `unloggedParam` is
the error made with `fmt.Errorf` that wraps the error `cause` of
`typeRef.valid`; `ErrInvalidTypeKind` is the error made with `fmt.Errorf` that
wraps the sentinel of that name; `joined` is the result of `errors.Join`. -/
inductive ValidateError where
  | external (text : String)
  | unloggedParam (cause : Option String)
  | ErrInvalidTypeKind (text : String)
  | joined (errs : List ValidateError)

/-- Go `errors.Join`: `nil` when every error is `nil`, otherwise an error that
holds the errors that are not, in order. -/
def errorsJoin (errs : List (Option ValidateError)) : Option ValidateError :=
  match errs.filterMap id with
  | [] => none
  | es => some (ValidateError.joined es)

/-- What `command.Validate` uses of the `command` struct of command.go:
`functionValidate` is the result of `cmd.function.Validate()`, `unlValid` the
result of `cmd.unl.valid(cmd.app)` and `UnloggedParam` the kind of the type
`cmd.UnloggedParam()` returns, `none` for `nil`; `function` and `typeRef` are
declared in files not among the sources. -/
structure command where
  functionValidate : Option ValidateError
  unlValid : Bool × Option String
  UnloggedParam : Option TypeKind

/-- `command.Validate` of command.go. -/
def command.Validate (cmd : command) : Option ValidateError :=
  let err := cmd.functionValidate
  if !cmd.unlValid.1 then
    errorsJoin [err, some (ValidateError.unloggedParam cmd.unlValid.2)]
  else
    match cmd.UnloggedParam with
    | some typ =>
      match typ with
      | TypeKind.Any => err
      | TypeKind.Data | TypeKind.ODoc | TypeKind.Object => err
      | _ =>
        errorsJoin [err, some (ValidateError.ErrInvalidTypeKind
          "unlogged parameter type must be ODoc, Object or Data")]
    | none => err

/-- The kinds `command.Validate` accepts for the unlogged parameter. -/
def unloggedKindOk (k : TypeKind) : Prop :=
  k = TypeKind.Any ∨ k = TypeKind.Data ∨ k = TypeKind.ODoc ∨ k = TypeKind.Object

end appdef

/-! ### Package istructsmem -/

namespace istructsmem

open appdef (GoMap)

/-- `RecordID` of istructs/types.go: an `IDType`, that is a `uint64`. -/
abbrev RecordID := Nat

/-- Modelled from the spec: the constant `istructs.NullRecordID` is declared in a
file that is not among the sources; it is the absent ID, the zero value of the type. -/
def NullRecordID : RecordID := 0

/-- Modelled from the spec: the names of the system fields `sys.ID` and
`sys.ParentID` (spec section 3), constants of a file not among the sources. -/
def SystemField_ID : String := "sys.ID"

/-- See `SystemField_ID`. -/
def SystemField_ParentID : String := "sys.ParentID"

/-- Errors returned by the embedded functions of event-types.go.
`ErrUnableToUpdateSystemField` is the sentinel wrapped by `updateRecType.build`;
`rowBuild` is an error returned by `rowType.build`, a function not among the
sources; `external` is an error returned by the singletons table, by the ID
generator or by another collaborator; `validate` is an error made by
`validateErrorf`; `joined` is the result of `errors.Join`, with the texts of
the errors joined; `ErrUnknownCodec` is the sentinel wrapped by
`eventType.loadFromBytes`; `readByte` is the error of reading the codec byte. -/
inductive Error where
  | ErrUnableToUpdateSystemField (msg : String)
  | rowBuild (msg : String)
  | external (msg : String)
  | validate (msg : String)
  | joined (texts : List String)
  | ErrUnknownCodec (msg : String)
  | readByte (msg : String)
  deriving DecidableEq, Repr

/-- `err.Error()`: the text of the error. A joined error gives the texts of its
errors separated by new lines, as `errors.Join` does. -/
def Error.Error : Error → String
  | .ErrUnableToUpdateSystemField msg => msg
  | .rowBuild msg => msg
  | .external msg => msg
  | .validate msg => msg
  | .joined texts => "\n".intercalate texts
  | .ErrUnknownCodec msg => msg
  | .readByte msg => msg

/-- A type of the application definition as `recordType.typ` holds it: either
the `cDoc` struct of cdoc.go, the only implementation of `appdef.ICDoc`, with
its name and its `singleton` flag, or a type of another kind. -/
inductive IType where
  | cDoc (name : appdef.QName) (singleton : Bool)
  | other (name : appdef.QName)
  deriving DecidableEq, Repr

/-- `IType.QName()`. -/
def IType.QName : IType → appdef.QName
  | .cDoc n _ => n
  | .other n => n

/-- The `ok` of the type assertion `typ.(appdef.ICDoc)`. -/
def IType.isICDoc : IType → Bool
  | .cDoc _ _ => true
  | .other _ => false

/-- `cDoc.Singleton` of cdoc.go, for a type that is an `ICDoc`. -/
def IType.Singleton : IType → Bool
  | .cDoc _ s => s
  | .other _ => false

/-- The value of a user field of a row, tagged with the data kind the row's
type declares for the field. Floating-point numbers are bit patterns. -/
inductive FieldValue where
  | int32 (v : Int)
  | int64 (v : Int)
  | float32 (bits : Nat)
  | float64 (bits : Nat)
  | bytes (v : List Nat)
  | string (v : String)
  | QName (v : appdef.QName)
  | bool (v : Bool)
  | RecordID (v : RecordID)
  deriving DecidableEq, Repr

/-- Modelled from the spec: the dynamic buffer `dyB` of a row belongs to a
library outside the repository. It is the list of the user fields that are set,
by name; the first entry of a name is the one the buffer holds. -/
abbrev dynoBuffer := List (String × FieldValue)

/-- The value the buffer holds for the field `name`, if it is set. -/
def dynoBuffer.Get (b : dynoBuffer) (name : String) : Option FieldValue :=
  GoMap.get b name

/-- `dyB.Set(name, value)`: sets the field, or clears it when the value is `nil`. -/
def dynoBuffer.Set (b : dynoBuffer) (name : String) (value : Option FieldValue) : dynoBuffer :=
  match value with
  | some v => GoMap.set b name v
  | none => b.filter (fun e => e.1 ≠ name)

/-- `dyB.IterateFields(nil, cb)`: the fields that are set, each with the value
the buffer holds for it, in the order the callback receives them. -/
def dynoBuffer.IterateFields (b : dynoBuffer) : List (String × FieldValue) :=
  b.filterMap (fun e => (dynoBuffer.Get b e.1).map (fun v => (e.1, v)))

/-- Modelled from the spec: `recordType` with its embedded `rowType` is declared
in files not among the sources. A record is its type, the system fields
`sys.ID`, `sys.ParentID`, `sys.Container`, `sys.IsActive` (spec section 3),
the buffer of its user fields and the names of the fields cleared (`nils`). -/
structure recordType where
  typ : IType
  id : RecordID
  parentID : RecordID
  container : String
  isActive : Bool
  dyB : dynoBuffer
  nils : List String
  isNew : Bool := false
  deriving DecidableEq, Repr

/-- `rowType.QName()`: the name of the row's type. -/
def recordType.QName (rec : recordType) : appdef.QName := rec.typ.QName

/-- `recordType.ID()`. -/
def recordType.ID (rec : recordType) : RecordID := rec.id

/-- `recordType.Parent()`. -/
def recordType.Parent (rec : recordType) : RecordID := rec.parentID

/-- `recordType.Container()`. -/
def recordType.Container (rec : recordType) : String := rec.container

/-- `recordType.IsActive()`. -/
def recordType.IsActive (rec : recordType) : Bool := rec.isActive

/-- `recordType.setID`. -/
def recordType.setID (rec : recordType) (value : RecordID) : recordType :=
  { rec with id := value }

/-- `recordType.setParent`. -/
def recordType.setParent (rec : recordType) (value : RecordID) : recordType :=
  { rec with parentID := value }

/-- `recordType.setActive`. -/
def recordType.setActive (rec : recordType) (value : Bool) : recordType :=
  { rec with isActive := value }

/-- `dst.copyFrom(src)`: the destination becomes a copy of the source. -/
def recordType.copyFrom (_dst : recordType) (src : recordType) : recordType := src

/-- `rowType.AsRecordID(name)`: the system fields are read from the row, a user
field from the buffer; a field that is not set, or not a record ID, reads as null. -/
def recordType.AsRecordID (rec : recordType) (name : String) : RecordID :=
  if name = SystemField_ID then rec.id
  else if name = SystemField_ParentID then rec.parentID
  else
    match rec.dyB.Get name with
    | some (FieldValue.RecordID v) => v
    | _ => NullRecordID

/-- `rowType.PutRecordID(name, value)`. -/
def recordType.PutRecordID (rec : recordType) (name : String) (value : RecordID) : recordType :=
  if name = SystemField_ID then rec.setID value
  else if name = SystemField_ParentID then rec.setParent value
  else { rec with dyB := rec.dyB.Set name (some (FieldValue.RecordID value)) }

/-- The names of the fields of the row that hold a record ID: the two system
fields and the user fields of kind RecordID that are set. -/
def recordType.recordIDFields (rec : recordType) : List String :=
  [SystemField_ID, SystemField_ParentID] ++
    rec.dyB.filterMap (fun e =>
      if e.1 = SystemField_ID ∨ e.1 = SystemField_ParentID then none
      else
        match rec.dyB.Get e.1 with
        | some (FieldValue.RecordID _) => some e.1
        | _ => none)

/-- `rowType.RecordIDs(includeNulls, cb)`: the pairs of name and value the
callback receives. The values are those the row holds when the enumeration
starts. -/
def recordType.RecordIDs (rec : recordType) (includeNulls : Bool) : List (String × RecordID) :=
  (rec.recordIDFields.map (fun n => (n, rec.AsRecordID n))).filter
    (fun e => includeNulls || e.2 != NullRecordID)

/-- `recordType.build()`, that is `rowType.build`, a function not among the
sources: it finishes the buffer of the row and reports the data errors of the
row. `rowBuild` is that check, a parameter; the fields keep their values. -/
def recordType.build (rowBuild : recordType → Option String) (rec : recordType) : Option Error :=
  (rowBuild rec).map Error.rowBuild

/-- `updateRecType` of event-types.go. -/
structure updateRecType where
  originRec : recordType
  changes : recordType
  result : recordType
  deriving DecidableEq, Repr

/-- The first loop of `updateRecType.build`: every field set in `changes` is set
in the buffer of the result. Returns the buffer and `userChanges`. -/
def updateRecType.build.applyFields (changes : dynoBuffer) (st : dynoBuffer × Bool) :
    dynoBuffer × Bool :=
  changes.IterateFields.foldl (fun st e => (st.1.Set e.1 (some e.2), true)) st

/-- The second loop of `updateRecType.build`: every name of `changes.nils` is
cleared in the buffer of the result. -/
def updateRecType.build.applyNils (nils : List String) (st : dynoBuffer × Bool) :
    dynoBuffer × Bool :=
  nils.foldl (fun st n => (st.1.Set n none, true)) st

/-- `updateRecType.build` of event-types.go: the plan entry after the call and
the error returned (`none` is `nil`). -/
def updateRecType.build (rowBuild : recordType → Option String) (upd : updateRecType) :
    updateRecType × Option Error :=
  let upd := { upd with result := upd.result.copyFrom upd.originRec }
  if upd.changes.QName = appdef.NullQName then
    (upd, none)
  else
    match upd.changes.build rowBuild with
    | some err => (upd, some err)
    | none =>
      if upd.originRec.ID ≠ upd.changes.ID then
        (upd, some (Error.ErrUnableToUpdateSystemField "record ID can not to be updated"))
      else if upd.changes.Parent ≠ NullRecordID ∧ upd.changes.Parent ≠ upd.originRec.Parent then
        (upd, some (Error.ErrUnableToUpdateSystemField "record parent ID can not to be updated"))
      else if upd.changes.Container ≠ "" ∧ upd.changes.Container ≠ upd.originRec.Container then
        (upd, some (Error.ErrUnableToUpdateSystemField "record container can not to be updated"))
      else
        let upd :=
          if upd.changes.IsActive ≠ upd.originRec.IsActive then
            { upd with result := upd.result.setActive upd.changes.IsActive }
          else upd
        let st := updateRecType.build.applyFields upd.changes.dyB (upd.result.dyB, false)
        let st := updateRecType.build.applyNils upd.changes.nils st
        let upd := { upd with result := { upd.result with dyB := st.1 } }
        let userChanges := st.2
        if userChanges then (upd, upd.result.build rowBuild)
        else (upd, none)

/-- The origin record of the sparse-update example: `{a: 1, b: 2}`. -/
def exampleOrigin : recordType :=
  { typ := IType.cDoc ⟨"test", "test"⟩ false, id := 322685000131072, parentID := NullRecordID,
    container := "", isActive := true,
    dyB := [("a", FieldValue.int32 1), ("b", FieldValue.int32 2)], nils := [] }

/-- The changes of the sparse-update example: only `a: 5`. -/
def exampleChanges : recordType :=
  { exampleOrigin with dyB := [("a", FieldValue.int32 5)] }

/-- The update-plan entry of the sparse-update example. -/
def exampleUpdate : updateRecType :=
  { originRec := exampleOrigin, changes := exampleChanges, result := exampleOrigin }

/-- An implementation of the interface `istructs.IIDGenerator`, declared in a
file not among the sources, over its internal state `σ`. `NextID(rawID, t)`
returns the storage ID or an error and the state it leaves; `UpdateOnSync(id, t)`
returns the state it leaves. -/
structure IIDGenerator (σ : Type) where
  NextID : σ → RecordID → IType → Except Error RecordID × σ
  UpdateOnSync : σ → RecordID → IType → σ

/-- What the embedded functions use of `AppConfigType` (appstruct-types.go):
`singletons` is `cfg.singletons.ID(qName)`, a method of a package not among the
sources, returning the ID of the singleton of that name or an error. -/
structure AppConfigType where
  singletons : appdef.QName → Except Error RecordID
  /-- `cfg.qNames.ID(qName)`: the ID of a known name, or an error. -/
  qNames : appdef.QName → Except Error Nat
  /-- `cfg.AppDef.TypeByName(qName)`: `none` is `nil`, no such type. -/
  TypeByName : appdef.QName → Option IType
  /-- `typ.(appdef.IContainers)`: `none` for a type that is not an
  `appdef.IContainers`, where the type assertion panics; otherwise `Container(name)`,
  the target QName of the container `name` the type declares, `none` when it
  declares no such container. -/
  Container : IType → Option (String → Option appdef.QName)

/-- `cudType` of event-types.go. -/
structure cudType where
  appCfg : AppConfigType
  creates : List recordType
  updates : GoMap RecordID updateRecType

/-- `newIDsPlanType`: the key is the raw ID, the value the storage ID. -/
abbrev newIDsPlanType := GoMap RecordID RecordID

/-- The loop of `cudType.regenerateIDsPlan` over `cud.creates`, from the plan
and the generator state reached so far. `IsRaw` is `RecordID.IsRaw`, a method
not among the sources, a parameter here. Returns the creates as the loop leaves
them, the state of the generator and the plan or the error returned. -/
def cudType.regenerateIDsPlan.loop {σ : Type} (IsRaw : RecordID → Bool)
    (appCfg : AppConfigType) (generator : IIDGenerator σ) :
    List recordType → newIDsPlanType → σ →
      List recordType × σ × Except Error newIDsPlanType
  | [], plan, g => ([], g, Except.ok plan)
  | rec :: rest, plan, g =>
    let id := rec.ID
    if !IsRaw id then
      let g := generator.UpdateOnSync g id rec.typ
      let r := cudType.regenerateIDsPlan.loop IsRaw appCfg generator rest plan g
      (rec :: r.1, r.2.1, r.2.2)
    else
      let res : Except Error RecordID × σ :=
        if rec.typ.isICDoc && rec.typ.Singleton then (appCfg.singletons rec.QName, g)
        else generator.NextID g id rec.typ
      match res with
      | (Except.error err, g) => (rec :: rest, g, Except.error err)
      | (Except.ok storeID, g) =>
        let r := cudType.regenerateIDsPlan.loop IsRaw appCfg generator rest
          (GoMap.set plan id storeID) g
        (rec.setID storeID :: r.1, r.2.1, r.2.2)

/-- `cudType.regenerateIDsPlan` of event-types.go: the CUD and the generator
state after the call, and the plan (`Except.error` stands for `nil, err`). -/
def cudType.regenerateIDsPlan {σ : Type} (IsRaw : RecordID → Bool) (cud : cudType)
    (generator : IIDGenerator σ) (g : σ) : cudType × σ × Except Error newIDsPlanType :=
  let r := cudType.regenerateIDsPlan.loop IsRaw cud.appCfg generator cud.creates [] g
  ({ cud with creates := r.1 }, r.2.1, r.2.2)

/-- The callback both `regenerateIDsInRecord` and `regenerateIDsInUpdateRecord`
pass to `RecordIDs`, on the record and the flag `changes`. -/
def regenerateIDsCallback (IsRaw : RecordID → Bool) (newIDs : newIDsPlanType)
    (st : recordType × Bool) (e : String × RecordID) : recordType × Bool :=
  if !IsRaw e.2 then st
  else
    match GoMap.get newIDs e.2 with
    | some id => (st.1.PutRecordID e.1 id, true)
    | none => st

/-- `regenerateIDsInRecord` of event-types.go: the record after the call and the
error returned. -/
def regenerateIDsInRecord (IsRaw : RecordID → Bool) (rowBuild : recordType → Option String)
    (rec : recordType) (newIDs : newIDsPlanType) : recordType × Option Error :=
  let st := (rec.RecordIDs false).foldl (regenerateIDsCallback IsRaw newIDs) (rec, false)
  if st.2 then (st.1, st.1.build rowBuild)
  else (st.1, none)

/-- `regenerateIDsInUpdateRecord` of event-types.go: the plan entry after the
call and the error returned. -/
def regenerateIDsInUpdateRecord (IsRaw : RecordID → Bool)
    (rowBuild : recordType → Option String)
    (rec : updateRecType) (newIDs : newIDsPlanType) : updateRecType × Option Error :=
  let st := (rec.changes.RecordIDs false).foldl (regenerateIDsCallback IsRaw newIDs)
    (rec.changes, false)
  let upd := { rec with changes := st.1 }
  if st.2 then upd.build rowBuild
  else (upd, none)

/-- The loop of `cudType.regenerateIDs` over `cud.creates`. -/
def cudType.regenerateIDs.creates (IsRaw : RecordID → Bool)
    (rowBuild : recordType → Option String) (newIDs : newIDsPlanType) :
    List recordType → List recordType × Option Error
  | [] => ([], none)
  | rec :: rest =>
    match regenerateIDsInRecord IsRaw rowBuild rec newIDs with
    | (rec, some err) => (rec :: rest, some err)
    | (rec, none) =>
      let r := cudType.regenerateIDs.creates IsRaw rowBuild newIDs rest
      (rec :: r.1, r.2)

/-- The loop of `cudType.regenerateIDs` over `cud.updates`. -/
def cudType.regenerateIDs.updates (IsRaw : RecordID → Bool)
    (rowBuild : recordType → Option String) (newIDs : newIDsPlanType) :
    GoMap RecordID updateRecType → GoMap RecordID updateRecType × Option Error
  | [] => ([], none)
  | (k, rec) :: rest =>
    match regenerateIDsInUpdateRecord IsRaw rowBuild rec newIDs with
    | (rec, some err) => ((k, rec) :: rest, some err)
    | (rec, none) =>
      let r := cudType.regenerateIDs.updates IsRaw rowBuild newIDs rest
      ((k, rec) :: r.1, r.2)

/-- `cudType.regenerateIDs` of event-types.go: the CUD and the generator state
after the call and the error returned. -/
def cudType.regenerateIDs {σ : Type} (IsRaw : RecordID → Bool)
    (rowBuild : recordType → Option String) (cud : cudType)
    (generator : IIDGenerator σ) (g : σ) : cudType × σ × Option Error :=
  match cudType.regenerateIDsPlan IsRaw cud generator g with
  | (cud, g, Except.error err) => (cud, g, some err)
  | (cud, g, Except.ok newIDs) =>
    match cudType.regenerateIDs.creates IsRaw rowBuild newIDs cud.creates with
    | (creates, some err) => ({ cud with creates := creates }, g, some err)
    | (creates, none) =>
      let cud := { cud with creates := creates }
      match cudType.regenerateIDs.updates IsRaw rowBuild newIDs cud.updates with
      | (updates, some err) => ({ cud with updates := updates }, g, some err)
      | (updates, none) => ({ cud with updates := updates }, g, none)

/-- A call of a method of the ID generator. -/
inductive GeneratorCall where
  | NextID (rawID : RecordID) (t : IType)
  | UpdateOnSync (syncID : RecordID) (t : IType)
  deriving DecidableEq, Repr

/-- The generator that behaves as `generator` and keeps the list of the calls it
receives, in order. -/
def recordCalls {σ : Type} (generator : IIDGenerator σ) : IIDGenerator (σ × List GeneratorCall) where
  NextID := fun st rawID t =>
    let r := generator.NextID st.1 rawID t
    (r.1, (r.2, st.2 ++ [GeneratorCall.NextID rawID t]))
  UpdateOnSync := fun st id t =>
    (generator.UpdateOnSync st.1 id t, st.2 ++ [GeneratorCall.UpdateOnSync id t])

/-- A generator that issues consecutive storage IDs; its state is the next ID. -/
def sequentialGenerator : IIDGenerator RecordID where
  NextID := fun next _ _ => (Except.ok next, next + 1)
  UpdateOnSync := fun next id _ => if next ≤ id then id + 1 else next

/-- A raw ID as the tests use them: a small positive number. -/
def exampleIsRaw (id : RecordID) : Bool := decide (1 ≤ id) && decide (id ≤ 65535)

/-- The application of the examples: `test.settings` is a singleton with a
fixed storage ID. -/
def exampleAppCfg : AppConfigType where
  singletons := fun q =>
    if q = ⟨"test", "settings"⟩ then Except.ok 65536
    else Except.error (Error.external "singleton not found")
  qNames := fun q =>
    if q = ⟨"test", "doc"⟩ then Except.ok 300
    else if q = ⟨"test", "rec"⟩ then Except.ok 301
    else if q = ⟨"test", "settings"⟩ then Except.ok 302
    else if q = ⟨"sys", "CUD"⟩ then Except.ok 303
    else Except.error (Error.external "name not found")
  TypeByName := fun q =>
    if q = ⟨"test", "doc"⟩ then some (IType.cDoc q false)
    else if q = ⟨"test", "rec"⟩ then some (IType.other q)
    else if q = ⟨"test", "settings"⟩ then some (IType.cDoc q true)
    else none
  Container := fun t =>
    if t = IType.other ⟨"test", "view"⟩ then none
    else some (fun name =>
      if t = IType.cDoc ⟨"test", "doc"⟩ false ∧ name = "rec" then some ⟨"test", "rec"⟩
      else none)

/-- A new record of type `typ` with the ID `id` and the user fields `fields`. -/
def exampleRecord (typ : IType) (id : RecordID) (fields : dynoBuffer) : recordType :=
  { typ := typ, id := id, parentID := NullRecordID, container := "", isActive := true,
    dyB := fields, nils := [] }

/-- A new document with raw ID 1. -/
def exampleDoc : recordType := exampleRecord (IType.cDoc ⟨"test", "doc"⟩ false) 1 []

/-- A new record with raw ID 2 whose field `ref` refers to raw ID 1. -/
def exampleRef : recordType :=
  exampleRecord (IType.other ⟨"test", "rec"⟩) 2 [("ref", FieldValue.RecordID 1)]

/-- A new singleton with raw ID 3. -/
def exampleSettings : recordType := exampleRecord (IType.cDoc ⟨"test", "settings"⟩ true) 3 []

/-- A CUD with three creates: the document, the record that refers to it and
the singleton. -/
def exampleCUD : cudType where
  appCfg := exampleAppCfg
  creates := [exampleDoc, exampleRef, exampleSettings]
  updates := []

/-- No call of the list is a `NextID` for a type that is a singleton CDoc. -/
def noSingletonNextID (log : List GeneratorCall) : Prop :=
  ∀ id t, GeneratorCall.NextID id t ∈ log → (t.isICDoc && t.Singleton) = false

/-- The ID a record-ID field holds after the rewriting of `regenerateIDs`: the
storage ID of the plan for a value that is a raw ID present in the plan, the
value itself otherwise. -/
def planID (IsRaw : RecordID → Bool) (newIDs : newIDsPlanType) (value : RecordID) : RecordID :=
  if value ≠ NullRecordID ∧ IsRaw value = true then
    match GoMap.get newIDs value with
    | some id => id
    | none => value
  else value

/-- `rowType.setContainer`. -/
def recordType.setContainer (rec : recordType) (value : String) : recordType :=
  { rec with container := value }

/-- Modelled from the spec: `makeRecord`, the constructor of an empty record, is
not among the sources. The record has no type name, null IDs, no container and
no user fields. -/
def makeRecord : recordType :=
  { typ := IType.other appdef.NullQName, id := NullRecordID, parentID := NullRecordID,
    container := "", isActive := true, dyB := [], nils := [] }

/-- Modelled from the spec: `rowType.setQName`, not among the sources, gives the
row the type of that name in the application definition; a name the definition
does not know leaves the row without type name. -/
def recordType.setQName (appCfg : AppConfigType) (rec : recordType) (value : appdef.QName) :
    recordType :=
  match appCfg.TypeByName value with
  | some t => { rec with typ := t }
  | none => { rec with typ := IType.other appdef.NullQName }

/-- `objectType` of event-types.go: the record and the children. The field
`parent` points back to the node that holds this one among its children. -/
inductive objectType where
  | mk (rec : recordType) (child : List objectType)

/-- The embedded `recordType` of an object. -/
def objectType.record : objectType → recordType
  | .mk r _ => r

/-- The field `child`. -/
def objectType.child : objectType → List objectType
  | .mk _ cs => cs

mutual
/-- `objectType.forEach` of event-types.go, for a callback that works on the
state `S` of its closure and on the record of the node it is given; the
callback returns the record, the state and the error. A callback error ends
the walk. -/
def objectType.forEach {S : Type} (cb : S → objectType → recordType × S × Option Error) :
    S → objectType → objectType × S × Option Error
  | s, .mk r cs =>
    match cb s (.mk r cs) with
    | (r1, s1, some err) => (.mk r1 cs, s1, some err)
    | (r1, s1, none) =>
      let res := objectType.forEach.children cb s1 cs
      (.mk r1 res.1, res.2.1, res.2.2)
/-- The loop `for _, e := range o.child` of `objectType.forEach`. -/
def objectType.forEach.children {S : Type}
    (cb : S → objectType → recordType × S × Option Error) :
    S → List objectType → List objectType × S × Option Error
  | s, [] => ([], s, none)
  | s, e :: rest =>
    match objectType.forEach cb s e with
    | (e1, s1, some err) => (e1 :: rest, s1, some err)
    | (e1, s1, none) =>
      let res := objectType.forEach.children cb s1 rest
      (e1 :: res.1, res.2.1, res.2.2)
end

/-- `objectType.build` of event-types.go: `rowType.build` on the object and on
all its children, the first error returned. -/
def objectType.build (rowBuild : recordType → Option String) (o : objectType) : Option Error :=
  (objectType.forEach (fun (_ : Unit) c => (c.record, (), c.record.build rowBuild)) () o).2.2

/-- The callback of the first walk of `objectType.regenerateIDs`, on the plan
and the state of the generator; `rec` is the record of the node visited. -/
def objectType.regenerateIDs.assign {σ : Type} (IsRaw : RecordID → Bool)
    (generator : IIDGenerator σ) (st : newIDsPlanType × σ) (rec : recordType) :
    recordType × (newIDsPlanType × σ) × Option Error :=
  let id := rec.ID
  if IsRaw id then
    match generator.NextID st.2 id rec.typ with
    | (Except.error err, g) => (rec, (st.1, g), some err)
    | (Except.ok storeID, g) => (rec.setID storeID, (GoMap.set st.1 id storeID, g), none)
  else (rec, st, none)

/-- Go `newIDs[id]` without the `ok`: the zero value for a key the map lacks. -/
def newIDsPlanType.at (newIDs : newIDsPlanType) (id : RecordID) : RecordID :=
  match GoMap.get newIDs id with
  | some v => v
  | none => 0

/-- The callback that the second walk of `objectType.regenerateIDs` passes to
`RecordIDs`, on the record and the flag `changes`. -/
def objectType.regenerateIDs.put (IsRaw : RecordID → Bool) (newIDs : newIDsPlanType)
    (st : recordType × Bool) (e : String × RecordID) : recordType × Bool :=
  if IsRaw e.2 then (st.1.PutRecordID e.1 (newIDs.at e.2), true)
  else st

/-- What the callback of the second walk of `objectType.regenerateIDs` makes of
the record of a node: the record and the flag `changes`. -/
def objectType.regenerateIDs.rewriteRecord (IsRaw : RecordID → Bool)
    (newIDs : newIDsPlanType) (rec : recordType) : recordType × Bool :=
  let rec1 := if IsRaw rec.Parent then rec.setParent (newIDs.at rec.Parent) else rec
  (rec1.RecordIDs false).foldl (objectType.regenerateIDs.put IsRaw newIDs) (rec1, false)

/-- The callback of the second walk of `objectType.regenerateIDs`. -/
def objectType.regenerateIDs.rewrite (IsRaw : RecordID → Bool)
    (rowBuild : recordType → Option String) (newIDs : newIDsPlanType)
    (_ : Unit) (c : objectType) : recordType × Unit × Option Error :=
  let st := objectType.regenerateIDs.rewriteRecord IsRaw newIDs c.record
  if st.2 then (st.1, (), (objectType.mk st.1 c.child).build rowBuild)
  else (st.1, (), none)

/-- `objectType.regenerateIDs` of event-types.go: the object and the state of the
generator after the call, and the error returned. -/
def objectType.regenerateIDs {σ : Type} (IsRaw : RecordID → Bool)
    (rowBuild : recordType → Option String) (generator : IIDGenerator σ) (g : σ)
    (o : objectType) : objectType × σ × Option Error :=
  match objectType.forEach
      (fun st c => objectType.regenerateIDs.assign IsRaw generator st c.record) ([], g) o with
  | (o1, st, some err) => (o1, st.2, some err)
  | (o1, st, none) =>
    let res := objectType.forEach (objectType.regenerateIDs.rewrite IsRaw rowBuild st.1) () o1
    (res.1, st.2, res.2.2)

mutual
/-- The records of the object and of all its children, in the order `forEach`
visits them. -/
def objectType.nodes : objectType → List recordType
  | .mk r cs => r :: objectType.nodes.children cs
/-- The records of a list of objects, in the order `forEach` visits them. -/
def objectType.nodes.children : List objectType → List recordType
  | [] => []
  | c :: rest => objectType.nodes c ++ objectType.nodes.children rest
end

/-- The states the generator is in when the first walk of `regenerateIDs`
reaches each node of the list, followed by the state it is left in: a node with
a raw ID has `NextID` called, any other node leaves the generator alone. -/
def generatorStates {σ : Type} (IsRaw : RecordID → Bool) (generator : IIDGenerator σ) :
    σ → List recordType → List σ
  | g, [] => [g]
  | g, r :: rest =>
    g :: generatorStates IsRaw generator
      (if IsRaw r.ID then (generator.NextID g r.ID r.typ).2 else g) rest

/-- A generator that issues consecutive storage IDs above the raw IDs; its
state is the number of IDs issued. -/
def storageGenerator : IIDGenerator Nat where
  NextID := fun n _ _ => (Except.ok (65536 + n), n + 1)
  UpdateOnSync := fun n _ _ => n

/-- An object tree: a document with raw ID 1 and two children; the first child,
raw ID 2, refers in `next` to its sibling visited later, raw ID 3; both children
have the raw ID of the document as parent. -/
def exampleObject : objectType :=
  .mk (exampleRecord (IType.cDoc ⟨"test", "doc"⟩ false) 1 [])
    [ .mk { exampleRecord (IType.other ⟨"test", "rec"⟩) 2 [("next", FieldValue.RecordID 3)]
            with parentID := 1, container := "rec" } [],
      .mk { exampleRecord (IType.other ⟨"test", "rec"⟩) 3 [("doc", FieldValue.RecordID 1)]
            with parentID := 1, container := "rec" } [] ]

/-- A walk over a list of records with a callback that cannot be refused: the
records and the state it leaves, or `none` when `fails` holds at some record. -/
def runNodes {S : Type} (rcb : S → recordType → recordType × S)
    (fails : S → recordType → Bool) : S → List recordType → Option (List recordType × S)
  | s, [] => some ([], s)
  | s, r :: rest =>
    if fails s r then none
    else
      match runNodes rcb fails (rcb s r).2 rest with
      | some (l, s') => some ((rcb s r).1 :: l, s')
      | none => none

/-- The first walk of `objectType.regenerateIDs` over the records of the nodes
in visiting order, when no `NextID` fails: the records, the plan and the state
of the generator it leaves. -/
def assignNodes {σ : Type} (IsRaw : RecordID → Bool) (generator : IIDGenerator σ)
    (st : newIDsPlanType × σ) (l : List recordType) :
    Option (List recordType × (newIDsPlanType × σ)) :=
  runNodes
    (fun s r => ((objectType.regenerateIDs.assign IsRaw generator s r).1,
      (objectType.regenerateIDs.assign IsRaw generator s r).2.1))
    (fun s r => (objectType.regenerateIDs.assign IsRaw generator s r).2.2.isSome) st l

/-- `cudType.applyRecs` of event-types.go, the loop over `cud.creates`: the
records passed to `store` and the error returned. -/
def cudType.applyRecs.creates (store : recordType → Option Error) :
    List recordType → List recordType × Option Error
  | [] => ([], none)
  | rec :: rest =>
    match store rec with
    | some err => ([rec], some err)
    | none =>
      let r := cudType.applyRecs.creates store rest
      (rec :: r.1, r.2)

/-- `cudType.applyRecs` of event-types.go, the loop over `cud.updates`: the
entries as the loop leaves them, the records passed to `store` and the error
returned. `empty` is `rowType.empty`, a method not among the sources; `load`
gives the record it fills and its error. -/
def cudType.applyRecs.updates (empty : recordType → Bool)
    (rowBuild : recordType → Option String)
    (load : recordType → recordType × Option Error) (store : recordType → Option Error) :
    GoMap RecordID updateRecType →
      GoMap RecordID updateRecType × List recordType × Option Error
  | [] => ([], [], none)
  | (k, u) :: rest =>
    let loaded : updateRecType × Option Error :=
      if empty u.originRec then
        match load u.originRec with
        | (origin, some err) => ({ u with originRec := origin }, some err)
        | (origin, none) => updateRecType.build rowBuild { u with originRec := origin }
      else (u, none)
    match loaded with
    | (u, some err) => ((k, u) :: rest, [], some err)
    | (u, none) =>
      match store u.result with
      | some err => ((k, u) :: rest, [u.result], some err)
      | none =>
        let r := cudType.applyRecs.updates empty rowBuild load store rest
        ((k, u) :: r.1, u.result :: r.2.1, r.2.2)

/-- `cudType.applyRecs` of event-types.go: the CUD after the call, the records
passed to `store`, in order, and the error returned. -/
def cudType.applyRecs (empty : recordType → Bool) (rowBuild : recordType → Option String)
    (load : recordType → recordType × Option Error) (store : recordType → Option Error)
    (cud : cudType) : cudType × List recordType × Option Error :=
  match cudType.applyRecs.creates store cud.creates with
  | (stored, some err) => (cud, stored, some err)
  | (stored, none) =>
    let r := cudType.applyRecs.updates empty rowBuild load store cud.updates
    ({ cud with updates := r.1 }, stored ++ r.2.1, r.2.2)

/-- `makeCUD` of event-types.go. -/
def makeCUD (appCfg : AppConfigType) : cudType :=
  { appCfg := appCfg, creates := [], updates := [] }

/-- `cudType.enumRecs` of event-types.go: the rows the callback receives, in order. -/
def cudType.enumRecs (cud : cudType) : List recordType :=
  cud.creates ++ cud.updates.map (fun e => e.2.changes)

/-- `cudType.Create` of event-types.go: the CUD after the call and the record
returned as writer. -/
def cudType.Create (cud : cudType) (qName : appdef.QName) : cudType × recordType :=
  let r := makeRecord
  let r := { r with isNew := true }
  let r := r.setQName cud.appCfg qName
  ({ cud with creates := cud.creates ++ [r] }, r)

/-- `newUpdateRec` of event-types.go. -/
def newUpdateRec (appCfg : AppConfigType) (rec : recordType) : updateRecType :=
  let originRec := makeRecord.copyFrom rec
  let changes := makeRecord.setQName appCfg rec.QName
  let changes := changes.setID rec.ID
  let changes := changes.setParent rec.Parent
  let changes := changes.setContainer rec.Container
  let changes := changes.setActive rec.IsActive
  let result := makeRecord.copyFrom originRec
  { originRec := originRec, changes := changes, result := result }

/-- `cudType.Update` of event-types.go: the CUD after the call and the key of the
entry whose `changes` the returned writer writes. -/
def cudType.Update (cud : cudType) (record : recordType) : cudType × RecordID :=
  let id := record.ID
  match GoMap.get cud.updates id with
  | some _ => (cud, id)
  | none =>
    ({ cud with updates := GoMap.set cud.updates id (newUpdateRec cud.appCfg record) }, id)

/-- `cudType.build` of event-types.go, the loop over `cud.creates`. -/
def cudType.build.creates (rowBuild : recordType → Option String) :
    List recordType → Option Error
  | [] => none
  | rec :: rest =>
    match rec.build rowBuild with
    | some err => some err
    | none => cudType.build.creates rowBuild rest

/-- `cudType.build` of event-types.go, the loop over `cud.updates`. -/
def cudType.build.updates (rowBuild : recordType → Option String) :
    GoMap RecordID updateRecType → GoMap RecordID updateRecType × Option Error
  | [] => ([], none)
  | (k, u) :: rest =>
    match u.build rowBuild with
    | (u, some err) => ((k, u) :: rest, some err)
    | (u, none) =>
      let r := cudType.build.updates rowBuild rest
      ((k, u) :: r.1, r.2)

/-- `cudType.build` of event-types.go. -/
def cudType.build (rowBuild : recordType → Option String) (cud : cudType) :
    cudType × Option Error :=
  match cudType.build.creates rowBuild cud.creates with
  | some err => (cud, some err)
  | none =>
    let r := cudType.build.updates rowBuild cud.updates
    ({ cud with updates := r.1 }, r.2)

/-- Go `errors.Join`: `nil` when every error is `nil`, otherwise an error whose
text joins the texts of the errors that are not. -/
def errorsJoin (errs : List (Option Error)) : Option Error :=
  match errs.filterMap id with
  | [] => none
  | es => some (Error.joined (es.map Error.Error))

/-- `eventErrorType` of event-types.go; `bytes` is the content of the slice,
`nil` being the empty content. -/
structure eventErrorType where
  validEvent : Bool
  errStr : String
  qName : appdef.QName
  bytes : List Nat
  deriving DecidableEq, Repr

/-- `makeEventError` of event-types.go. -/
def makeEventError : eventErrorType :=
  { validEvent := true, errStr := "", qName := appdef.NullQName, bytes := [] }

/-- `eventType` of event-types.go. Byte slices are the lists of their bytes;
`buffer` is `none` for `nil`, otherwise the bytes the pooled buffer holds. -/
structure eventType where
  appCfg : AppConfigType
  rawBytes : List Nat
  partition : Nat
  pLogOffs : Nat
  ws : Nat
  wLogOffs : Nat
  name : appdef.QName
  regTime : Int
  sync : Bool
  device : Nat
  syncTime : Int
  argObject : objectType
  argUnlObj : objectType
  cud : cudType
  buildErr : eventErrorType
  buffer : Option (List Nat)

/-- Modelled from the spec: `utils.CopyBytes`, not among the sources, returns a
copy of the bytes (spec section 4.5: a copy of the original raw bytes). -/
def CopyBytes (b : List Nat) : List Nat := b

/-- `eventErrorType.setError` of event-types.go; `none` is the `nil` error. -/
def eventErrorType.setError (_e : eventErrorType) (event : eventType) (err : Option Error) :
    eventErrorType :=
  match err with
  | none => { validEvent := true, errStr := "", qName := appdef.NullQName, bytes := [] }
  | some err =>
    { validEvent := false, errStr := err.Error, qName := event.name,
      bytes := CopyBytes event.rawBytes }

/-- `eventErrorType.ErrStr`. -/
def eventErrorType.ErrStr (e : eventErrorType) : String := e.errStr

/-- `eventErrorType.QNameFromParams`. -/
def eventErrorType.QNameFromParams (e : eventErrorType) : appdef.QName := e.qName

/-- `eventErrorType.ValidEvent`. -/
def eventErrorType.ValidEvent (e : eventErrorType) : Bool := e.validEvent

/-- `eventErrorType.OriginalEventBytes`. -/
def eventErrorType.OriginalEventBytes (e : eventErrorType) : List Nat := e.bytes

/-- `eventType.setBuildError` of event-types.go. -/
def eventType.setBuildError (ev : eventType) (err : Option Error) : eventType :=
  { ev with buildErr := ev.buildErr.setError ev err }

/-- `eventType.valid` of event-types.go. -/
def eventType.valid (ev : eventType) : Bool := ev.buildErr.validEvent

/-- `eventType.build` of event-types.go: the event after the call and the error
returned. -/
def eventType.build (rowBuild : recordType → Option String) (ev : eventType) :
    eventType × Option Error :=
  if ev.name = appdef.NullQName then
    (ev, some (Error.validate "empty event command name"))
  else
    match ev.appCfg.qNames ev.name with
    | Except.error _ => (ev, some (Error.validate "unknown event command name"))
    | Except.ok _ =>
      let e1 := ev.argObject.build rowBuild
      let e2 := ev.argUnlObj.build rowBuild
      let r := ev.cud.build rowBuild
      ({ ev with cud := r.1 }, errorsJoin [e1, e2, r.2])

/-- `eventType.storeToBytes` of event-types.go. `codec_LastVersion` is a constant
and `storeEvent` the encoder, both of files not among the sources; the encoder
works on a state `ε` of its own and returns the bytes it writes. Returns the
event after the call, the bytes returned and the state of the encoder. -/
def eventType.storeToBytes {ε : Type} (codec_LastVersion : Nat)
    (storeEvent : ε → eventType → List Nat × ε) (enc : ε) (ev : eventType) :
    eventType × List Nat × ε :=
  match ev.buffer with
  | none =>
    let ev := { ev with buffer := some [] }
    let r := storeEvent enc ev
    let b := codec_LastVersion :: r.1
    ({ ev with buffer := some b }, b, r.2)
  | some b => (ev, b, enc)

/-- `eventType.Free` of event-types.go: the pooled buffers are given back. -/
def eventType.Free (ev : eventType) : eventType :=
  { ev with buffer := none }

/-- `eventType.loadFromBytes` of event-types.go. The codec constants and the
decoder `loadEvent` belong to files not among the sources and are parameters;
`loadEvent` gives the event it leaves and its error. Reading the codec byte
fails on an empty slice. -/
def eventType.loadFromBytes (codec_RawDynoBuffer codec_RDB_1 : Nat)
    (loadEvent : eventType → Nat → List Nat → eventType × Option Error)
    (ev : eventType) (input : List Nat) : eventType × Option Error :=
  match input with
  | [] => (ev, some (Error.readByte "error read codec version"))
  | codec :: buf =>
    if codec = codec_RawDynoBuffer ∨ codec = codec_RDB_1 then
      match loadEvent ev codec buf with
      | (ev, some err) => (ev, some err)
      | (ev, none) => (ev, none)
    else (ev, some (Error.ErrUnknownCodec "unknown codec version"))

/-- `objectType.QName`. -/
def objectType.QName (o : objectType) : appdef.QName := o.record.QName

/-- `makeObject` of event-types.go with the null name, as `newObject` calls it
in `ChildBuilder`. -/
def makeObject : objectType := .mk makeRecord []

/-- `objectType.ChildBuilder` of event-types.go: the object after the call, the
child appended to it, and whether the call panicked instead of returning the
child (the type assertion on a parent type that is not an `appdef.IContainers`,
made after the child is appended). -/
def objectType.ChildBuilder (appCfg : AppConfigType) (o : objectType)
    (containerName : String) : objectType × objectType × Bool :=
  let c := makeObject
  let o1 : objectType := .mk o.record (o.child ++ [c])
  if o.QName ≠ appdef.NullQName then
    match appCfg.Container o.record.typ with
    | none => (o1, c, true)
    | some container =>
      match container containerName with
      | some contQName =>
        let r := c.record.setQName appCfg contQName
        let c : objectType :=
          if r.QName ≠ appdef.NullQName then
            let r := if o.record.ID ≠ NullRecordID then r.setParent o.record.ID else r
            .mk (r.setContainer containerName) c.child
          else .mk r c.child
        (.mk o.record (o.child ++ [c]), c, false)
      | none => (o1, c, false)
  else (o1, c, false)

/-- `eventType.Error` of event-types.go. -/
def eventType.Error (ev : eventType) : eventErrorType := ev.buildErr

/-- A row check that refuses the records whose ID is 1. -/
def rejectRawOne (rec : recordType) : Option String :=
  if rec.id = 1 then some "field is required" else none

/-- An event `sys.CUD` with the raw bytes 1, 2, 3, no arguments and the CUD of
the examples. -/
def exampleEvent : eventType :=
  { appCfg := exampleAppCfg, rawBytes := [1, 2, 3], partition := 1, pLogOffs := 10, ws := 7,
    wLogOffs := 4, name := ⟨"sys", "CUD"⟩, regTime := 1700000000000, sync := false,
    device := 0, syncTime := 0, argObject := makeObject, argUnlObj := makeObject,
    cud := exampleCUD, buildErr := makeEventError, buffer := none }

/-- An encoder for the examples: it writes the partition and the offset of the
event; its state counts its runs. -/
def exampleStoreEvent (runs : Nat) (ev : eventType) : List Nat × Nat :=
  ([ev.partition, ev.pLogOffs], runs + 1)

/-- A reading of `rowType.empty` for the examples: the record has no type name. -/
def exampleEmpty (rec : recordType) : Bool := decide (rec.QName = appdef.NullQName)

/-- An update entry read back from the log: the origin is not loaded and
the result is empty; the changes are those of `exampleUpdate`. -/
def exampleReloaded : updateRecType :=
  { originRec := makeRecord, changes := exampleChanges, result := makeRecord }

/-- The record `applyRecs` passes to `store` for an update entry. -/
def storedResult (empty : recordType → Bool) (rowBuild : recordType → Option String)
    (load : recordType → recordType × Option Error) (u : updateRecType) : recordType :=
  if empty u.originRec then
    (updateRecType.build rowBuild { u with originRec := (load u.originRec).1 }).1.result
  else u.result

/-- An object tree with references that lead out of the tree: a document with
raw ID 1 and one child, raw ID 2, whose parent ID, raw ID 9, and whose field
`other`, raw ID 7, are the raw IDs of no node. -/
def danglingObject : objectType :=
  .mk (exampleRecord (IType.cDoc ⟨"test", "doc"⟩ false) 1 [])
    [ .mk { exampleRecord (IType.other ⟨"test", "rec"⟩) 2 [("other", FieldValue.RecordID 7)]
            with parentID := 9, container := "rec" } [] ]

/-- The event of the examples with the object tree of the examples as argument:
with `rejectRawOne` both the argument and the CUD plan fail to build. -/
def exampleFailingEvent : eventType := { exampleEvent with argObject := exampleObject }

/-- An update-plan entry that `build` rejects: the changes set `a: 5`, clear
`sys.IsActive` and name a container the origin does not have; the result holds
what an earlier build left. -/
def exampleRejectedUpdate : updateRecType :=
  { originRec := exampleOrigin,
    changes := { exampleChanges with container := "other", isActive := false },
    result := exampleChanges }

end istructsmem

/-! ### Package uniques -/

namespace uniques

open appdef (GoMap)
open istructsmem (RecordID NullRecordID FieldValue)

/-- Errors returned by the embedded functions of sys/uniques/impl.go. `conflict`
is the `coreutils.SysError` the function `conflict` makes: its HTTP status and,
of its message, the three arguments; the message also holds the text of the
sentinel `ErrUniqueConstraintViolation`. `ErrRecordNotFound` is the sentinel
of `istructsmem`; `external` is another error of the storage; `panic` is the
panic of a failed type assertion. -/
inductive Error where
  | conflict (HTTPStatus : Nat) (docQName : appdef.QName) (conflictingWithID : RecordID)
      (uniqueQName : appdef.QName)
  | ErrUniqueFieldUpdateDeny (msg : String)
  | ErrUniqueValueTooLong (msg : String)
  | ErrRecordNotFound
  | external (msg : String)
  | panic (msg : String)
  deriving DecidableEq, Repr

/-- Go `http.StatusConflict`. -/
def StatusConflict : Nat := 409

/-- Modelled from the spec: the name of the system field `sys.IsActive`
(spec section 3), a constant of a file not among the sources. -/
def SystemField_IsActive : String := "sys.IsActive"

/-- What the embedded functions use of `appdef.IField`. -/
structure IField where
  Name : String
  DataKind : appdef.DataKind
  deriving DecidableEq, Repr

/-- A row as `getUniqueKeyValues` reads it. `coreutils.ReadByKind` and
`binary.Write` are not among the sources: for the name and the kind of a field
the row gives the bytes the buffer receives for its value, which are the bytes
of a string, the content of a byte slice, and for any other kind what
`binary.Write` writes in big-endian order. -/
abbrev IRowReader := String → appdef.DataKind → List Nat

/-- The loop of `getUniqueKeyValues` over `uniqueFields`, on the content of the
buffer; `n` is `len(uniqueFields)`. -/
def getUniqueKeyValues.loop (zeroByte : Nat) (rec : IRowReader) (n : Nat) :
    List IField → List Nat → List Nat
  | [], buf => buf
  | uniqueField :: rest, buf =>
    let val := rec uniqueField.Name uniqueField.DataKind
    let buf :=
      match uniqueField.DataKind with
      | appdef.DataKind_string => (if n > 1 then buf ++ [zeroByte] else buf) ++ val
      | appdef.DataKind_bytes => (if n > 1 then buf ++ [zeroByte] else buf) ++ val
      | _ => buf ++ val
    getUniqueKeyValues.loop zeroByte rec n rest buf

/-- `getUniqueKeyValues` of impl.go. The constants `zeroByte` and
`appdef.MaxFieldLength` are declared in files not among the sources and are
parameters; `uniqueQName` enters only the text of the error. -/
def getUniqueKeyValues (zeroByte MaxFieldLength : Nat) (rec : IRowReader)
    (uniqueFields : List IField) : Except Error (List Nat) :=
  let buf := getUniqueKeyValues.loop zeroByte rec uniqueFields.length uniqueFields []
  if buf.length > MaxFieldLength then
    Except.error (Error.ErrUniqueValueTooLong "resulting len of the unique combination is too long")
  else Except.ok buf

/-- `uniqueViewRecord` of impl.go. -/
structure uniqueViewRecord where
  refRecordID : RecordID
  deriving DecidableEq, Repr

/-- The type of `uniquesState`: by the name of the CUD, by the name of the
unique, by the key bytes. -/
abbrev uniquesStateType :=
  GoMap appdef.QName (GoMap appdef.QName (GoMap (List Nat) uniqueViewRecord))

/-- What the embedded functions use of `istructs.IAppStructs`, at the workspace
of the event: `uniquesOf` is `AppDef().Type(qName).(appdef.IUniques)`, `none`
when the assertion fails, otherwise the uniques of the type, each with its
name and fields, and its unique field, if any; `RecordsGet` is
`Records().Get(wsid, true, id)`; `ViewRecordsGet` is `ViewRecords().Get(wsid, kb)`
for the key of a unique name and key bytes, returning the field `ID` of the
view record or an error. -/
structure IAppStructs where
  uniquesOf : appdef.QName → Option (List (appdef.QName × List IField) × Option IField)
  RecordsGet : RecordID → Except Error IRowReader
  ViewRecordsGet : appdef.QName → List Nat → Except Error RecordID

/-- What the embedded functions use of `istructs.ICUDRow`: `row` reads the
fields of the row, `ModifiedFields` are the pairs the callback of
`ModifiedFields` receives, in order. -/
structure ICUDRow where
  QName : appdef.QName
  IsNew : Bool
  ID : RecordID
  row : IRowReader
  ModifiedFields : List (String × FieldValue)

/-- `conflict` of impl.go. -/
def conflict (docQName : appdef.QName) (conflictingWithID : RecordID)
    (uniqueQName : appdef.QName) : Error :=
  Error.conflict StatusConflict docQName conflictingWithID uniqueQName

/-- `getUniqueIDByValues` of impl.go. -/
def getUniqueIDByValues (appStructs : IAppStructs) (uniqueQName : appdef.QName)
    (uniqueKeyValues : List Nat) : RecordID × Bool × Option Error :=
  match appStructs.ViewRecordsGet uniqueQName uniqueKeyValues with
  | Except.ok val => (val, true, none)
  | Except.error err =>
    if err = Error.ErrRecordNotFound then (NullRecordID, false, none)
    else (NullRecordID, false, some err)

/-- The state with the entry of the key `uniqueKeyValues`, under the names
`cudQName` and `uniqueQName`, set to `rec`; the maps that are missing on the
way are created. -/
def uniquesStateType.put (uniquesState : uniquesStateType) (cudQName uniqueQName : appdef.QName)
    (uniqueKeyValues : List Nat) (rec : uniqueViewRecord) : uniquesStateType :=
  let cudQNameUniques := (GoMap.get uniquesState cudQName).getD []
  let uniqueViewRecords := (GoMap.get cudQNameUniques uniqueQName).getD []
  GoMap.set uniquesState cudQName
    (GoMap.set cudQNameUniques uniqueQName (GoMap.set uniqueViewRecords uniqueKeyValues rec))

/-- The record ID the state tracks for the key under the two names, if any. -/
def uniquesStateType.ref (uniquesState : uniquesStateType) (cudQName uniqueQName : appdef.QName)
    (uniqueKeyValues : List Nat) : Option RecordID :=
  let cudQNameUniques := (GoMap.get uniquesState cudQName).getD []
  let uniqueViewRecords := (GoMap.get cudQNameUniques uniqueQName).getD []
  (GoMap.get uniqueViewRecords uniqueKeyValues).map uniqueViewRecord.refRecordID

/-- `getCurrentUniqueViewRecord` of impl.go: the state after the call and the
record returned, which is the entry of the state for the key, or the error. The
maps are references, so the maps and the entry the function creates are in the
state it leaves. -/
def getCurrentUniqueViewRecord (uniquesState : uniquesStateType) (cudQName : appdef.QName)
    (uniqueKeyValues : List Nat) (appStructs : IAppStructs) (uniqueQName : appdef.QName) :
    uniquesStateType × Except Error uniqueViewRecord :=
  let cudQNameUniques :=
    match GoMap.get uniquesState cudQName with
    | some m => m
    | none => []
  let uniqueViewRecords :=
    match GoMap.get cudQNameUniques uniqueQName with
    | some m => m
    | none => []
  match GoMap.get uniqueViewRecords uniqueKeyValues with
  | some currentUniqueViewRecord =>
    (GoMap.set uniquesState cudQName (GoMap.set cudQNameUniques uniqueQName uniqueViewRecords),
      Except.ok currentUniqueViewRecord)
  | none =>
    match getUniqueIDByValues appStructs uniqueQName uniqueKeyValues with
    | (_, _, some err) =>
      (GoMap.set uniquesState cudQName (GoMap.set cudQNameUniques uniqueQName uniqueViewRecords),
        Except.error err)
    | (currentUniqueRecordID, _, none) =>
      let currentUniqueViewRecord : uniqueViewRecord := { refRecordID := currentUniqueRecordID }
      (GoMap.set uniquesState cudQName
          (GoMap.set cudQNameUniques uniqueQName
            (GoMap.set uniqueViewRecords uniqueKeyValues currentUniqueViewRecord)),
        Except.ok currentUniqueViewRecord)

/-- The callback `validateCUD` passes to `cudRec.ModifiedFields`, on the value
of `uniqueViewRecord.refRecordID`: the value it leaves and the error. -/
def validateCUD.callback (cudRec : ICUDRow) (uniqueFields : List IField)
    (cudQName uniqueQName : appdef.QName) (refRecordID : RecordID)
    (cudModifiedFieldName : String) (newValue : FieldValue) : RecordID × Option Error :=
  if uniqueFields.any (fun uniqueField => uniqueField.Name = cudModifiedFieldName) then
    (refRecordID, some (Error.ErrUniqueFieldUpdateDeny "unique field can not be changed"))
  else if cudModifiedFieldName ≠ SystemField_IsActive then (refRecordID, none)
  else
    match newValue with
    | FieldValue.bool isActivating =>
      if isActivating then
        if refRecordID = NullRecordID then (cudRec.ID, none)
        else if refRecordID ≠ cudRec.ID then
          (refRecordID, some (conflict cudQName refRecordID uniqueQName))
        else (refRecordID, none)
      else (NullRecordID, none)
    | _ => (refRecordID, some (Error.panic "interface conversion: interface is not bool"))

/-- `iterate.ForEachError2Values` over the modified fields with the callback of
`validateCUD`: the first error ends the enumeration. -/
def validateCUD.modified (cudRec : ICUDRow) (uniqueFields : List IField)
    (cudQName uniqueQName : appdef.QName) :
    List (String × FieldValue) → RecordID → RecordID × Option Error
  | [], refRecordID => (refRecordID, none)
  | (name, newValue) :: rest, refRecordID =>
    match validateCUD.callback cudRec uniqueFields cudQName uniqueQName refRecordID name
        newValue with
    | (refRecordID, some err) => (refRecordID, some err)
    | (refRecordID, none) =>
      validateCUD.modified cudRec uniqueFields cudQName uniqueQName rest refRecordID

/-- `validateCUD` of impl.go: the state after the call and the error returned.
The record `getCurrentUniqueViewRecord` returns is an entry of the state, so
what the function assigns to its `refRecordID` is in the state it leaves. -/
def validateCUD (zeroByte MaxFieldLength : Nat) (cudRec : ICUDRow) (appStructs : IAppStructs)
    (uniqueFields : List IField) (uniqueQName : appdef.QName)
    (uniquesState : uniquesStateType) : uniquesStateType × Option Error :=
  let cudQName := cudRec.QName
  let rowSource : Except Error IRowReader :=
    if cudRec.IsNew then Except.ok cudRec.row
    else appStructs.RecordsGet cudRec.ID
  match rowSource with
  | Except.error err => (uniquesState, some err)
  | Except.ok rowSource =>
    match getUniqueKeyValues zeroByte MaxFieldLength rowSource uniqueFields with
    | Except.error err => (uniquesState, some err)
    | Except.ok uniqueKeyValues =>
      match getCurrentUniqueViewRecord uniquesState cudQName uniqueKeyValues appStructs
          uniqueQName with
      | (uniquesState, Except.error err) => (uniquesState, some err)
      | (uniquesState, Except.ok uniqueViewRecord) =>
        if cudRec.IsNew then
          if uniqueViewRecord.refRecordID = NullRecordID then
            (uniquesState.put cudQName uniqueQName uniqueKeyValues { refRecordID := cudRec.ID },
              none)
          else (uniquesState, some (conflict cudQName uniqueViewRecord.refRecordID uniqueQName))
        else
          let r := validateCUD.modified cudRec uniqueFields cudQName uniqueQName
            cudRec.ModifiedFields uniqueViewRecord.refRecordID
          (uniquesState.put cudQName uniqueQName uniqueKeyValues { refRecordID := r.1 }, r.2)

/-- The loop `for _, unique := range cudUniques.Uniques()` of
`eventUniqueValidator`. -/
def eventUniqueValidator.uniques (zeroByte MaxFieldLength : Nat) (cudRec : ICUDRow)
    (appStructs : IAppStructs) :
    List (appdef.QName × List IField) → uniquesStateType → uniquesStateType × Option Error
  | [], uniquesState => (uniquesState, none)
  | unique :: rest, uniquesState =>
    match validateCUD zeroByte MaxFieldLength cudRec appStructs unique.2 unique.1
        uniquesState with
    | (uniquesState, some err) => (uniquesState, some err)
    | (uniquesState, none) =>
      eventUniqueValidator.uniques zeroByte MaxFieldLength cudRec appStructs rest uniquesState

/-- The callback `eventUniqueValidator` passes to `rawEvent.CUDs`. -/
def eventUniqueValidator.cud (zeroByte MaxFieldLength : Nat) (appStructs : IAppStructs)
    (cudRec : ICUDRow) (uniquesState : uniquesStateType) : uniquesStateType × Option Error :=
  match appStructs.uniquesOf cudRec.QName with
  | none => (uniquesState, none)
  | some cudUniques =>
    match eventUniqueValidator.uniques zeroByte MaxFieldLength cudRec appStructs cudUniques.1
        uniquesState with
    | (uniquesState, some err) => (uniquesState, some err)
    | (uniquesState, none) =>
      match cudUniques.2 with
      | some uniqueField =>
        let uniqueQName := cudRec.QName
        validateCUD zeroByte MaxFieldLength cudRec appStructs [uniqueField] uniqueQName
          uniquesState
      | none => (uniquesState, none)

/-- `iterate.ForEachError` over the CUDs of the event with the callback of
`eventUniqueValidator`: the first error ends the enumeration. -/
def eventUniqueValidator.loop (zeroByte MaxFieldLength : Nat) (appStructs : IAppStructs) :
    List ICUDRow → uniquesStateType → uniquesStateType × Option Error
  | [], uniquesState => (uniquesState, none)
  | cudRec :: rest, uniquesState =>
    match eventUniqueValidator.cud zeroByte MaxFieldLength appStructs cudRec uniquesState with
    | (uniquesState, some err) => (uniquesState, some err)
    | (uniquesState, none) =>
      eventUniqueValidator.loop zeroByte MaxFieldLength appStructs rest uniquesState

/-- `eventUniqueValidator` of impl.go, on the CUDs of the raw event in the order
`rawEvent.CUDs` enumerates them. -/
def eventUniqueValidator (zeroByte MaxFieldLength : Nat) (CUDs : List ICUDRow)
    (appStructs : IAppStructs) : Option Error :=
  (eventUniqueValidator.loop zeroByte MaxFieldLength appStructs CUDs []).2

/-- The unique of the examples: the string field `name` of `test.doc`. -/
def exampleUniqueFields : List IField := [⟨"name", appdef.DataKind_string⟩]

/-- A row whose field `name` holds `xxx`. -/
def rowXXX : IRowReader := fun name _ => if name = "name" then [120, 120, 120] else []

/-- The storage of the example in impl.go: record 111 holds the combination
`xxx` and is inactive, so the view record of `xxx` refers to no record. -/
def exampleAppStructs : IAppStructs where
  uniquesOf := fun q =>
    if q = ⟨"test", "doc"⟩ then some ([(⟨"test", "uniq"⟩, exampleUniqueFields)], none)
    else none
  RecordsGet := fun id =>
    if id = 111 then Except.ok rowXXX else Except.error Error.ErrRecordNotFound
  ViewRecordsGet := fun _ key =>
    if key = [120, 120, 120] then Except.ok NullRecordID
    else Except.error Error.ErrRecordNotFound

/-- The CUD that inserts the new record 222 with the combination `xxx`. -/
def cudInsert222 : ICUDRow :=
  { QName := ⟨"test", "doc"⟩, IsNew := true, ID := 222, row := rowXXX,
    ModifiedFields := [("name", FieldValue.string "xxx")] }

/-- The CUD that activates the stored record 111. -/
def cudActivate111 : ICUDRow :=
  { QName := ⟨"test", "doc"⟩, IsNew := false, ID := 111, row := fun _ _ => [],
    ModifiedFields := [(SystemField_IsActive, FieldValue.bool true)] }

/-- A unique made of the two string fields `a` and `b`. -/
def twoStringFields : List IField :=
  [⟨"a", appdef.DataKind_string⟩, ⟨"b", appdef.DataKind_string⟩]

/-- A row with the given bytes in its string fields `a` and `b`. -/
def rowAB (a b : List Nat) : IRowReader :=
  fun name _ => if name = "a" then a else if name = "b" then b else []

/-- A storage in which the combination `xxx` has an active holder: the view
record of `xxx` refers to record 111, which is active; record 333 holds `xxx`
too and is inactive. -/
def storageWithHolder111 : IAppStructs where
  uniquesOf := fun q =>
    if q = ⟨"test", "doc"⟩ then some ([(⟨"test", "uniq"⟩, exampleUniqueFields)], none)
    else none
  RecordsGet := fun id =>
    if id = 111 ∨ id = 333 then Except.ok rowXXX else Except.error Error.ErrRecordNotFound
  ViewRecordsGet := fun _ key =>
    if key = [120, 120, 120] then Except.ok 111
    else Except.error Error.ErrRecordNotFound

/-- The CUD that updates the stored record 333 with `sys.IsActive` false. -/
def cudDeactivate333 : ICUDRow :=
  { QName := ⟨"test", "doc"⟩, IsNew := false, ID := 333, row := fun _ _ => [],
    ModifiedFields := [(SystemField_IsActive, FieldValue.bool false)] }

end uniques

/-! ## Theorems -/

namespace appdef

theorem rune_letter (c : Char) :
    ((decide (97 ≤ c.toNat) && decide (c.toNat ≤ 122)) || (decide (65 ≤ c.toNat) && decide (c.toNat ≤ 90)))
      = c.isAlpha := by
  simp only [Char.isAlpha, Char.isUpper, Char.isLower, Char.toNat, ge_iff_le, UInt32.le_def]
  rw [Bool.or_comm]
  rfl

theorem rune_digit (c : Char) :
    (decide (48 ≤ c.toNat) && decide (c.toNat ≤ 57)) = c.isDigit := by
  simp only [Char.isDigit, Char.toNat, ge_iff_le, UInt32.le_def]
  rfl

theorem rune_eq (c : Char) (d : Char) : (c.toNat == d.toNat) = true ↔ c = d := by
  simp only [beq_iff_eq, Char.toNat]
  constructor
  · intro h
    exact Char.ext (UInt32.ext (by simpa using h))
  · rintro rfl; rfl

theorem rune_beq (c d : Char) : (c.toNat == d.toNat) = decide (c = d) := by
  by_cases h : c = d
  · simp [h]
  · have : ¬ ((c.toNat == d.toNat) = true) := fun e => h ((rune_eq c d).mp e)
    simp [h] at this ⊢
    exact this

theorem ValidIdent_loop_step (p : Nat) (c : Char) (rest : List (Nat × Char)) :
    ValidIdent.loop
      (fun r => (decide (97 ≤ r) && decide (r ≤ 122)) || (decide (65 ≤ r) && decide (r ≤ 90)))
      (fun r => r == 95) (fun r => r == 36)
      (fun r => decide (48 ≤ r) && decide (r ≤ 57)) ((p, c) :: rest)
    = if identAccepts p c then
        ValidIdent.loop
          (fun r => (decide (97 ≤ r) && decide (r ≤ 122)) || (decide (65 ≤ r) && decide (r ≤ 90)))
          (fun r => r == 95) (fun r => r == 36)
          (fun r => decide (48 ≤ r) && decide (r ≤ 57)) rest
      else (false, some (Error.ErrInvalidName "name char is not valid")) := by
  have e3 : (c.toNat == 95) = decide (c = '_') := rune_beq c '_'
  have e4 : (c.toNat == 36) = decide (c = '$') := rune_beq c '$'
  have e5 : (p == 0) = !decide (p ≠ 0) := by
    by_cases h : p = 0 <;> simp [h]
  simp only [ValidIdent.loop, rune_letter, rune_digit, e3, e4, e5, identAccepts]
  rcases Bool.eq_false_or_eq_true c.isAlpha with ha | ha <;>
  rcases Bool.eq_false_or_eq_true c.isDigit with hd | hd <;>
  rcases Bool.eq_false_or_eq_true (decide (c = '_')) with hu | hu <;>
  rcases Bool.eq_false_or_eq_true (decide (c = '$')) with hb | hb <;>
  rcases Bool.eq_false_or_eq_true (decide (p ≠ 0)) with hz | hz <;>
  simp only [ha, hd, hu, hb, hz] <;> rfl

theorem ValidIdent_loop_pos (p : Nat) (hp : 0 < p) (cs : List Char) :
    (ValidIdent.loop
      (fun r => (decide (97 ≤ r) && decide (r ≤ 122)) || (decide (65 ≤ r) && decide (r ≤ 90)))
      (fun r => r == 95) (fun r => r == 36)
      (fun r => decide (48 ≤ r) && decide (r ≤ 57)) (goRange p cs)).1 = true
      ↔ ∀ c ∈ cs, identPart c := by
  induction cs generalizing p with
  | nil => simp [goRange, ValidIdent.loop]
  | cons c cs ih =>
    have hp2 : 0 < p + c.utf8Size := by omega
    have hp0 : p ≠ 0 := by omega
    rw [goRange, ValidIdent_loop_step, List.forall_mem_cons, ← ih _ hp2]
    by_cases h : identAccepts p c = true
    · rw [if_pos h]
      have : identPart c := by
        simp only [identAccepts, hp0, ne_eq, not_false_eq_true, decide_True, Bool.true_and,
          Bool.or_eq_true, decide_eq_true_eq] at h
        unfold identPart
        tauto
      tauto
    · rw [if_neg h]
      have : ¬ identPart c := by
        simp only [identAccepts, hp0, ne_eq, not_false_eq_true, decide_True, Bool.true_and,
          Bool.or_eq_true, decide_eq_true_eq] at h
        unfold identPart
        tauto
      simp [this]

theorem ValidIdent_loop_zero (c : Char) (cs : List Char) :
    (ValidIdent.loop
      (fun r => (decide (97 ≤ r) && decide (r ≤ 122)) || (decide (65 ≤ r) && decide (r ≤ 90)))
      (fun r => r == 95) (fun r => r == 36)
      (fun r => decide (48 ≤ r) && decide (r ≤ 57)) (goRange 0 (c :: cs))).1 = true
      ↔ identStart c ∧ ∀ d ∈ cs, identPart d := by
  have hp2 : 0 < 0 + c.utf8Size := by
    have := Char.utf8Size_pos c
    omega
  rw [goRange, ValidIdent_loop_step, ← ValidIdent_loop_pos _ hp2]
  by_cases h : identAccepts 0 c = true
  · rw [if_pos h]
    have : identStart c := by
      simp only [identAccepts, ne_eq, not_true_eq_false, decide_False, Bool.false_and,
        Bool.or_false, Bool.or_eq_true, decide_eq_true_eq] at h
      unfold identStart
      tauto
    tauto
  · rw [if_neg h]
    have : ¬ identStart c := by
      simp only [identAccepts, ne_eq, not_true_eq_false, decide_False, Bool.false_and,
        Bool.or_false, Bool.or_eq_true, decide_eq_true_eq] at h
      unfold identStart
      tauto
    simp [this]

theorem goLen_cons (c : Char) (cs : List Char) : goLen ⟨c :: cs⟩ = goLen ⟨cs⟩ + c.utf8Size := by
  simp [goLen, String.utf8ByteSize, String.utf8ByteSize.go]

theorem goLen_pos_iff (s : String) : 1 ≤ goLen s ↔ s.data ≠ [] := by
  obtain ⟨l⟩ := s
  cases l with
  | nil => simp [goLen, String.utf8ByteSize, String.utf8ByteSize.go]
  | cons c cs =>
    have := Char.utf8Size_pos c
    rw [goLen_cons]
    simp
    omega

/-- C1. For every string `s`, `ValidIdent(s)` returns true if and only if
`1 <= len(s) <= MaxIdentLen`, the first character of `s` is a letter, `_` or `$`,
and every following character is a letter, a digit, `_` or `$`. In particular a
string of such characters of length exactly `MaxIdentLen` is accepted, and every
string of length `MaxIdentLen + 1` is rejected. -/
theorem ValidIdent_true_iff (MaxIdentLen : Nat) (s : String) :
    ((ValidIdent MaxIdentLen s).1 = true ↔
      1 ≤ goLen s ∧ goLen s ≤ MaxIdentLen ∧
      (∀ c ∈ s.data.head?, identStart c) ∧ (∀ d ∈ s.data.tail, identPart d)) ∧
    (1 ≤ goLen s → goLen s = MaxIdentLen →
      (∀ c ∈ s.data.head?, identStart c) → (∀ d ∈ s.data.tail, identPart d) →
      (ValidIdent MaxIdentLen s).1 = true) ∧
    (goLen s = MaxIdentLen + 1 → (ValidIdent MaxIdentLen s).1 = false) := by
  have main : (ValidIdent MaxIdentLen s).1 = true ↔
      1 ≤ goLen s ∧ goLen s ≤ MaxIdentLen ∧
      (∀ c ∈ s.data.head?, identStart c) ∧ (∀ d ∈ s.data.tail, identPart d) := by
    unfold ValidIdent
    by_cases h1 : goLen s < 1
    · rw [if_pos h1]
      constructor
      · intro h; cases h
      · rintro ⟨h, _⟩; omega
    · rw [if_neg h1]
      by_cases h2 : goLen s > MaxIdentLen
      · rw [if_pos h2]
        constructor
        · intro h; cases h
        · rintro ⟨_, h, _⟩; omega
      · rw [if_neg h2]
        have hne : s.data ≠ [] := (goLen_pos_iff s).mp (by omega)
        obtain ⟨l⟩ := s
        cases l with
        | nil => exact absurd rfl hne
        | cons c cs =>
          simp only []
          rw [ValidIdent_loop_zero]
          simp only [List.head?_cons, Option.mem_def, Option.some.injEq, forall_eq', List.tail_cons]
          constructor
          · rintro ⟨a, b⟩; exact ⟨by omega, by omega, a, b⟩
          · rintro ⟨_, _, a, b⟩; exact ⟨a, b⟩
  refine ⟨main, ?_, ?_⟩
  · intro h1 h2 h3 h4
    exact main.mpr ⟨h1, by omega, h3, h4⟩
  · intro h
    cases hv : (ValidIdent MaxIdentLen s).1 with
    | false => rfl
    | true =>
      have := (main.mp hv).2.1
      omega

theorem ValidIdent_true_iff_witness :
    (ValidIdent 4 "ab_1").1 = true ∧ (ValidIdent 4 "ab_12").1 = false :=
  ⟨(ValidIdent_true_iff 4 "ab_1").2.1 (by decide) (by decide)
      (by simp [identStart]) (by simp [identPart]),
   (ValidIdent_true_iff 4 "ab_12").2.2 (by decide)⟩

theorem IsSupportedConstraint_cases (k : DataKind) (c : ConstraintKind) :
    (IsSupportedConstraint k c = true ↔
      (k = DataKind_bytes ∧
        (c = ConstraintKind.MinLen ∨ c = ConstraintKind.MaxLen ∨ c = ConstraintKind.Pattern)) ∨
      (k = DataKind_string ∧
        (c = ConstraintKind.MinLen ∨ c = ConstraintKind.MaxLen ∨ c = ConstraintKind.Pattern ∨
          c = ConstraintKind.Enum)) ∨
      ((k = DataKind_int32 ∨ k = DataKind_int64 ∨ k = DataKind_float32 ∨ k = DataKind_float64) ∧
        (c = ConstraintKind.MinIncl ∨ c = ConstraintKind.MinExcl ∨ c = ConstraintKind.MaxIncl ∨
          c = ConstraintKind.MaxExcl ∨ c = ConstraintKind.Enum))) ∧
    ((k = DataKind_null ∨ k = DataKind_QName ∨ k = DataKind_bool ∨ k = DataKind_RecordID ∨
        k = DataKind_Record ∨ k = DataKind_Event ∨ DataKind_FakeLast ≤ k) →
      IsSupportedConstraint k c = false) := by
  revert k
  intro (k : Nat)
  by_cases hk : 12 ≤ k
  · have e : IsSupportedConstraint k c = false := by
      unfold IsSupportedConstraint
      split <;> first | rfl | (exfalso; omega)
    rw [e]
    simp only [DataKind_bytes, DataKind_string, DataKind_int32, DataKind_int64,
      DataKind_float32, DataKind_float64]
    constructor
    · constructor
      · intro h; cases h
      · rintro (⟨rfl, _⟩ | ⟨rfl, _⟩ | ⟨(rfl | rfl | rfl | rfl), _⟩) <;>
          exact absurd hk (by decide)
    · intro _; trivial
  · have hk2 : k < 12 := by omega
    interval_cases k <;> cases c <;>
      simp [IsSupportedConstraint, DataKind_bytes, DataKind_string, DataKind_int32,
        DataKind_int64, DataKind_float32, DataKind_float64, DataKind_null, DataKind_QName,
        DataKind_bool, DataKind_RecordID, DataKind_Record, DataKind_Event, DataKind_FakeLast]

/-- C2. For every data kind `k` and constraint kind `c`, `k.IsSupportedConstraint(c)`
is true exactly for the pairs of the support table (bytes: MinLen, MaxLen, Pattern;
string: MinLen, MaxLen, Pattern, Enum; int32, int64, float32, float64: MinIncl,
MinExcl, MaxIncl, MaxExcl, Enum) and false for every other pair; nothing is
supported for null, QName, bool, RecordID, Record, Event or an out-of-range kind. -/
theorem IsSupportedConstraint_table (k : DataKind) (c : ConstraintKind) :
    (IsSupportedConstraint k c = true ↔
      (k = DataKind_bytes ∧
        (c = ConstraintKind.MinLen ∨ c = ConstraintKind.MaxLen ∨ c = ConstraintKind.Pattern)) ∨
      (k = DataKind_string ∧
        (c = ConstraintKind.MinLen ∨ c = ConstraintKind.MaxLen ∨ c = ConstraintKind.Pattern ∨
          c = ConstraintKind.Enum)) ∨
      ((k = DataKind_int32 ∨ k = DataKind_int64 ∨ k = DataKind_float32 ∨ k = DataKind_float64) ∧
        (c = ConstraintKind.MinIncl ∨ c = ConstraintKind.MinExcl ∨ c = ConstraintKind.MaxIncl ∨
          c = ConstraintKind.MaxExcl ∨ c = ConstraintKind.Enum))) ∧
    ((k = DataKind_null ∨ k = DataKind_QName ∨ k = DataKind_bool ∨ k = DataKind_RecordID ∨
        k = DataKind_Record ∨ k = DataKind_Event ∨ DataKind_FakeLast ≤ k) →
      IsSupportedConstraint k c = false) :=
  IsSupportedConstraint_cases k c

theorem IsSupportedConstraint_table_witness :
    IsSupportedConstraint DataKind_RecordID ConstraintKind.Enum = false :=
  (IsSupportedConstraint_table DataKind_RecordID ConstraintKind.Enum).2
    (Or.inr (Or.inr (Or.inr (Or.inl rfl))))

theorem IsSupportedConstraint_iff_inSupportTable (k : DataKind) (c : ConstraintKind) :
    IsSupportedConstraint k c = true ↔ inSupportTable k c := by
  rw [(IsSupportedConstraint_cases k c).1]
  simp only [inSupportTable, supportTable, List.mem_cons, List.mem_singleton,
    List.not_mem_nil, or_false, exists_eq_or_imp, exists_eq_left, DataKind_bytes,
    DataKind_string, DataKind_int32, DataKind_int64, DataKind_float32, DataKind_float64]
  constructor
  · rintro (⟨rfl, h⟩ | ⟨rfl, h⟩ | ⟨(rfl | rfl | rfl | rfl), h⟩) <;> simp [h]
  · rintro (⟨rfl, h⟩ | ⟨rfl, h⟩ | ⟨rfl, h⟩ | ⟨rfl, h⟩ | ⟨rfl, h⟩ | ⟨rfl, h⟩) <;> simp [h]

theorem GoMap_get_set {K V : Type} [DecidableEq K] (m : GoMap K V) (k k' : K) (v : V) :
    GoMap.get (GoMap.set m k v) k' = if k = k' then some v else GoMap.get m k' := by
  induction m with
  | nil => simp [GoMap.set, GoMap.get]
  | cons e rest ih =>
    obtain ⟨a, b⟩ := e
    by_cases h : a = k
    · subst h
      by_cases h2 : a = k' <;> simp [GoMap.set, GoMap.get, h2]
    · by_cases h2 : a = k'
      · subst h2
        have : ¬ k = a := fun e => h e.symm
        simp [GoMap.set, GoMap.get, h, this]
      · simp [GoMap.set, GoMap.get, h, h2, ih]

theorem enumValueOk_iff (dk : DataKind) (v : ConstraintValue) :
    enumValueOk dk v = true ↔ isSliceOfKind dk v := by
  revert dk
  intro (dk : Nat)
  unfold enumValueOk isSliceOfKind
  simp only [DataKind_int32, DataKind_int64, DataKind_float32, DataKind_float64, DataKind_string]
  split
  · cases v <;> simp
  · cases v <;> simp
  · cases v <;> simp
  · cases v <;> simp
  · cases v <;> simp
  · rename_i h1 h2 h3 h4 h5
    constructor
    · intro h; cases h
    · rintro (⟨h, _⟩ | ⟨h, _⟩ | ⟨h, _⟩ | ⟨h, _⟩ | ⟨h, _⟩)
      · exact absurd h h1
      · exact absurd h h2
      · exact absurd h h3
      · exact absurd h h4
      · exact absurd h h5

theorem AddConstraints_loop_step (dk : appdef.DataKind) (c : IConstraint)
    (rest : List IConstraint) (m : GoMap ConstraintKind IConstraint) :
    (constraintRejected dk c →
      ∃ msg, data.AddConstraints.loop dk (c :: rest) m =
        (m, some (Error.ErrIncompatibleConstraints msg))) ∧
    (¬ constraintRejected dk c →
      data.AddConstraints.loop dk (c :: rest) m =
        data.AddConstraints.loop dk rest (GoMap.set m c.Kind c)) := by
  unfold constraintRejected
  rw [← IsSupportedConstraint_iff_inSupportTable, ← enumValueOk_iff]
  obtain ⟨ck, cv, cm⟩ := c
  simp only []
  by_cases h1 : IsSupportedConstraint dk ck = true
  · by_cases h2 : ck = ConstraintKind.Enum
    · subst h2
      by_cases h3 : enumValueOk dk cv = true
      · constructor
        · rintro (h | ⟨_, h⟩)
          · exact absurd h1 h
          · exact absurd h3 h
        · intro _
          simp [data.AddConstraints.loop, h1, h3]
      · constructor
        · intro _
          refine ⟨"constraint values type is not applicable to data", ?_⟩
          simp [data.AddConstraints.loop, h1, h3]
        · intro h
          exact absurd (Or.inr ⟨rfl, h3⟩) h
    · constructor
      · rintro (h | ⟨h, _⟩)
        · exact absurd h1 h
        · exact absurd h h2
      · intro _
        cases ck <;> first | exact absurd rfl h2 | simp [data.AddConstraints.loop, h1]
  · constructor
    · intro _
      refine ⟨"data is not compatible with constraint", ?_⟩
      simp [data.AddConstraints.loop, h1]
    · intro h
      exact absurd (Or.inl h1) h

theorem AddConstraints_loop_panics_iff (dk : appdef.DataKind) (cc : List IConstraint)
    (m : GoMap ConstraintKind IConstraint) :
    ((data.AddConstraints.loop dk cc m).2 ≠ none ↔ ∃ c ∈ cc, constraintRejected dk c) ∧
    (∀ e, (data.AddConstraints.loop dk cc m).2 = some e →
      ∃ msg, e = Error.ErrIncompatibleConstraints msg) := by
  induction cc generalizing m with
  | nil => simp [data.AddConstraints.loop]
  | cons c rest ih =>
    have hc := AddConstraints_loop_step dk c rest m
    by_cases h : constraintRejected dk c
    · obtain ⟨msg, e⟩ := hc.1 h
      rw [e]
      constructor
      · simp only [ne_eq, reduceCtorEq, not_false_eq_true, List.mem_cons, true_iff]
        exact ⟨c, Or.inl rfl, h⟩
      · intro e' he
        exact ⟨msg, by simpa using he.symm⟩
    · rw [hc.2 h]
      refine ⟨?_, (ih _).2⟩
      rw [(ih _).1]
      simp only [List.mem_cons, exists_eq_or_imp, h, false_or]

theorem withConstraints_DataKind (d : data) (m : GoMap ConstraintKind IConstraint) :
    (d.withConstraints m).DataKind = d.DataKind := by
  cases d; rfl

theorem withConstraints_constraints (d : data) (m : GoMap ConstraintKind IConstraint) :
    (d.withConstraints m).constraints = m := by
  cases d; rfl

theorem withConstraints_self (d : data) : d.withConstraints d.constraints = d := by
  cases d; rfl

/-- C3 as the spec states it fails: the pair (string, Enum) is in the support
table, yet `AddConstraints` on the string data type `weekDay` panics for an
enumeration of `int32` values. -/
theorem AddConstraints_panic_in_table :
    inSupportTable weekDay.DataKind int32Enum.Kind ∧
    (data.AddConstraints weekDay [int32Enum]).2 =
      some (Error.ErrIncompatibleConstraints
        "constraint values type is not applicable to data") := by
  constructor
  · decide
  · rfl

/-- C3, amended. For every data type `d` and constraint `c`, `d.AddConstraints(c)`
panics if and only if the pair `(d.DataKind(), c.Kind())` is absent from the
support table or `c` is an Enum constraint whose value is not a slice of the
element type matching `d.DataKind()`; the panic value is `ErrIncompatibleConstraints`.
For several constraints the call panics exactly when one of them is such. -/
theorem AddConstraints_panics_iff (d : data) (c : IConstraint) (cc : List IConstraint) :
    ((data.AddConstraints d [c]).2 ≠ none ↔
      (¬ inSupportTable d.DataKind c.Kind ∨
        (c.Kind = ConstraintKind.Enum ∧ ¬ isSliceOfKind d.DataKind c.Value))) ∧
    ((data.AddConstraints d cc).2 ≠ none ↔ ∃ c' ∈ cc, constraintRejected d.DataKind c') ∧
    (∀ e, (data.AddConstraints d cc).2 = some e →
      ∃ msg, e = Error.ErrIncompatibleConstraints msg) := by
  refine ⟨?_, ?_, ?_⟩
  · have := (AddConstraints_loop_panics_iff d.DataKind [c] d.constraints).1
    simpa [data.AddConstraints, constraintRejected] using this
  · exact (AddConstraints_loop_panics_iff d.DataKind cc d.constraints).1
  · exact (AddConstraints_loop_panics_iff d.DataKind cc d.constraints).2

/-- C4. For a data type of kind int32, int64, float32, float64 or string,
`AddConstraints` with an Enum constraint succeeds if and only if the constraint's
value is a slice of exactly the matching element type; then the constraint is
stored under the Enum kind. With any other value type the call panics with
`ErrIncompatibleConstraints` and the data type is left as it was, the Enum
constraint not stored. -/
theorem AddConstraints_enum (d : data) (c : IConstraint)
    (hk : d.DataKind = DataKind_int32 ∨ d.DataKind = DataKind_int64 ∨
      d.DataKind = DataKind_float32 ∨ d.DataKind = DataKind_float64 ∨
      d.DataKind = DataKind_string)
    (hc : c.Kind = ConstraintKind.Enum) :
    ((data.AddConstraints d [c]).2 = none ↔ isSliceOfKind d.DataKind c.Value) ∧
    (isSliceOfKind d.DataKind c.Value →
      GoMap.get (data.AddConstraints d [c]).1.constraints ConstraintKind.Enum = some c) ∧
    (¬ isSliceOfKind d.DataKind c.Value →
      (∃ msg, (data.AddConstraints d [c]).2 = some (Error.ErrIncompatibleConstraints msg)) ∧
      (data.AddConstraints d [c]).1 = d) := by
  have hs : inSupportTable d.DataKind c.Kind := by
    rw [hc, ← IsSupportedConstraint_iff_inSupportTable]
    rcases hk with h | h | h | h | h <;> rw [h] <;> rfl
  have hrej : constraintRejected d.DataKind c ↔ ¬ isSliceOfKind d.DataKind c.Value := by
    unfold constraintRejected
    constructor
    · rintro (h | ⟨_, h⟩)
      · exact absurd hs h
      · exact h
    · intro h
      exact Or.inr ⟨hc, h⟩
  have hstep := AddConstraints_loop_step d.DataKind c [] d.constraints
  by_cases h : isSliceOfKind d.DataKind c.Value
  · have e := hstep.2 (fun r => hrej.mp r h)
    have e2 : data.AddConstraints d [c] =
        (d.withConstraints (GoMap.set d.constraints c.Kind c), none) := by
      unfold data.AddConstraints
      simp only [e]
      rfl
    rw [e2]
    refine ⟨⟨fun _ => h, fun _ => rfl⟩, fun _ => ?_, fun hn => absurd h hn⟩
    simp only [withConstraints_constraints]
    rw [hc, GoMap_get_set]
    simp
  · obtain ⟨msg, e⟩ := hstep.1 (hrej.mpr h)
    have e2 : data.AddConstraints d [c] =
        (d, some (Error.ErrIncompatibleConstraints msg)) := by
      unfold data.AddConstraints
      simp only [e, withConstraints_self]
    rw [e2]
    refine ⟨⟨fun hn => ?_, fun hs => absurd hs h⟩, fun hs => absurd hs h,
      fun _ => ⟨⟨msg, rfl⟩, rfl⟩⟩
    cases hn

theorem AddConstraints_enum_witness :
    (data.AddConstraints weekDay [weekDayEnum]).2 = none ∧
    GoMap.get (data.AddConstraints weekDay [weekDayEnum]).1.constraints ConstraintKind.Enum
      = some weekDayEnum ∧
    (data.AddConstraints weekDay [int32Enum]).1 = weekDay :=
  have h1 := AddConstraints_enum weekDay weekDayEnum
    (Or.inr (Or.inr (Or.inr (Or.inr rfl)))) rfl
  have h2 := AddConstraints_enum weekDay int32Enum
    (Or.inr (Or.inr (Or.inr (Or.inr rfl)))) rfl
  have s1 : isSliceOfKind weekDay.DataKind weekDayEnum.Value :=
    Or.inr (Or.inr (Or.inr (Or.inr ⟨rfl, _, rfl⟩)))
  have s2 : ¬ isSliceOfKind weekDay.DataKind int32Enum.Value := by
    rw [← enumValueOk_iff]
    decide
  ⟨h1.1.mpr s1, h1.2.1 s1, (h2.2.2 s2).2⟩

theorem Constraints_merge_get (cc cs : GoMap ConstraintKind IConstraint)
    (k : ConstraintKind) :
    GoMap.get (data.Constraints.merge cc cs) k =
      match GoMap.get cc k with
      | some c => some c
      | none => GoMap.get cs k := by
  induction cs generalizing cc with
  | nil =>
    simp only [data.Constraints.merge, GoMap.get]
    cases GoMap.get cc k <;> rfl
  | cons e rest ih =>
    obtain ⟨k', c'⟩ := e
    simp only [data.Constraints.merge]
    by_cases hn : (GoMap.get cc k').isNone = true
    · rw [if_pos hn, ih, GoMap_get_set]
      have hn' : GoMap.get cc k' = none := by simpa using hn
      by_cases hk : k' = k
      · subst hk
        simp [hn', GoMap.get]
      · simp only [hk, if_false, GoMap.get]
    · rw [if_neg hn, ih]
      by_cases hk : k' = k
      · subst hk
        cases hg : GoMap.get cc k' with
        | none => simp [hg] at hn
        | some c => rfl
      · simp only [GoMap.get, hk, if_false]

theorem Constraints_walk_get (k : ConstraintKind) :
    ∀ (d : data) (cc : GoMap ConstraintKind IConstraint),
    GoMap.get (data.Constraints.walk cc d) k =
      match GoMap.get cc k with
      | some c => some c
      | none => d.chain.findSome? (fun a => GoMap.get a.constraints k)
  | .mk n dk none cs, cc => by
    simp only [data.Constraints.walk, data.chain, Constraints_merge_get,
      List.findSome?_cons, List.findSome?_nil, data.constraints]
    cases GoMap.get cc k with
    | some c => rfl
    | none => cases GoMap.get cs k <;> rfl
  | .mk n dk (some a) cs, cc => by
    simp only [data.Constraints.walk, data.chain, List.findSome?_cons, data.constraints]
    rw [Constraints_walk_get k a, Constraints_merge_get]
    cases GoMap.get cc k with
    | some c => rfl
    | none => cases GoMap.get cs k <;> rfl

theorem chain_head (d : data) : d.chain.head? = some d := by
  cases d with
  | mk n dk a cs => cases a <;> rfl

theorem chain_tail (d : data) :
    d.chain.tail = match d.Ancestor with
      | none => []
      | some a => a.chain := by
  cases d with
  | mk n dk a cs => cases a <;> rfl

/-- C5. For every data type `d` and constraint kind `k`, `d.Constraints(true)`
holds under `k` the constraint declared by the nearest type of the chain
`d, d.Ancestor(), ...` that declares one for `k`: the chain splits into the
nearer types, none of which declares `k`, the declaring type, and the rest.
It holds no entry for `k` if and only if no type of the chain declares one.
The chain starts at `d` and continues with the chain of its ancestor. -/
theorem Constraints_inherited (d : data) (k : ConstraintKind) :
    (∀ c, GoMap.get (d.Constraints true) k = some c ↔
      ∃ nearer a further, d.chain = nearer ++ a :: further ∧
        GoMap.get a.constraints k = some c ∧
        ∀ b ∈ nearer, GoMap.get b.constraints k = none) ∧
    (GoMap.get (d.Constraints true) k = none ↔
      ∀ a ∈ d.chain, GoMap.get a.constraints k = none) ∧
    (d.chain.head? = some d ∧
      d.chain.tail = match d.Ancestor with
        | none => []
        | some a => a.chain) := by
  have e : GoMap.get (d.Constraints true) k =
      d.chain.findSome? (fun a => GoMap.get a.constraints k) := by
    simp only [data.Constraints, Bool.not_true, Bool.false_eq_true, if_false]
    rw [Constraints_walk_get]
    rfl
  rw [e]
  refine ⟨fun c => ?_, ?_, chain_head d, chain_tail d⟩
  · rw [List.findSome?_eq_some_iff]
  · rw [List.findSome?_eq_none_iff]

/-- The `MaxLen` of `shortString` shadows the one of its ancestor, whose `MinLen`
is inherited; no `Pattern` is declared along the chain. -/
theorem Constraints_shortString :
    GoMap.get (shortString.Constraints true) ConstraintKind.MaxLen
      = some ⟨ConstraintKind.MaxLen, ConstraintValue.uint16 2, ""⟩ ∧
    GoMap.get (shortString.Constraints true) ConstraintKind.MinLen
      = some ⟨ConstraintKind.MinLen, ConstraintValue.uint16 1, ""⟩ ∧
    GoMap.get (shortString.Constraints true) ConstraintKind.Pattern = none := by
  refine ⟨?_, ?_, ?_⟩ <;> rfl

theorem kindInherited_chain :
    ∀ (d : data), d.kindInherited = true → ∀ b ∈ d.chain, b.DataKind = d.DataKind
  | .mk n k none cs, _, b, hb => by
    simp only [data.chain, List.mem_singleton] at hb
    rw [hb]
  | .mk n k (some a) cs, h, b, hb => by
    simp only [data.kindInherited, Bool.and_eq_true, decide_eq_true_eq] at h
    simp only [data.chain, List.mem_cons] at hb
    rcases hb with hb | hb
    · rw [hb]
    · rw [kindInherited_chain a h.2 b hb]
      exact h.1.symm

theorem newData_ok_iff (app : appDef) (name : QName) (kind : DataKind) (anc : QName)
    (d : data) :
    newData app name kind anc = Except.ok d ↔
      ∃ a, newData.ancestor app kind anc = Except.ok a ∧
        d = data.mk name a.DataKind (some a) [] := by
  unfold newData
  cases h : newData.ancestor app kind anc with
  | error e => simp
  | ok a =>
    simp only [Except.ok.injEq, exists_eq_left']
    exact eq_comm

theorem newData_ancestor_ok (app : appDef) (kind : DataKind) (anc : QName) (a : data)
    (h : newData.ancestor app kind anc = Except.ok a) :
    (anc = NullQName → app.SysData kind = some a) ∧
    (anc ≠ NullQName → app.Data anc = some a ∧ (kind = DataKind_null ∨ a.DataKind = kind)) := by
  unfold newData.ancestor at h
  by_cases hn : anc = NullQName
  · simp only [hn, if_true] at h
    refine ⟨fun _ => ?_, fun h' => absurd hn h'⟩
    cases hs : app.SysData kind with
    | none => rw [hs] at h; cases h
    | some b =>
      rw [hs] at h
      simp only [Except.ok.injEq] at h
      rw [h]
  · simp only [hn, if_false] at h
    refine ⟨fun h' => absurd h' hn, fun _ => ?_⟩
    cases hs : app.Data anc with
    | none => rw [hs] at h; cases h
    | some b =>
      rw [hs] at h
      dsimp only at h
      by_cases hk : kind ≠ DataKind_null ∧ b.DataKind ≠ kind
      · rw [if_pos hk] at h
        cases h
      · rw [if_neg hk] at h
        simp only [Except.ok.injEq] at h
        subst h
        refine ⟨rfl, ?_⟩
        by_cases h0 : kind = DataKind_null
        · exact Or.inl h0
        · exact Or.inr (by_contra fun h1 => hk ⟨h0, h1⟩)

/-- C21. Every data type `newData` creates, named or anonymous, with an explicit
ancestor or with the system type of the requested kind as ancestor, has an
ancestor, the one found in the application, and the data kind of that ancestor.
So when the data types the application holds have the kind of their ancestors
all along their chains, the new type has too: every type of its ancestor chain
has its data kind. The same holds for a type made by `newAnonymousData`. -/
theorem newData_kind_of_ancestor (app : appDef) (name : QName) (kind : DataKind) (anc : QName)
    (d : data) (h : newData app name kind anc = Except.ok d) :
    (∃ a, d.Ancestor = some a ∧ d.DataKind = a.DataKind ∧
      (anc = NullQName → app.SysData kind = some a) ∧
      (anc ≠ NullQName → app.Data anc = some a)) ∧
    ((∀ k a, app.SysData k = some a → a.kindInherited = true) →
      (∀ q a, app.Data q = some a → a.kindInherited = true) →
      d.kindInherited = true ∧ ∀ b ∈ d.chain, b.DataKind = d.DataKind) ∧
    (∀ cs d', newAnonymousData app kind anc cs = Except.ok d' →
      ∃ a, d'.Ancestor = some a ∧ d'.DataKind = a.DataKind) := by
  obtain ⟨a, ha, hd⟩ := (newData_ok_iff app name kind anc d).mp h
  obtain ⟨h1, h2⟩ := newData_ancestor_ok app kind anc a ha
  subst hd
  refine ⟨⟨a, rfl, rfl, h1, fun hn => (h2 hn).1⟩, ?_, ?_⟩
  · intro hs hdata
    have hk : a.kindInherited = true := by
      by_cases hn : anc = NullQName
      · exact hs kind a (h1 hn)
      · exact hdata anc a (h2 hn).1
    have hd : (data.mk name a.DataKind (some a) []).kindInherited = true := by
      simp [data.kindInherited, hk]
    exact ⟨hd, kindInherited_chain _ hd⟩
  · intro cs d' h'
    unfold newAnonymousData at h'
    cases hnd : newData app NullQName kind anc with
    | error e => rw [hnd] at h'; cases h'
    | ok d0 =>
      rw [hnd] at h'
      obtain ⟨a0, _, hd0⟩ := (newData_ok_iff app NullQName kind anc d0).mp hnd
      subst hd0
      rcases hac : (data.mk NullQName a0.DataKind (some a0) []).AddConstraints cs with ⟨d1, e⟩
      dsimp only at h'
      rw [hac] at h'
      cases e with
      | some e => cases h'
      | none =>
        simp only [Except.ok.injEq] at h'
        subst h'
        have e1 : d1 = (data.mk NullQName a0.DataKind (some a0) []).withConstraints
            (data.AddConstraints.loop a0.DataKind cs []).1 := by
          have := congrArg Prod.fst hac
          simpa [data.AddConstraints, data.DataKind, data.constraints] using this.symm
        rw [e1]
        exact ⟨a0, rfl, rfl⟩

theorem newData_kind_of_ancestor_witness :
    (data.mk ⟨"test", "token"⟩ DataKind_string (some testString) []).kindInherited = true ∧
    ∀ b ∈ (data.mk ⟨"test", "token"⟩ DataKind_string (some testString) []).chain,
      b.DataKind = DataKind_string :=
  (newData_kind_of_ancestor exampleAppDef ⟨"test", "token"⟩ DataKind_string ⟨"test", "string"⟩
    (data.mk ⟨"test", "token"⟩ DataKind_string (some testString) []) rfl).2.1
    (by
      intro k a h
      simp only [exampleAppDef] at h
      split at h
      · cases h; rfl
      · cases h)
    (by
      intro q a h
      simp only [exampleAppDef] at h
      split at h
      · cases h; rfl
      · split at h
        · cases h; rfl
        · cases h)

/-- C22. `newData` panics, and creates no data type, with `ErrNameNotFound`
exactly when a non-null ancestor name does not resolve to a data type of the
application, and with `ErrInvalidTypeKind` exactly when the ancestor exists but
the requested kind is not `DataKind_null` and differs from the ancestor's kind,
or when no ancestor name is given and there is no system data type of the
requested kind. It panics with no other error, and in every other case it
returns a data type. -/
theorem newData_panics_iff (app : appDef) (name : QName) (kind : DataKind) (anc : QName) :
    ((∃ msg, newData app name kind anc = Except.error (Error.ErrNameNotFound msg)) ↔
      anc ≠ NullQName ∧ app.Data anc = none) ∧
    ((∃ msg, newData app name kind anc = Except.error (Error.ErrInvalidTypeKind msg)) ↔
      (anc ≠ NullQName ∧ ∃ a, app.Data anc = some a ∧ kind ≠ DataKind_null ∧ a.DataKind ≠ kind) ∨
      (anc = NullQName ∧ app.SysData kind = none)) ∧
    ((∃ d, newData app name kind anc = Except.ok d) ↔
      ¬ (anc ≠ NullQName ∧ app.Data anc = none) ∧
      ¬ (anc ≠ NullQName ∧ ∃ a, app.Data anc = some a ∧ kind ≠ DataKind_null ∧ a.DataKind ≠ kind) ∧
      ¬ (anc = NullQName ∧ app.SysData kind = none)) ∧
    (∀ err, newData app name kind anc = Except.error err →
      (∃ msg, err = Error.ErrNameNotFound msg) ∨ ∃ msg, err = Error.ErrInvalidTypeKind msg) := by
  unfold newData newData.ancestor
  by_cases hn : anc = NullQName
  · simp only [hn, if_true]
    cases hs : app.SysData kind with
    | none => simp
    | some a => simp
  · simp only [hn, if_false]
    cases hs : app.Data anc with
    | none => simp [hn]
    | some a =>
      by_cases hk : kind ≠ DataKind_null ∧ a.DataKind ≠ kind
      · simp [hk, hn]
      · dsimp only
        rw [if_neg hk]
        simp only [not_and_or] at hk
        simp [hn]
        tauto

theorem ValidIdent_loop_result (letter underScore buck digit : Nat → Bool)
    (l : List (Nat × Char)) :
    ValidIdent.loop letter underScore buck digit l = (true, none) ∨
    ∃ msg, ValidIdent.loop letter underScore buck digit l =
      (false, some (Error.ErrInvalidName msg)) := by
  induction l with
  | nil => exact Or.inl rfl
  | cons e rest ih =>
    obtain ⟨p, c⟩ := e
    simp only [ValidIdent.loop]
    split
    · split
      · exact Or.inr ⟨_, rfl⟩
      · exact ih
    · exact ih

theorem String_eq_empty_iff (s : String) : s = "" ↔ goLen s < 1 := by
  have h := goLen_pos_iff s
  obtain ⟨l⟩ := s
  constructor
  · intro e
    have : l = [] := by simpa using congrArg String.data e
    subst this
    decide
  · intro hlt
    have : l = [] := by
      by_contra hne
      have := h.mpr hne
      omega
    subst this
    rfl

/-- C23. For every string `s`, `ValidIdent(s)` returns either `(true, nil)` or
`(false, err)` with a non-nil `err`; `err` is `ErrNameMissed` exactly when `s`
is empty, and wraps `ErrInvalidName` in every other rejected case, among them
every non-empty `s` longer than `MaxIdentLen`. -/
theorem ValidIdent_error_kinds (MaxIdentLen : Nat) (s : String) :
    (ValidIdent MaxIdentLen s = (true, none) ∨
      ∃ err, ValidIdent MaxIdentLen s = (false, some err) ∧
        (err = Error.ErrNameMissed ∨ ∃ msg, err = Error.ErrInvalidName msg)) ∧
    ((ValidIdent MaxIdentLen s).2 = some Error.ErrNameMissed ↔ s = "") ∧
    (∀ err, (ValidIdent MaxIdentLen s).2 = some err → s ≠ "" →
      ∃ msg, err = Error.ErrInvalidName msg) ∧
    (MaxIdentLen < goLen s → s ≠ "" →
      ∃ msg, ValidIdent MaxIdentLen s = (false, some (Error.ErrInvalidName msg))) := by
  have he := String_eq_empty_iff s
  unfold ValidIdent
  by_cases h1 : goLen s < 1
  · have hs : s = "" := he.mpr h1
    simp only [h1, if_true]
    refine ⟨Or.inr ⟨_, rfl, Or.inl rfl⟩, ⟨fun _ => hs, fun _ => trivial⟩, ?_, ?_⟩
    · intro _ _ hne; exact absurd hs hne
    · intro _ hne; exact absurd hs hne
  · have hs : s ≠ "" := fun e => h1 (he.mp e)
    simp only [h1, if_false]
    by_cases h2 : goLen s > MaxIdentLen
    · simp only [h2, if_true]
      refine ⟨Or.inr ⟨_, rfl, Or.inr ⟨_, rfl⟩⟩, ⟨fun h => ?_, fun h => absurd h hs⟩, ?_, ?_⟩
      · simp at h
      · intro err h _
        simp only [Option.some.injEq] at h
        exact ⟨_, h.symm⟩
      · intro _ _; exact ⟨_, rfl⟩
    · simp only [h2, if_false]
      rcases ValidIdent_loop_result
        (fun r => (decide (97 ≤ r) && decide (r ≤ 122)) || (decide (65 ≤ r) && decide (r ≤ 90)))
        (fun r => r == 95) (fun r => r == 36)
        (fun r => decide (48 ≤ r) && decide (r ≤ 57)) (goRange 0 s.data) with h | ⟨msg, h⟩
      · rw [h]
        refine ⟨Or.inl rfl, ⟨fun h => ?_, fun h => absurd h hs⟩, ?_, ?_⟩
        · simp at h
        · intro err h _; simp at h
        · intro h3; exact h3.elim
      · rw [h]
        refine ⟨Or.inr ⟨_, rfl, Or.inr ⟨_, rfl⟩⟩, ⟨fun h => ?_, fun h => absurd h hs⟩, ?_, ?_⟩
        · simp at h
        · intro err h _
          simp only [Option.some.injEq] at h
          exact ⟨_, h.symm⟩
        · intro _ _; exact ⟨_, rfl⟩

theorem ValidIdent_error_kinds_witness :
    ∃ msg, ValidIdent 4 "abcde" = (false, some (Error.ErrInvalidName msg)) :=
  (ValidIdent_error_kinds 4 "abcde").2.2.2 (by decide) (by decide)

/-- C24. For every data kind `k`, `k.IsFixed()` is true if and only if `k` is one
of int32, int64, float32, float64, QName, bool, RecordID; it is false for bytes,
string, Record, Event, null and every kind from `DataKind_FakeLast` on. -/
theorem IsFixed_iff (k : DataKind) :
    (IsFixed k = true ↔
      k = DataKind_int32 ∨ k = DataKind_int64 ∨ k = DataKind_float32 ∨
      k = DataKind_float64 ∨ k = DataKind_QName ∨ k = DataKind_bool ∨
      k = DataKind_RecordID) ∧
    IsFixed DataKind_bytes = false ∧ IsFixed DataKind_string = false ∧
    IsFixed DataKind_Record = false ∧ IsFixed DataKind_Event = false ∧
    IsFixed DataKind_null = false ∧
    (DataKind_FakeLast ≤ k → IsFixed k = false) := by
  refine ⟨?_, rfl, rfl, rfl, rfl, rfl, ?_⟩
  · unfold IsFixed
    split <;> simp_all [DataKind_int32, DataKind_int64, DataKind_float32, DataKind_float64,
      DataKind_QName, DataKind_bool, DataKind_RecordID]
  · intro h
    unfold IsFixed
    split <;> simp_all [DataKind_int32, DataKind_int64, DataKind_float32, DataKind_float64,
      DataKind_QName, DataKind_bool, DataKind_RecordID, DataKind_FakeLast]

theorem IsFixed_iff_witness : IsFixed 200 = false :=
  (IsFixed_iff 200).2.2.2.2.2.2 (by decide)

theorem errorsJoin_pair (err : Option ValidateError) (e : ValidateError) :
    errorsJoin [err, some e] = some (ValidateError.joined (err.toList ++ [e])) := by
  cases err <;> rfl

/-- C25. `command.Validate` returns nil if and only if the function validation
returns nil, the unlogged parameter reference is valid and it is either unset
or resolves to a type of kind Any, Data, ODoc or Object. An unlogged parameter
of any other kind gives the join of the function validation error, when there
is one, and of an error wrapping `ErrInvalidTypeKind`; an invalid reference
gives the join of the function validation error and of an error wrapping the
one of the reference. -/
theorem command_Validate_nil_iff (cmd : command) :
    (cmd.Validate = none ↔
      cmd.functionValidate = none ∧ cmd.unlValid.1 = true ∧
      ∀ k, cmd.UnloggedParam = some k → unloggedKindOk k) ∧
    (∀ k, cmd.unlValid.1 = true → cmd.UnloggedParam = some k → ¬ unloggedKindOk k →
      ∃ msg, cmd.Validate = some (ValidateError.joined
        (cmd.functionValidate.toList ++ [ValidateError.ErrInvalidTypeKind msg]))) ∧
    (cmd.unlValid.1 = false →
      cmd.Validate = some (ValidateError.joined
        (cmd.functionValidate.toList ++ [ValidateError.unloggedParam cmd.unlValid.2]))) ∧
    (cmd.unlValid.1 = true → (∀ k, cmd.UnloggedParam = some k → unloggedKindOk k) →
      cmd.Validate = cmd.functionValidate) := by
  obtain ⟨fv, ⟨ok, cause⟩, up⟩ := cmd
  cases ok with
  | false =>
    simp [command.Validate, errorsJoin_pair]
  | true =>
    cases up with
    | none => simp [command.Validate]
    | some k =>
      cases k <;> simp [command.Validate, errorsJoin_pair, unloggedKindOk]

theorem command_Validate_nil_iff_witness :
    (command.mk (some (ValidateError.external "no result")) (true, none)
      (some TypeKind.CDoc)).Validate ≠ none ∧
    ∃ msg, (command.mk (some (ValidateError.external "no result")) (true, none)
      (some TypeKind.CDoc)).Validate =
        some (ValidateError.joined
          [ValidateError.external "no result", ValidateError.ErrInvalidTypeKind msg]) :=
  have h := command_Validate_nil_iff
    (command.mk (some (ValidateError.external "no result")) (true, none) (some TypeKind.CDoc))
  ⟨fun e => Option.noConfusion (h.1.mp e).1, h.2.1 TypeKind.CDoc rfl rfl (by simp [unloggedKindOk])⟩

end appdef

namespace istructsmem

open appdef (GoMap)

theorem dynoBuffer_Get_filter (b : dynoBuffer) (n n' : String) :
    dynoBuffer.Get (b.filter (fun e => e.1 ≠ n)) n' =
      if n = n' then none else dynoBuffer.Get b n' := by
  induction b with
  | nil => simp [dynoBuffer.Get, GoMap.get]
  | cons e rest ih =>
    obtain ⟨a, v⟩ := e
    unfold dynoBuffer.Get at ih ⊢
    simp only [ne_eq, decide_not] at ih ⊢
    by_cases h : a = n
    · subst h
      by_cases h2 : a = n'
      · simp [List.filter, h2] at ih ⊢
        exact ih
      · simp [List.filter, GoMap.get, h2] at ih ⊢
        exact ih
    · by_cases h2 : a = n'
      · subst h2
        have : ¬ n = a := fun e => h e.symm
        simp [List.filter, GoMap.get, h, this]
      · simp [List.filter, GoMap.get, h, h2]
        exact ih

theorem dynoBuffer_Get_Set (b : dynoBuffer) (n n' : String) (value : Option FieldValue) :
    dynoBuffer.Get (dynoBuffer.Set b n value) n' =
      if n = n' then value else dynoBuffer.Get b n' := by
  cases value with
  | none => exact dynoBuffer_Get_filter b n n'
  | some v => exact appdef.GoMap_get_set b n n' v

theorem dynoBuffer_Get_of_mem (b : dynoBuffer) (n : String) (v : FieldValue)
    (h : (n, v) ∈ b) : ∃ w, dynoBuffer.Get b n = some w := by
  induction b with
  | nil => cases h
  | cons e rest ih =>
    obtain ⟨a, w⟩ := e
    unfold dynoBuffer.Get at ih ⊢
    by_cases ha : a = n
    · exact ⟨w, by simp [GoMap.get, ha]⟩
    · have hm : (n, v) ∈ rest := by
        rcases List.mem_cons.mp h with h | h
        · exact absurd (by simpa using (Prod.mk.inj h).1.symm) ha
        · exact h
      obtain ⟨w', hw⟩ := ih hm
      exact ⟨w', by simp [GoMap.get, ha, hw]⟩

theorem dynoBuffer_mem_of_Get (b : dynoBuffer) (n : String) (v : FieldValue)
    (h : dynoBuffer.Get b n = some v) : (n, v) ∈ b := by
  induction b with
  | nil => simp [dynoBuffer.Get, GoMap.get] at h
  | cons e rest ih =>
    obtain ⟨a, w⟩ := e
    unfold dynoBuffer.Get at ih h
    by_cases ha : a = n
    · simp [GoMap.get, ha] at h
      simp [ha, h]
    · simp [GoMap.get, ha] at h
      exact List.mem_cons_of_mem _ (ih h)

theorem dynoBuffer_mem_IterateFields (b : dynoBuffer) (n : String) (v : FieldValue) :
    (n, v) ∈ dynoBuffer.IterateFields b ↔ dynoBuffer.Get b n = some v := by
  unfold dynoBuffer.IterateFields
  rw [List.mem_filterMap]
  constructor
  · rintro ⟨⟨a, w⟩, _, h⟩
    cases hg : dynoBuffer.Get b a with
    | none => simp [hg] at h
    | some u =>
      simp only [hg, Option.map_some', Option.some.injEq, Prod.mk.injEq] at h
      obtain ⟨rfl, rfl⟩ := h
      exact hg
  · intro h
    exact ⟨(n, v), dynoBuffer_mem_of_Get b n v h, by simp [h]⟩

/-- Setting, one after the other, the fields of a list whose values are given by
`f` leaves in the buffer `f n` for the names of the list and the old value for
the other names. -/
theorem foldl_Set_Get (f : String → Option FieldValue) (l : List (String × FieldValue))
    (hl : ∀ e ∈ l, f e.1 = some e.2) (st : dynoBuffer × Bool) (n : String) :
    dynoBuffer.Get (l.foldl (fun st e => (dynoBuffer.Set st.1 e.1 (some e.2), true)) st).1 n =
      if n ∈ l.map Prod.fst then f n else dynoBuffer.Get st.1 n := by
  induction l generalizing st with
  | nil => simp
  | cons e rest ih =>
    have hr : ∀ e ∈ rest, f e.1 = some e.2 := fun x hx => hl x (List.mem_cons_of_mem _ hx)
    simp only [List.foldl_cons, List.map_cons, List.mem_cons]
    rw [ih hr]
    by_cases h1 : n ∈ rest.map Prod.fst
    · simp [h1]
    · simp only [h1, if_false, or_false, dynoBuffer_Get_Set]
      by_cases h2 : n = e.1
      · subst h2
        simp [hl e (List.mem_cons_self _ _)]
      · have : ¬ e.1 = n := fun x => h2 x.symm
        simp [h2, this]

theorem applyFields_Get (changes : dynoBuffer) (st : dynoBuffer × Bool) (n : String) :
    dynoBuffer.Get (updateRecType.build.applyFields changes st).1 n =
      match dynoBuffer.Get changes n with
      | some v => some v
      | none => dynoBuffer.Get st.1 n := by
  unfold updateRecType.build.applyFields
  rw [foldl_Set_Get (fun m => dynoBuffer.Get changes m)]
  · cases hg : dynoBuffer.Get changes n with
    | none =>
      have : n ∉ (dynoBuffer.IterateFields changes).map Prod.fst := by
        intro hm
        obtain ⟨⟨a, w⟩, hmem, rfl⟩ := List.mem_map.mp hm
        have := (dynoBuffer_mem_IterateFields changes a w).mp hmem
        simp [hg] at this
      simp [this]
    | some v =>
      have : n ∈ (dynoBuffer.IterateFields changes).map Prod.fst :=
        List.mem_map.mpr ⟨(n, v), (dynoBuffer_mem_IterateFields changes n v).mpr hg, rfl⟩
      simp [this]
  · intro e he
    exact (dynoBuffer_mem_IterateFields changes e.1 e.2).mp he

theorem applyFields_changed (changes : dynoBuffer) (st : dynoBuffer × Bool) :
    (updateRecType.build.applyFields changes st).2 =
      (st.2 || !(dynoBuffer.IterateFields changes).isEmpty) := by
  unfold updateRecType.build.applyFields
  generalize dynoBuffer.IterateFields changes = l
  induction l generalizing st with
  | nil => simp
  | cons e rest ih => simp [ih]

theorem applyNils_Get (nils : List String) (st : dynoBuffer × Bool) (n : String) :
    dynoBuffer.Get (updateRecType.build.applyNils nils st).1 n =
      if n ∈ nils then none else dynoBuffer.Get st.1 n := by
  unfold updateRecType.build.applyNils
  induction nils generalizing st with
  | nil => simp
  | cons a rest ih =>
    simp only [List.foldl_cons, List.mem_cons]
    rw [ih]
    by_cases h1 : n ∈ rest
    · simp [h1]
    · simp only [h1, if_false, or_false, dynoBuffer_Get_Set]
      by_cases h2 : n = a
      · subst h2; simp
      · have : ¬ a = n := fun x => h2 x.symm
        simp [h2, this]

/-- C6. For every update-plan entry with origin record `o` and changes `c` on
which `updateRecType.build` succeeds, every user field of the result is cleared
if its name is among `c`'s nils, equals `c`'s value if `c` holds the field, and
equals `o`'s value otherwise. The changes of an entry without type name hold no
fields. -/
theorem updateRecType_build_sparse (rowBuild : recordType → Option String)
    (upd : updateRecType)
    (hwf : upd.changes.QName = appdef.NullQName →
      upd.changes.dyB = [] ∧ upd.changes.nils = [])
    (hok : (upd.build rowBuild).2 = none) (name : String) :
    (upd.build rowBuild).1.result.dyB.Get name =
      if name ∈ upd.changes.nils then none
      else
        match upd.changes.dyB.Get name with
        | some v => some v
        | none => upd.originRec.dyB.Get name := by
  unfold updateRecType.build at hok ⊢
  simp only [recordType.copyFrom] at hok ⊢
  by_cases hq : upd.changes.QName = appdef.NullQName
  · obtain ⟨h1, h2⟩ := hwf hq
    simp [hq, h1, h2, dynoBuffer.Get, GoMap.get]
  · simp only [hq, if_false] at hok ⊢
    cases hb : upd.changes.build rowBuild with
    | some e => simp [hb] at hok
    | none =>
      simp only [hb] at hok ⊢
      split at hok
      · simp at hok
      · split at hok
        · simp at hok
        · split at hok
          · simp at hok
          · rename_i h1 h2 h3
            simp only [h1, h2, h3, if_false]
            have key : ∀ (r : recordType), r.dyB = upd.originRec.dyB →
                dynoBuffer.Get (updateRecType.build.applyNils upd.changes.nils
                  (updateRecType.build.applyFields upd.changes.dyB (r.dyB, false))).1 name =
                if name ∈ upd.changes.nils then none
                else
                  match upd.changes.dyB.Get name with
                  | some v => some v
                  | none => upd.originRec.dyB.Get name := by
              intro r hr
              rw [applyNils_Get, applyFields_Get, hr]
            split <;> split <;> exact key _ rfl

theorem updateRecType_build_sparse_witness :
    (exampleUpdate.build (fun _ => none)).1.result.dyB.Get "a" = some (FieldValue.int32 5) ∧
    (exampleUpdate.build (fun _ => none)).1.result.dyB.Get "b" = some (FieldValue.int32 2) :=
  ⟨(updateRecType_build_sparse (fun _ => none) exampleUpdate
      (fun h => absurd h (by decide)) rfl "a").trans rfl,
   (updateRecType_build_sparse (fun _ => none) exampleUpdate
      (fun h => absurd h (by decide)) rfl "b").trans rfl⟩

theorem build_tail_not_system_field (rowBuild : recordType → Option String) (b : Bool)
    (u : updateRecType) (msg : String) :
    (if b = true then (u, u.result.build rowBuild) else (u, none)).2 ≠
      some (Error.ErrUnableToUpdateSystemField msg) := by
  cases b with
  | false => simp
  | true =>
    simp only [if_true, recordType.build]
    cases rowBuild u.result <;> simp

/-- C7. For every update-plan entry whose changes have a non-null QName and build
successfully, `updateRecType.build` returns an error wrapping
`ErrUnableToUpdateSystemField` if and only if the changes' `sys.ID` differs from
the origin's ID, or the changes carry a non-null `sys.ParentID` different from
the origin's, or the changes carry a non-empty `sys.Container` different from
the origin's. -/
theorem updateRecType_build_system_fields (rowBuild : recordType → Option String)
    (upd : updateRecType)
    (hq : upd.changes.QName ≠ appdef.NullQName)
    (hb : upd.changes.build rowBuild = none) :
    (∃ msg, (upd.build rowBuild).2 = some (Error.ErrUnableToUpdateSystemField msg)) ↔
      (upd.changes.ID ≠ upd.originRec.ID ∨
        (upd.changes.Parent ≠ NullRecordID ∧ upd.changes.Parent ≠ upd.originRec.Parent) ∨
        (upd.changes.Container ≠ "" ∧ upd.changes.Container ≠ upd.originRec.Container)) := by
  unfold updateRecType.build
  simp only [recordType.copyFrom, hq, if_false, hb]
  by_cases h1 : upd.originRec.ID ≠ upd.changes.ID
  · rw [if_pos h1]
    exact ⟨fun _ => Or.inl (fun e => h1 e.symm), fun _ => ⟨_, rfl⟩⟩
  · rw [if_neg h1]
    have h1' : ¬ upd.changes.ID ≠ upd.originRec.ID := fun e => h1 (fun x => e x.symm)
    by_cases h2 : upd.changes.Parent ≠ NullRecordID ∧ upd.changes.Parent ≠ upd.originRec.Parent
    · rw [if_pos h2]
      exact ⟨fun _ => Or.inr (Or.inl h2), fun _ => ⟨_, rfl⟩⟩
    · rw [if_neg h2]
      by_cases h3 : upd.changes.Container ≠ "" ∧ upd.changes.Container ≠ upd.originRec.Container
      · rw [if_pos h3]
        exact ⟨fun _ => Or.inr (Or.inr h3), fun _ => ⟨_, rfl⟩⟩
      · rw [if_neg h3]
        constructor
        · rintro ⟨msg, h⟩
          exact absurd h (build_tail_not_system_field rowBuild _ _ msg)
        · rintro (h | h | h)
          · exact absurd h h1'
          · exact absurd h h2
          · exact absurd h h3

theorem updateRecType_build_system_fields_witness :
    ∃ msg, (updateRecType.build (fun _ => none)
      { exampleUpdate with changes := { exampleChanges with id := 5 } }).2 =
        some (Error.ErrUnableToUpdateSystemField msg) :=
  (updateRecType_build_system_fields (fun _ => none)
    { exampleUpdate with changes := { exampleChanges with id := 5 } }
    (by decide) rfl).mpr (Or.inl (by decide))

theorem regenerateIDsPlan_loop_append {σ : Type} (IsRaw : RecordID → Bool)
    (appCfg : AppConfigType) (generator : IIDGenerator σ)
    (cs more : List recordType) (plan0 : newIDsPlanType) (g0 : σ) :
    cudType.regenerateIDsPlan.loop IsRaw appCfg generator (cs ++ more) plan0 g0 =
      match cudType.regenerateIDsPlan.loop IsRaw appCfg generator cs plan0 g0 with
      | (cs', g', Except.error err) => (cs' ++ more, g', Except.error err)
      | (cs', g', Except.ok plan) =>
        let r := cudType.regenerateIDsPlan.loop IsRaw appCfg generator more plan g'
        (cs' ++ r.1, r.2.1, r.2.2) := by
  induction cs generalizing plan0 g0 with
  | nil => simp [cudType.regenerateIDsPlan.loop]
  | cons rec rest ih =>
    simp only [List.cons_append, cudType.regenerateIDsPlan.loop]
    by_cases hraw : IsRaw rec.ID = true
    · simp only [hraw, Bool.not_true, Bool.false_eq_true, if_false]
      generalize (if (rec.typ.isICDoc && rec.typ.Singleton) = true then
        (appCfg.singletons rec.QName, g0) else generator.NextID g0 rec.ID rec.typ) = res
      obtain ⟨res1, g1⟩ := res
      cases res1 with
      | error err => simp
      | ok sid =>
        have e := ih (GoMap.set plan0 rec.ID sid) g1
        rcases hr : cudType.regenerateIDsPlan.loop IsRaw appCfg generator rest
          (GoMap.set plan0 rec.ID sid) g1 with ⟨a, b, c⟩
        rw [hr] at e
        cases c <;> simp [e, hr]
    · simp only [hraw, Bool.not_false, if_true]
      have e := ih plan0 (generator.UpdateOnSync g0 rec.ID rec.typ)
      rcases hr : cudType.regenerateIDsPlan.loop IsRaw appCfg generator rest plan0
        (generator.UpdateOnSync g0 rec.ID rec.typ) with ⟨a, b, c⟩
      rw [hr] at e
      cases c <;> simp [e, hr]

/-- C8. `cudType.regenerateIDsPlan` processes the creates in order: the run over
the creates `cs` followed by `rec` is the run over `cs` followed by the
treatment of `rec`. If an earlier create failed, the error is returned, `rec`
is left alone and the generator is not called. Otherwise: a create whose ID is
not raw has `UpdateOnSync(id, type)` called, keeps its ID and adds no plan
entry; a raw create of a singleton CDoc gets the singleton ID looked up by QName,
the generator left as it was; any other raw create gets the ID returned by
`NextID(rawID, type)`; in the last two cases the plan maps the raw ID to the
new storage ID. A lookup or generator error is returned in place of the plan. -/
theorem regenerateIDsPlan_in_order {σ : Type} (IsRaw : RecordID → Bool) (cud : cudType)
    (generator : IIDGenerator σ) (g : σ) (cs : List recordType) (rec : recordType) :
    (∀ cs' g' err,
      cudType.regenerateIDsPlan IsRaw { cud with creates := cs } generator g =
        ({ cud with creates := cs' }, g', Except.error err) →
      cudType.regenerateIDsPlan IsRaw { cud with creates := cs ++ [rec] } generator g =
        ({ cud with creates := cs' ++ [rec] }, g', Except.error err)) ∧
    (∀ cs' g' plan,
      cudType.regenerateIDsPlan IsRaw { cud with creates := cs } generator g =
        ({ cud with creates := cs' }, g', Except.ok plan) →
      (IsRaw rec.ID = false →
        cudType.regenerateIDsPlan IsRaw { cud with creates := cs ++ [rec] } generator g =
          ({ cud with creates := cs' ++ [rec] }, generator.UpdateOnSync g' rec.ID rec.typ,
            Except.ok plan)) ∧
      (IsRaw rec.ID = true → (rec.typ.isICDoc && rec.typ.Singleton) = true →
        (∀ sid, cud.appCfg.singletons rec.QName = Except.ok sid →
          cudType.regenerateIDsPlan IsRaw { cud with creates := cs ++ [rec] } generator g =
            ({ cud with creates := cs' ++ [rec.setID sid] }, g',
              Except.ok (GoMap.set plan rec.ID sid))) ∧
        (∀ err, cud.appCfg.singletons rec.QName = Except.error err →
          cudType.regenerateIDsPlan IsRaw { cud with creates := cs ++ [rec] } generator g =
            ({ cud with creates := cs' ++ [rec] }, g', Except.error err))) ∧
      (IsRaw rec.ID = true → (rec.typ.isICDoc && rec.typ.Singleton) = false →
        (∀ sid g1, generator.NextID g' rec.ID rec.typ = (Except.ok sid, g1) →
          cudType.regenerateIDsPlan IsRaw { cud with creates := cs ++ [rec] } generator g =
            ({ cud with creates := cs' ++ [rec.setID sid] }, g1,
              Except.ok (GoMap.set plan rec.ID sid))) ∧
        (∀ err g1, generator.NextID g' rec.ID rec.typ = (Except.error err, g1) →
          cudType.regenerateIDsPlan IsRaw { cud with creates := cs ++ [rec] } generator g =
            ({ cud with creates := cs' ++ [rec] }, g1, Except.error err)))) ∧
    cudType.regenerateIDsPlan IsRaw { cud with creates := [] } generator g =
      ({ cud with creates := [] }, g, Except.ok []) ∧
    (∀ (plan : newIDsPlanType) (sid : RecordID),
      GoMap.get (GoMap.set plan rec.ID sid) rec.ID = some sid ∧
      ∀ id, id ≠ rec.ID → GoMap.get (GoMap.set plan rec.ID sid) id = GoMap.get plan id) := by
  have happ := regenerateIDsPlan_loop_append IsRaw cud.appCfg generator cs [rec] [] g
  refine ⟨?_, ?_, rfl, ?_⟩
  · intro cs' g' err h
    simp only [cudType.regenerateIDsPlan, Prod.mk.injEq, cudType.mk.injEq, true_and] at h ⊢
    rcases hr : cudType.regenerateIDsPlan.loop IsRaw cud.appCfg generator cs [] g with ⟨a, b, c⟩
    rw [hr] at h happ
    obtain ⟨⟨h1, -⟩, h2, h3⟩ := h
    subst h1 h2 h3
    simp [happ]
  · intro cs' g' plan h
    simp only [cudType.regenerateIDsPlan, Prod.mk.injEq, cudType.mk.injEq, true_and] at h ⊢
    rcases hr : cudType.regenerateIDsPlan.loop IsRaw cud.appCfg generator cs [] g with ⟨a, b, c⟩
    rw [hr] at h happ
    obtain ⟨⟨h1, -⟩, h2, h3⟩ := h
    subst h1 h2 h3
    simp only [happ, cudType.regenerateIDsPlan.loop]
    refine ⟨?_, ?_, ?_⟩
    · intro hraw
      simp [hraw]
    · intro hraw hs
      refine ⟨?_, ?_⟩
      · intro sid hsid
        simp [hraw, hs, hsid]
      · intro err herr
        simp [hraw, hs, herr]
    · intro hraw hs
      refine ⟨?_, ?_⟩
      · intro sid g1 hsid
        simp [hraw, hs, hsid]
      · intro err g1 herr
        simp [hraw, hs, herr]
  · intro plan sid
    refine ⟨by simp [appdef.GoMap_get_set], ?_⟩
    intro id hid
    rw [appdef.GoMap_get_set, if_neg (fun e => hid (Eq.symm e))]

theorem regenerateIDsPlan_in_order_witness :
    cudType.regenerateIDsPlan exampleIsRaw exampleCUD sequentialGenerator 1000 =
      ({ exampleCUD with
          creates := [exampleDoc.setID 1000, exampleRef.setID 1001] ++
            [exampleSettings.setID 65536] },
        1002, Except.ok (GoMap.set [(1, 1000), (2, 1001)] 3 65536)) :=
  (((regenerateIDsPlan_in_order exampleIsRaw exampleCUD sequentialGenerator 1000
      [exampleDoc, exampleRef] exampleSettings).2.1
        [exampleDoc.setID 1000, exampleRef.setID 1001] 1002 [(1, 1000), (2, 1001)] rfl).2.1
          rfl rfl).1 65536 rfl

theorem regenerateIDsPlan_loop_cons_ok {σ : Type} (IsRaw : RecordID → Bool)
    (appCfg : AppConfigType) (generator : IIDGenerator σ)
    (r : recordType) (rest : List recordType) (plan0 : newIDsPlanType) (g0 : σ)
    (cs' : List recordType) (g' : σ) (plan : newIDsPlanType)
    (h : cudType.regenerateIDsPlan.loop IsRaw appCfg generator (r :: rest) plan0 g0 =
      (cs', g', Except.ok plan)) :
    ∃ r' rest' plan1 g1, cs' = r' :: rest' ∧
      cudType.regenerateIDsPlan.loop IsRaw appCfg generator rest plan1 g1 =
        (rest', g', Except.ok plan) ∧
      (IsRaw r.ID = false → r' = r) ∧
      (IsRaw r.ID = true → (r.typ.isICDoc && r.typ.Singleton) = true →
        ∃ sid, appCfg.singletons r.QName = Except.ok sid ∧ r' = r.setID sid) := by
  simp only [cudType.regenerateIDsPlan.loop] at h
  by_cases hraw : IsRaw r.ID = true
  · simp only [hraw, Bool.not_true, Bool.false_eq_true, if_false] at h
    by_cases hs : (r.typ.isICDoc && r.typ.Singleton) = true
    · simp only [hs, if_true] at h
      cases hsid : appCfg.singletons r.QName with
      | error err => simp [hsid] at h
      | ok sid =>
        simp only [hsid, Prod.mk.injEq] at h
        obtain ⟨h1, h2, h3⟩ := h
        exact ⟨r.setID sid, _, _, _, h1.symm, Prod.ext rfl (Prod.ext h2 h3),
          fun hr => by simp [hraw] at hr, fun _ _ => ⟨sid, rfl, rfl⟩⟩
    · simp only [hs, Bool.false_eq_true, if_false] at h
      rcases hn : generator.NextID g0 r.ID r.typ with ⟨res, g1⟩
      cases res with
      | error err => simp [hn] at h
      | ok sid =>
        simp only [hn, Prod.mk.injEq] at h
        obtain ⟨h1, h2, h3⟩ := h
        exact ⟨r.setID sid, _, _, _, h1.symm, Prod.ext rfl (Prod.ext h2 h3),
          fun hr => by simp [hraw] at hr, fun _ hs' => absurd hs' hs⟩
  · simp only [hraw, Bool.not_false, if_true, Prod.mk.injEq] at h
    obtain ⟨h1, h2, h3⟩ := h
    exact ⟨r, _, _, _, h1.symm, Prod.ext rfl (Prod.ext h2 h3), fun _ => rfl,
      fun hr => absurd hr hraw⟩

theorem regenerateIDsPlan_loop_singleton {σ : Type} (IsRaw : RecordID → Bool)
    (appCfg : AppConfigType) (generator : IIDGenerator σ)
    (cs : List recordType) (plan0 : newIDsPlanType) (g0 : σ)
    (cs' : List recordType) (g' : σ) (plan : newIDsPlanType)
    (h : cudType.regenerateIDsPlan.loop IsRaw appCfg generator cs plan0 g0 =
      (cs', g', Except.ok plan))
    (i : Nat) (rec : recordType) (hi : cs[i]? = some rec)
    (hraw : IsRaw rec.ID = true) (hs : (rec.typ.isICDoc && rec.typ.Singleton) = true) :
    ∃ sid, appCfg.singletons rec.QName = Except.ok sid ∧ cs'[i]? = some (rec.setID sid) := by
  induction cs generalizing plan0 g0 cs' i with
  | nil => simp at hi
  | cons r rest ih =>
    obtain ⟨r', rest', plan1, g1, e, hrest, -, hsing⟩ :=
      regenerateIDsPlan_loop_cons_ok IsRaw appCfg generator r rest plan0 g0 cs' g' plan h
    subst e
    cases i with
    | zero =>
      simp only [List.getElem?_cons_zero, Option.some.injEq] at hi
      subst hi
      obtain ⟨sid, h1, h2⟩ := hsing hraw hs
      exact ⟨sid, h1, by simp [h2]⟩
    | succ j =>
      simp only [List.getElem?_cons_succ] at hi ⊢
      exact ih plan1 g1 rest' hrest j hi

theorem recordCalls_NextID {σ : Type} (generator : IIDGenerator σ) (g : σ)
    (log : List GeneratorCall) (id : RecordID) (t : IType) :
    (recordCalls generator).NextID (g, log) id t =
      ((generator.NextID g id t).1,
        ((generator.NextID g id t).2, log ++ [GeneratorCall.NextID id t])) := rfl

theorem recordCalls_UpdateOnSync {σ : Type} (generator : IIDGenerator σ) (g : σ)
    (log : List GeneratorCall) (id : RecordID) (t : IType) :
    (recordCalls generator).UpdateOnSync (g, log) id t =
      (generator.UpdateOnSync g id t, log ++ [GeneratorCall.UpdateOnSync id t]) := rfl

theorem regenerateIDsPlan_loop_log {σ : Type} (IsRaw : RecordID → Bool)
    (appCfg : AppConfigType) (generator : IIDGenerator σ)
    (cs : List recordType) (plan0 : newIDsPlanType) (g0 : σ) (log0 : List GeneratorCall)
    (h0 : noSingletonNextID log0) :
    noSingletonNextID
      (cudType.regenerateIDsPlan.loop IsRaw appCfg (recordCalls generator) cs plan0
        (g0, log0)).2.1.2 := by
  induction cs generalizing plan0 g0 log0 with
  | nil => simpa [cudType.regenerateIDsPlan.loop] using h0
  | cons r rest ih =>
    simp only [cudType.regenerateIDsPlan.loop]
    by_cases hraw : IsRaw r.ID = true
    · simp only [hraw, Bool.not_true, Bool.false_eq_true, if_false]
      by_cases hs : (r.typ.isICDoc && r.typ.Singleton) = true
      · simp only [hs, if_true]
        cases appCfg.singletons r.QName with
        | error err => simpa using h0
        | ok sid => exact ih _ _ _ h0
      · simp only [hs, Bool.false_eq_true, if_false, recordCalls]
        have h1 : noSingletonNextID (log0 ++ [GeneratorCall.NextID r.ID r.typ]) := by
          intro id t hm
          rcases List.mem_append.mp hm with hm | hm
          · exact h0 id t hm
          · simp only [List.mem_singleton, GeneratorCall.NextID.injEq] at hm
            obtain ⟨-, rfl⟩ := hm
            simpa using hs
        rcases generator.NextID g0 r.ID r.typ with ⟨res, g1⟩
        cases res with
        | error err => simpa using h1
        | ok sid => exact ih _ _ _ h1
    · simp only [hraw, Bool.not_false, if_true, recordCalls]
      apply ih
      intro id t hm
      rcases List.mem_append.mp hm with hm | hm
      · exact h0 id t hm
      · simp at hm

theorem regenerateIDsPlan_loop_recordCalls {σ : Type} (IsRaw : RecordID → Bool)
    (appCfg : AppConfigType) (generator : IIDGenerator σ)
    (cs : List recordType) (plan0 : newIDsPlanType) (g0 : σ) (log0 : List GeneratorCall) :
    (cudType.regenerateIDsPlan.loop IsRaw appCfg (recordCalls generator) cs plan0
        (g0, log0)).1 =
      (cudType.regenerateIDsPlan.loop IsRaw appCfg generator cs plan0 g0).1 ∧
    (cudType.regenerateIDsPlan.loop IsRaw appCfg (recordCalls generator) cs plan0
        (g0, log0)).2.1.1 =
      (cudType.regenerateIDsPlan.loop IsRaw appCfg generator cs plan0 g0).2.1 ∧
    (cudType.regenerateIDsPlan.loop IsRaw appCfg (recordCalls generator) cs plan0
        (g0, log0)).2.2 =
      (cudType.regenerateIDsPlan.loop IsRaw appCfg generator cs plan0 g0).2.2 := by
  induction cs generalizing plan0 g0 log0 with
  | nil => simp [cudType.regenerateIDsPlan.loop]
  | cons r rest ih =>
    simp only [cudType.regenerateIDsPlan.loop]
    by_cases hraw : IsRaw r.ID = true
    · simp only [hraw, Bool.not_true, Bool.false_eq_true, if_false]
      by_cases hs : (r.typ.isICDoc && r.typ.Singleton) = true
      · simp only [hs, if_true]
        cases appCfg.singletons r.QName with
        | error err => simp
        | ok sid =>
          have := ih (GoMap.set plan0 r.ID sid) g0 log0
          simp [this]
      · simp only [hs, Bool.false_eq_true, if_false, recordCalls_NextID]
        rcases generator.NextID g0 r.ID r.typ with ⟨res, g1⟩
        cases res with
        | error err => simp
        | ok sid =>
          have := ih (GoMap.set plan0 r.ID sid) g1 (log0 ++ [GeneratorCall.NextID r.ID r.typ])
          simp [this]
    · simp only [hraw, Bool.not_false, if_true, recordCalls_UpdateOnSync]
      have := ih plan0 (generator.UpdateOnSync g0 r.ID r.typ)
        (log0 ++ [GeneratorCall.UpdateOnSync r.ID r.typ])
      simp [this]

/-- C10. For a create of a singleton CDoc with a raw ID, the storage ID that
`regenerateIDsPlan` assigns is the ID the application's singleton table holds
for the record's QName: two successful runs with any two generators, in any
states, assign that same ID. In neither run, recorded call by call, does the
generator receive a `NextID` for that record, and recording the calls changes
neither the creates nor the plan. -/
theorem singleton_ID_generator_independent {σ₁ σ₂ : Type} (IsRaw : RecordID → Bool)
    (cud : cudType) (gen₁ : IIDGenerator σ₁) (g₁ : σ₁) (gen₂ : IIDGenerator σ₂) (g₂ : σ₂)
    (cud₁ cud₂ : cudType) (s₁ : σ₁) (s₂ : σ₂) (plan₁ plan₂ : newIDsPlanType)
    (h₁ : cudType.regenerateIDsPlan IsRaw cud gen₁ g₁ = (cud₁, s₁, Except.ok plan₁))
    (h₂ : cudType.regenerateIDsPlan IsRaw cud gen₂ g₂ = (cud₂, s₂, Except.ok plan₂))
    (i : Nat) (rec : recordType) (hi : cud.creates[i]? = some rec)
    (hraw : IsRaw rec.ID = true)
    (hs : (rec.typ.isICDoc && rec.typ.Singleton) = true) :
    (∃ sid, cud.appCfg.singletons rec.QName = Except.ok sid ∧
      cud₁.creates[i]? = some (rec.setID sid) ∧ cud₂.creates[i]? = some (rec.setID sid)) ∧
    GeneratorCall.NextID rec.ID rec.typ ∉
      (cudType.regenerateIDsPlan IsRaw cud (recordCalls gen₁) (g₁, [])).2.1.2 ∧
    GeneratorCall.NextID rec.ID rec.typ ∉
      (cudType.regenerateIDsPlan IsRaw cud (recordCalls gen₂) (g₂, [])).2.1.2 ∧
    (cudType.regenerateIDsPlan IsRaw cud (recordCalls gen₁) (g₁, [])).1.creates = cud₁.creates ∧
    (cudType.regenerateIDsPlan IsRaw cud (recordCalls gen₁) (g₁, [])).2.2 = Except.ok plan₁ ∧
    (cudType.regenerateIDsPlan IsRaw cud (recordCalls gen₂) (g₂, [])).1.creates = cud₂.creates ∧
    (cudType.regenerateIDsPlan IsRaw cud (recordCalls gen₂) (g₂, [])).2.2 = Except.ok plan₂ := by
  have hnil : noSingletonNextID [] := fun _ _ hm => by simp at hm
  have l₁ := regenerateIDsPlan_loop_log IsRaw cud.appCfg gen₁ cud.creates [] g₁ [] hnil
  have l₂ := regenerateIDsPlan_loop_log IsRaw cud.appCfg gen₂ cud.creates [] g₂ [] hnil
  have f₁ := regenerateIDsPlan_loop_recordCalls IsRaw cud.appCfg gen₁ cud.creates [] g₁ []
  have f₂ := regenerateIDsPlan_loop_recordCalls IsRaw cud.appCfg gen₂ cud.creates [] g₂ []
  simp only [cudType.regenerateIDsPlan, Prod.mk.injEq] at h₁ h₂ ⊢
  obtain ⟨e₁, e₁', e₁''⟩ := h₁
  obtain ⟨e₂, e₂', e₂''⟩ := h₂
  have c₁ : cud₁.creates =
      (cudType.regenerateIDsPlan.loop IsRaw cud.appCfg gen₁ cud.creates [] g₁).1 := by
    rw [← e₁]
  have c₂ : cud₂.creates =
      (cudType.regenerateIDsPlan.loop IsRaw cud.appCfg gen₂ cud.creates [] g₂).1 := by
    rw [← e₂]
  obtain ⟨sid, hsid, hc₁⟩ := regenerateIDsPlan_loop_singleton IsRaw cud.appCfg gen₁
    cud.creates [] g₁ _ s₁ plan₁ (Prod.ext rfl (Prod.ext e₁' e₁'')) i rec hi hraw hs
  obtain ⟨sid', hsid', hc₂⟩ := regenerateIDsPlan_loop_singleton IsRaw cud.appCfg gen₂
    cud.creates [] g₂ _ s₂ plan₂ (Prod.ext rfl (Prod.ext e₂' e₂'')) i rec hi hraw hs
  have hss : sid' = sid := by
    rw [hsid] at hsid'
    exact (Except.ok.inj hsid').symm
  subst hss
  refine ⟨⟨sid', hsid, by rw [c₁]; exact hc₁, by rw [c₂]; exact hc₂⟩, ?_, ?_,
    by rw [c₁]; exact f₁.1, by rw [← e₁'']; exact f₁.2.2,
    by rw [c₂]; exact f₂.1, by rw [← e₂'']; exact f₂.2.2⟩
  · intro hm
    have := l₁ rec.ID rec.typ hm
    rw [hs] at this
    cases this
  · intro hm
    have := l₂ rec.ID rec.typ hm
    rw [hs] at this
    cases this

theorem singleton_ID_generator_independent_witness :
    (∃ sid, exampleAppCfg.singletons exampleSettings.QName = Except.ok sid ∧
      (cudType.regenerateIDsPlan exampleIsRaw exampleCUD sequentialGenerator 1000).1.creates[2]?
        = some (exampleSettings.setID sid) ∧
      (cudType.regenerateIDsPlan exampleIsRaw exampleCUD sequentialGenerator 5000).1.creates[2]?
        = some (exampleSettings.setID sid)) :=
  (singleton_ID_generator_independent exampleIsRaw exampleCUD sequentialGenerator 1000
    sequentialGenerator 5000
    (cudType.regenerateIDsPlan exampleIsRaw exampleCUD sequentialGenerator 1000).1
    (cudType.regenerateIDsPlan exampleIsRaw exampleCUD sequentialGenerator 5000).1
    1002 5002 [(1, 1000), (2, 1001), (3, 65536)] [(1, 5000), (2, 5001), (3, 65536)]
    rfl rfl 2 exampleSettings rfl rfl rfl).1

theorem AsRecordID_PutRecordID (rec : recordType) (a n : String) (id : RecordID) :
    (rec.PutRecordID a id).AsRecordID n = if a = n then id else rec.AsRecordID n := by
  unfold recordType.PutRecordID
  by_cases h1 : a = SystemField_ID
  · subst h1
    by_cases h : SystemField_ID = n
    · subst h
      simp [recordType.AsRecordID, recordType.setID]
    · have h' : ¬ n = SystemField_ID := fun e => h e.symm
      simp [recordType.AsRecordID, recordType.setID, h, h']
  · by_cases h2 : a = SystemField_ParentID
    · subst h2
      by_cases h : SystemField_ParentID = n
      · subst h
        simp [recordType.AsRecordID, recordType.setParent, h1]
      · have h' : ¬ n = SystemField_ParentID := fun e => h e.symm
        simp [recordType.AsRecordID, recordType.setParent, h1, h, h']
    · simp only [h1, h2, if_false]
      by_cases h : a = n
      · subst h
        simp [recordType.AsRecordID, h1, h2, dynoBuffer_Get_Set]
      · simp [recordType.AsRecordID, h, dynoBuffer_Get_Set]

theorem regenerateIDsCallback_AsRecordID (IsRaw : RecordID → Bool)
    (newIDs : newIDsPlanType) (st : recordType × Bool) (e : String × RecordID) (n : String) :
    (regenerateIDsCallback IsRaw newIDs st e).1.AsRecordID n =
      if e.1 = n ∧ IsRaw e.2 = true then
        match GoMap.get newIDs e.2 with
        | some id => id
        | none => st.1.AsRecordID n
      else st.1.AsRecordID n := by
  unfold regenerateIDsCallback
  by_cases hraw : IsRaw e.2 = true
  · simp only [hraw, Bool.not_true, Bool.false_eq_true, if_false, and_true]
    cases hg : GoMap.get newIDs e.2 with
    | none => simp
    | some id => simp only [AsRecordID_PutRecordID]
  · simp [hraw]

theorem foldl_regenerateIDsCallback (IsRaw : RecordID → Bool) (newIDs : newIDsPlanType)
    (f : String → RecordID) (l : List (String × RecordID))
    (hl : ∀ e ∈ l, e.2 = f e.1) (st : recordType × Bool) (n : String) :
    (l.foldl (regenerateIDsCallback IsRaw newIDs) st).1.AsRecordID n =
      if n ∈ l.map Prod.fst ∧ IsRaw (f n) = true then
        match GoMap.get newIDs (f n) with
        | some id => id
        | none => st.1.AsRecordID n
      else st.1.AsRecordID n := by
  induction l generalizing st with
  | nil => simp
  | cons e rest ih =>
    have hr : ∀ x ∈ rest, x.2 = f x.1 := fun x hx => hl x (List.mem_cons_of_mem _ hx)
    have he1 : e.2 = f e.1 := hl e (List.mem_cons_self _ _)
    simp only [List.foldl_cons, List.map_cons, List.mem_cons]
    rw [ih hr, regenerateIDsCallback_AsRecordID]
    by_cases hraw : IsRaw (f n) = true
    · by_cases h1 : n ∈ rest.map Prod.fst
      · simp only [h1, hraw, and_self, if_true, or_true]
        cases hg : GoMap.get newIDs (f n) with
        | some id => rfl
        | none =>
          by_cases h2 : e.1 = n
          · subst h2
            simp [he1, hg, hraw]
          · simp [h2]
      · by_cases h2 : e.1 = n
        · subst h2
          simp [h1, hraw, he1]
        · have : ¬ n = e.1 := fun x => h2 x.symm
          simp [h1, h2, this]
    · by_cases h2 : e.1 = n
      · subst h2
        simp [hraw, he1]
      · simp [hraw, h2]

theorem mem_recordIDFields_of_AsRecordID (rec : recordType) (n : String)
    (h : rec.AsRecordID n ≠ NullRecordID) : n ∈ rec.recordIDFields := by
  unfold recordType.recordIDFields
  by_cases h1 : n = SystemField_ID
  · simp [h1]
  · by_cases h2 : n = SystemField_ParentID
    · simp [h2]
    · simp only [recordType.AsRecordID, h1, h2, if_false] at h
      cases hg : rec.dyB.Get n with
      | none => simp [hg] at h
      | some v =>
        cases v with
        | RecordID id =>
          refine List.mem_append_right _ (List.mem_filterMap.mpr ⟨(n, FieldValue.RecordID id),
            dynoBuffer_mem_of_Get _ _ _ hg, ?_⟩)
          simp [h1, h2, hg]
        | _ => simp [hg] at h

theorem mem_RecordIDs_names (rec : recordType) (n : String) :
    n ∈ (rec.RecordIDs false).map Prod.fst ↔ rec.AsRecordID n ≠ NullRecordID := by
  unfold recordType.RecordIDs
  simp only [Bool.false_or, List.mem_map, List.mem_filter, bne_iff_ne, ne_eq, Prod.exists,
    exists_and_right, exists_eq_right, Prod.mk.injEq]
  constructor
  · rintro ⟨v, ⟨m, _, rfl, rfl⟩, hv⟩
    exact hv
  · intro h
    exact ⟨rec.AsRecordID n, ⟨n, mem_recordIDFields_of_AsRecordID rec n h, rfl, rfl⟩, h⟩

theorem RecordIDs_values (rec : recordType) :
    ∀ e ∈ rec.RecordIDs false, e.2 = rec.AsRecordID e.1 := by
  intro e he
  unfold recordType.RecordIDs at he
  obtain ⟨m, _, rfl⟩ := List.mem_map.mp (List.mem_filter.mp he).1
  rfl

theorem foldl_RecordIDs_AsRecordID (IsRaw : RecordID → Bool) (newIDs : newIDsPlanType)
    (rec : recordType) (n : String) :
    ((rec.RecordIDs false).foldl (regenerateIDsCallback IsRaw newIDs)
      (rec, false)).1.AsRecordID n = planID IsRaw newIDs (rec.AsRecordID n) := by
  rw [foldl_regenerateIDsCallback IsRaw newIDs rec.AsRecordID _ (RecordIDs_values rec)]
  have hm := mem_RecordIDs_names rec n
  unfold planID
  by_cases h : rec.AsRecordID n ≠ NullRecordID ∧ IsRaw (rec.AsRecordID n) = true
  · rw [if_pos h, if_pos ⟨hm.mpr h.1, h.2⟩]
  · rw [if_neg h, if_neg (fun x => h ⟨hm.mp x.1, x.2⟩)]

theorem regenerateIDsInRecord_AsRecordID (IsRaw : RecordID → Bool)
    (rowBuild : recordType → Option String) (rec : recordType) (newIDs : newIDsPlanType)
    (n : String) :
    (regenerateIDsInRecord IsRaw rowBuild rec newIDs).1.AsRecordID n =
      planID IsRaw newIDs (rec.AsRecordID n) := by
  unfold regenerateIDsInRecord
  simp only []
  split <;> exact foldl_RecordIDs_AsRecordID IsRaw newIDs rec n

theorem updateRecType_build_changes (rowBuild : recordType → Option String)
    (upd : updateRecType) : (upd.build rowBuild).1.changes = upd.changes := by
  unfold updateRecType.build
  simp only []
  repeat' split
  all_goals rfl

theorem regenerateIDsInUpdateRecord_AsRecordID (IsRaw : RecordID → Bool)
    (rowBuild : recordType → Option String) (rec : updateRecType) (newIDs : newIDsPlanType)
    (n : String) :
    (regenerateIDsInUpdateRecord IsRaw rowBuild rec newIDs).1.changes.AsRecordID n =
      planID IsRaw newIDs (rec.changes.AsRecordID n) := by
  unfold regenerateIDsInUpdateRecord
  simp only []
  split
  · rw [updateRecType_build_changes]
    exact foldl_RecordIDs_AsRecordID IsRaw newIDs rec.changes n
  · exact foldl_RecordIDs_AsRecordID IsRaw newIDs rec.changes n

theorem regenerateIDs_creates_ok (IsRaw : RecordID → Bool)
    (rowBuild : recordType → Option String) (newIDs : newIDsPlanType)
    (cs cs₂ : List recordType)
    (h : cudType.regenerateIDs.creates IsRaw rowBuild newIDs cs = (cs₂, none)) :
    List.Forall₂ (fun r₁ r₂ => ∀ n, r₂.AsRecordID n = planID IsRaw newIDs (r₁.AsRecordID n))
      cs cs₂ := by
  induction cs generalizing cs₂ with
  | nil =>
    simp only [cudType.regenerateIDs.creates, Prod.mk.injEq, and_true] at h
    subst h
    exact List.Forall₂.nil
  | cons r rest ih =>
    simp only [cudType.regenerateIDs.creates] at h
    have hr := regenerateIDsInRecord_AsRecordID IsRaw rowBuild r newIDs
    rcases hrec : regenerateIDsInRecord IsRaw rowBuild r newIDs with ⟨r', err⟩
    rw [hrec] at h hr
    cases err with
    | some e => simp at h
    | none =>
      simp only [Prod.mk.injEq] at h
      obtain ⟨h1, h2⟩ := h
      subst h1
      exact List.Forall₂.cons hr (ih _ (Prod.ext rfl h2))

theorem regenerateIDs_updates_ok (IsRaw : RecordID → Bool)
    (rowBuild : recordType → Option String) (newIDs : newIDsPlanType)
    (us us₂ : GoMap RecordID updateRecType)
    (h : cudType.regenerateIDs.updates IsRaw rowBuild newIDs us = (us₂, none)) :
    List.Forall₂ (fun u u₂ => u₂.1 = u.1 ∧
        ∀ n, u₂.2.changes.AsRecordID n = planID IsRaw newIDs (u.2.changes.AsRecordID n))
      us us₂ := by
  induction us generalizing us₂ with
  | nil =>
    simp only [cudType.regenerateIDs.updates, Prod.mk.injEq, and_true] at h
    subst h
    exact List.Forall₂.nil
  | cons e rest ih =>
    obtain ⟨k, u⟩ := e
    simp only [cudType.regenerateIDs.updates] at h
    have hr := regenerateIDsInUpdateRecord_AsRecordID IsRaw rowBuild u newIDs
    rcases hrec : regenerateIDsInUpdateRecord IsRaw rowBuild u newIDs with ⟨u', err⟩
    rw [hrec] at h hr
    cases err with
    | some e => simp at h
    | none =>
      simp only [Prod.mk.injEq] at h
      obtain ⟨h1, h2⟩ := h
      subst h1
      exact List.Forall₂.cons ⟨rfl, hr⟩ (ih _ (Prod.ext rfl h2))

theorem AsRecordID_setID (rec : recordType) (sid : RecordID) (n : String)
    (hn : n ≠ SystemField_ID) : (rec.setID sid).AsRecordID n = rec.AsRecordID n := by
  simp [recordType.AsRecordID, recordType.setID, hn]

theorem regenerateIDsPlan_loop_fields {σ : Type} (IsRaw : RecordID → Bool)
    (appCfg : AppConfigType) (generator : IIDGenerator σ)
    (cs : List recordType) (plan0 : newIDsPlanType) (g0 : σ) :
    List.Forall₂ (fun r r₁ => ∀ n, n ≠ SystemField_ID → r₁.AsRecordID n = r.AsRecordID n)
      cs (cudType.regenerateIDsPlan.loop IsRaw appCfg generator cs plan0 g0).1 := by
  have hrefl : ∀ l : List recordType,
      List.Forall₂ (fun r r₁ => ∀ n, n ≠ SystemField_ID → r₁.AsRecordID n = r.AsRecordID n)
        l l := by
    intro l
    induction l with
    | nil => exact List.Forall₂.nil
    | cons a t iht => exact List.Forall₂.cons (fun _ _ => rfl) iht
  induction cs generalizing plan0 g0 with
  | nil => exact List.Forall₂.nil
  | cons r rest ih =>
    simp only [cudType.regenerateIDsPlan.loop]
    by_cases hraw : IsRaw r.ID = true
    · simp only [hraw, Bool.not_true, Bool.false_eq_true, if_false]
      generalize (if (r.typ.isICDoc && r.typ.Singleton) = true then
        (appCfg.singletons r.QName, g0) else generator.NextID g0 r.ID r.typ) = res
      obtain ⟨res1, g1⟩ := res
      cases res1 with
      | error err => exact hrefl _
      | ok sid => exact List.Forall₂.cons (fun n hn => AsRecordID_setID r sid n hn) (ih _ _)
    · simp only [hraw, Bool.not_false, if_true]
      exact List.Forall₂.cons (fun _ _ => rfl) (ih _ _)

theorem forall₂_trans_fields (IsRaw : RecordID → Bool) (newIDs : newIDsPlanType)
    (l l₁ l₂ : List recordType)
    (h₁ : List.Forall₂ (fun r r₁ => ∀ n, n ≠ SystemField_ID → r₁.AsRecordID n = r.AsRecordID n)
      l l₁)
    (h₂ : List.Forall₂ (fun r₁ r₂ => ∀ n, r₂.AsRecordID n = planID IsRaw newIDs (r₁.AsRecordID n))
      l₁ l₂) :
    List.Forall₂ (fun r r₂ => ∀ n, n ≠ SystemField_ID →
      r₂.AsRecordID n = planID IsRaw newIDs (r.AsRecordID n)) l l₂ := by
  induction h₁ generalizing l₂ with
  | nil =>
    cases h₂
    exact List.Forall₂.nil
  | cons hab _ ih =>
    cases h₂ with
    | cons hbc ht =>
      exact List.Forall₂.cons (fun n hn => by rw [hbc n, hab n hn]) (ih _ ht)

/-- C9. After `cudType.regenerateIDs` succeeds, with the raw-to-storage plan
`newIDs` of its first stage: in every create record and in every update's
changes, each record-ID field whose value was a raw ID present in the plan holds
the plan's storage ID for it, and every other record-ID field (not raw, or raw
but not in the plan, or null) holds the value it had (`planID`). For a create
the values compared are those the record has when the rewriting starts; they
are the original ones for every field but `sys.ID`, which the plan stage set. -/
theorem regenerateIDs_rewrites_references {σ : Type} (IsRaw : RecordID → Bool)
    (rowBuild : recordType → Option String) (cud : cudType) (generator : IIDGenerator σ)
    (g : σ) (cud₂ : cudType) (g₂ : σ)
    (hok : cudType.regenerateIDs IsRaw rowBuild cud generator g = (cud₂, g₂, none)) :
    ∃ cud₁ newIDs,
      cudType.regenerateIDsPlan IsRaw cud generator g = (cud₁, g₂, Except.ok newIDs) ∧
      List.Forall₂
        (fun r₁ r₂ => ∀ n, r₂.AsRecordID n = planID IsRaw newIDs (r₁.AsRecordID n))
        cud₁.creates cud₂.creates ∧
      List.Forall₂
        (fun r r₂ => ∀ n, n ≠ SystemField_ID →
          r₂.AsRecordID n = planID IsRaw newIDs (r.AsRecordID n))
        cud.creates cud₂.creates ∧
      List.Forall₂
        (fun u u₂ => u₂.1 = u.1 ∧
          ∀ n, u₂.2.changes.AsRecordID n = planID IsRaw newIDs (u.2.changes.AsRecordID n))
        cud.updates cud₂.updates ∧
      (∀ v id, v ≠ NullRecordID → IsRaw v = true → GoMap.get newIDs v = some id →
        planID IsRaw newIDs v = id) ∧
      (∀ v, IsRaw v = false ∨ GoMap.get newIDs v = none → planID IsRaw newIDs v = v) := by
  unfold cudType.regenerateIDs at hok
  rcases hp : cudType.regenerateIDsPlan IsRaw cud generator g with ⟨cud₁, g₁, res⟩
  rw [hp] at hok
  have hfields := regenerateIDsPlan_loop_fields IsRaw cud.appCfg generator cud.creates [] g
  have hc₁ : cud₁.creates =
      (cudType.regenerateIDsPlan.loop IsRaw cud.appCfg generator cud.creates [] g).1 := by
    simp only [cudType.regenerateIDsPlan, Prod.mk.injEq] at hp
    rw [← hp.1]
  have hu₁ : cud₁.updates = cud.updates := by
    simp only [cudType.regenerateIDsPlan, Prod.mk.injEq] at hp
    rw [← hp.1]
  rw [← hc₁] at hfields
  cases res with
  | error err => simp at hok
  | ok newIDs =>
    simp only [] at hok
    rcases hcr : cudType.regenerateIDs.creates IsRaw rowBuild newIDs cud₁.creates with ⟨cs₂, e₁⟩
    rw [hcr] at hok
    cases e₁ with
    | some e => simp at hok
    | none =>
      simp only [] at hok
      rcases hup : cudType.regenerateIDs.updates IsRaw rowBuild newIDs cud₁.updates with
        ⟨us₂, e₂⟩
      rw [hup] at hok
      cases e₂ with
      | some e => simp at hok
      | none =>
        simp only [Prod.mk.injEq, and_true] at hok
        obtain ⟨hcud, hg⟩ := hok
        subst hcud hg
        have h1 := regenerateIDs_creates_ok IsRaw rowBuild newIDs _ _ hcr
        have h2 := regenerateIDs_updates_ok IsRaw rowBuild newIDs _ _ hup
        rw [hu₁] at h2
        refine ⟨cud₁, newIDs, rfl, h1, forall₂_trans_fields IsRaw newIDs _ _ _ hfields h1,
          h2, ?_, ?_⟩
        · intro v id hv hraw hget
          simp [planID, hv, hraw, hget]
        · rintro v (h | h)
          · simp [planID, h]
          · simp [planID, h]

theorem regenerateIDs_rewrites_references_witness :
    ∃ cud₁ newIDs,
      cudType.regenerateIDsPlan exampleIsRaw exampleCUD sequentialGenerator 1000 =
        (cud₁, 1002, Except.ok newIDs) ∧
      List.Forall₂
        (fun r₁ r₂ => ∀ n, r₂.AsRecordID n = planID exampleIsRaw newIDs (r₁.AsRecordID n))
        cud₁.creates
        (cudType.regenerateIDs exampleIsRaw (fun _ => none) exampleCUD
          sequentialGenerator 1000).1.creates :=
  match regenerateIDs_rewrites_references exampleIsRaw (fun _ => none) exampleCUD
    sequentialGenerator 1000
    (cudType.regenerateIDs exampleIsRaw (fun _ => none) exampleCUD sequentialGenerator 1000).1
    1002 rfl with
  | ⟨cud₁, newIDs, h, h1, _⟩ => ⟨cud₁, newIDs, h, h1⟩

/-- Scenario C of the spec: the record created with raw ID 1 is assigned the
storage ID 1000 by a generator starting there, and the field `ref` of the other
new record, which referred to raw ID 1, holds exactly 1000 afterwards; the
singleton gets its fixed ID. -/
theorem regenerateIDs_exampleCUD :
    (cudType.regenerateIDs exampleIsRaw (fun _ => none) exampleCUD
      sequentialGenerator 1000).1.creates =
      [ exampleDoc.setID 1000,
        { exampleRef.setID 1001 with dyB := [("ref", FieldValue.RecordID 1000)] },
        exampleSettings.setID 65536 ] ∧
    (cudType.regenerateIDs exampleIsRaw (fun _ => none) exampleCUD
      sequentialGenerator 1000).2 = (1002, none) := by
  constructor <;> rfl

theorem runNodes_append {S : Type} (rcb : S → recordType → recordType × S)
    (fails : S → recordType → Bool) (a b : List recordType) (s : S) :
    runNodes rcb fails s (a ++ b) =
      match runNodes rcb fails s a with
      | some (la, sa) =>
        match runNodes rcb fails sa b with
        | some (lb, sb) => some (la ++ lb, sb)
        | none => none
      | none => none := by
  induction a generalizing s with
  | nil =>
    simp only [List.nil_append, runNodes]
    cases runNodes rcb fails s b with
    | none => rfl
    | some p => rfl
  | cons r rest ih =>
    have e := ih (rcb s r).2
    rw [List.cons_append]
    generalize rest ++ b = rb at e ⊢
    simp only [runNodes]
    by_cases hf : fails s r = true
    · simp [hf]
    · simp only [hf, Bool.false_eq_true, if_false, e]
      cases runNodes rcb fails (rcb s r).2 rest with
      | none => rfl
      | some p =>
        obtain ⟨la, sa⟩ := p
        simp only []
        cases runNodes rcb fails sa b with
        | none => rfl
        | some q => rfl

mutual
theorem forEach_nodes {S : Type} (cb : S → objectType → recordType × S × Option Error)
    (rcb : S → recordType → recordType × S) (fails : S → recordType → Bool)
    (h1 : ∀ s c, ((cb s c).1, (cb s c).2.1) = rcb s c.record)
    (h2 : ∀ s c, (cb s c).2.2 = none → fails s c.record = false) :
    ∀ (o : objectType) (s : S) (o' : objectType) (s' : S),
      objectType.forEach cb s o = (o', s', none) →
      runNodes rcb fails s o.nodes = some (o'.nodes, s')
  | .mk r cs, s, o', s', h => by
    simp only [objectType.forEach] at h
    have e1 := h1 s (.mk r cs)
    have e2 := h2 s (.mk r cs)
    rcases hcb : cb s (.mk r cs) with ⟨r1, s1, err⟩
    rw [hcb] at h e1 e2
    cases err with
    | some e => simp at h
    | none =>
      simp only [Prod.mk.injEq] at h
      obtain ⟨ho, hs, he⟩ := h
      have hc := forEach_children_nodes cb rcb fails h1 h2 cs s1 _ _
        (Prod.ext rfl (Prod.ext rfl he))
      simp only [objectType.record] at e1 e2
      have e1a : (rcb s r).1 = r1 := by rw [← e1]
      have e1b : (rcb s r).2 = s1 := by rw [← e1]
      subst ho
      simp only [objectType.nodes, runNodes, e2 trivial, Bool.false_eq_true, if_false, e1a,
        e1b, hc, hs]
theorem forEach_children_nodes {S : Type}
    (cb : S → objectType → recordType × S × Option Error)
    (rcb : S → recordType → recordType × S) (fails : S → recordType → Bool)
    (h1 : ∀ s c, ((cb s c).1, (cb s c).2.1) = rcb s c.record)
    (h2 : ∀ s c, (cb s c).2.2 = none → fails s c.record = false) :
    ∀ (cs : List objectType) (s : S) (cs' : List objectType) (s' : S),
      objectType.forEach.children cb s cs = (cs', s', none) →
      runNodes rcb fails s (objectType.nodes.children cs) =
        some (objectType.nodes.children cs', s')
  | [], s, cs', s', h => by
    simp only [objectType.forEach.children, Prod.mk.injEq, and_true] at h
    obtain ⟨h1', h2'⟩ := h
    subst h1' h2'
    simp [objectType.nodes.children, runNodes]
  | c :: rest, s, cs', s', h => by
    simp only [objectType.forEach.children] at h
    rcases hc : objectType.forEach cb s c with ⟨c1, s1, err⟩
    rw [hc] at h
    cases err with
    | some e => simp at h
    | none =>
      simp only [Prod.mk.injEq] at h
      obtain ⟨ho, hs, he⟩ := h
      have ha := forEach_nodes cb rcb fails h1 h2 c s c1 s1 hc
      have hb := forEach_children_nodes cb rcb fails h1 h2 rest s1 _ _
        (Prod.ext rfl (Prod.ext rfl he))
      subst ho
      simp only [objectType.nodes.children, runNodes_append, ha, hb, hs]
end

theorem runNodes_length {S : Type} (rcb : S → recordType → recordType × S)
    (fails : S → recordType → Bool) (l l' : List recordType) (s s' : S)
    (h : runNodes rcb fails s l = some (l', s')) : l'.length = l.length := by
  induction l generalizing s l' with
  | nil =>
    simp only [runNodes, Option.some.injEq, Prod.mk.injEq] at h
    rw [← h.1]
  | cons r rest ih =>
    simp only [runNodes] at h
    by_cases hf : fails s r = true
    · simp [hf] at h
    · simp only [hf, Bool.false_eq_true, if_false] at h
      rcases hr : runNodes rcb fails (rcb s r).2 rest with _ | ⟨la, sa⟩
      · simp [hr] at h
      · simp only [hr, Option.some.injEq, Prod.mk.injEq] at h
        obtain ⟨h1, h2⟩ := h
        subst h2
        rw [← h1, List.length_cons, List.length_cons, ih _ _ hr]

theorem assign_run_cons {σ : Type} (IsRaw : RecordID → Bool) (generator : IIDGenerator σ)
    (a : recordType) (rest l' : List recordType) (plan0 plan : newIDsPlanType) (g0 g' : σ)
    (h : runNodes
      (fun s r => ((objectType.regenerateIDs.assign IsRaw generator s r).1,
        (objectType.regenerateIDs.assign IsRaw generator s r).2.1))
      (fun s r => (objectType.regenerateIDs.assign IsRaw generator s r).2.2.isSome)
      (plan0, g0) (a :: rest) = some (l', (plan, g'))) :
    ∃ a' rest' plan1,
      l' = a' :: rest' ∧
      runNodes
        (fun s r => ((objectType.regenerateIDs.assign IsRaw generator s r).1,
          (objectType.regenerateIDs.assign IsRaw generator s r).2.1))
        (fun s r => (objectType.regenerateIDs.assign IsRaw generator s r).2.2.isSome)
        (plan1, if IsRaw a.ID then (generator.NextID g0 a.ID a.typ).2 else g0) rest
          = some (rest', (plan, g')) ∧
      (IsRaw a.ID = true →
        (generator.NextID g0 a.ID a.typ).1 = Except.ok a'.ID ∧ a' = a.setID a'.ID ∧
        plan1 = GoMap.set plan0 a.ID a'.ID) ∧
      (IsRaw a.ID = false → a' = a ∧ plan1 = plan0) := by
  simp only [runNodes] at h
  by_cases hraw : IsRaw a.ID = true
  · rcases hn : generator.NextID g0 a.ID a.typ with ⟨res, g1⟩
    cases res with
    | error err =>
      simp [objectType.regenerateIDs.assign, hraw, hn] at h
    | ok sid =>
      simp only [objectType.regenerateIDs.assign, hraw, hn, if_true, Option.isSome_none,
        Bool.false_eq_true, if_false] at h
      rcases hr : runNodes
        (fun s r => ((objectType.regenerateIDs.assign IsRaw generator s r).1,
          (objectType.regenerateIDs.assign IsRaw generator s r).2.1))
        (fun s r => (objectType.regenerateIDs.assign IsRaw generator s r).2.2.isSome)
        (GoMap.set plan0 a.ID sid, g1) rest with _ | ⟨la, sa⟩
      · simp only [objectType.regenerateIDs.assign] at hr
        simp [hr] at h
      · simp only [objectType.regenerateIDs.assign] at hr
        simp only [hr, Option.some.injEq, Prod.mk.injEq] at h
        obtain ⟨h1, h2⟩ := h
        subst h1 h2
        refine ⟨a.setID sid, la, GoMap.set plan0 a.ID sid, rfl, ?_, ?_, ?_⟩
        · simp only [hraw, if_true, objectType.regenerateIDs.assign]
          exact hr
        · intro _
          exact ⟨rfl, rfl, rfl⟩
        · intro hf
          simp [hraw] at hf
  · simp only [objectType.regenerateIDs.assign, hraw, Bool.false_eq_true, if_false,
      Option.isSome_none] at h
    rcases hr : runNodes
      (fun s r => ((objectType.regenerateIDs.assign IsRaw generator s r).1,
        (objectType.regenerateIDs.assign IsRaw generator s r).2.1))
      (fun s r => (objectType.regenerateIDs.assign IsRaw generator s r).2.2.isSome)
      (plan0, g0) rest with _ | ⟨la, sa⟩
    · simp only [objectType.regenerateIDs.assign] at hr
      simp [hr] at h
    · simp only [objectType.regenerateIDs.assign] at hr
      simp only [hr, Option.some.injEq, Prod.mk.injEq] at h
      obtain ⟨h1, h2⟩ := h
      subst h1 h2
      refine ⟨a, la, plan0, rfl, ?_, ?_, ?_⟩
      · simp only [hraw, Bool.false_eq_true, if_false, objectType.regenerateIDs.assign]
        exact hr
      · intro hf
        exact absurd hf hraw
      · intro _
        exact ⟨rfl, rfl⟩

theorem assignNodes_cons {σ : Type} (IsRaw : RecordID → Bool) (generator : IIDGenerator σ)
    (a : recordType) (rest l' : List recordType) (plan0 plan : newIDsPlanType) (g0 g' : σ)
    (h : assignNodes IsRaw generator (plan0, g0) (a :: rest) = some (l', (plan, g'))) :
    ∃ a' rest' plan1,
      l' = a' :: rest' ∧
      assignNodes IsRaw generator
        (plan1, if IsRaw a.ID then (generator.NextID g0 a.ID a.typ).2 else g0) rest
          = some (rest', (plan, g')) ∧
      (IsRaw a.ID = true →
        (generator.NextID g0 a.ID a.typ).1 = Except.ok a'.ID ∧ a' = a.setID a'.ID ∧
        plan1 = GoMap.set plan0 a.ID a'.ID) ∧
      (IsRaw a.ID = false → a' = a ∧ plan1 = plan0) :=
  assign_run_cons IsRaw generator a rest l' plan0 plan g0 g' h

theorem assignNodes_index {σ : Type} (IsRaw : RecordID → Bool) (generator : IIDGenerator σ)
    (l l' : List recordType) (plan0 plan : newIDsPlanType) (g0 g' : σ)
    (h : assignNodes IsRaw generator (plan0, g0) l = some (l', (plan, g')))
    (i : Nat) (r r' : recordType) (s : σ)
    (hr : l[i]? = some r) (hr' : l'[i]? = some r')
    (hs : (generatorStates IsRaw generator g0 l)[i]? = some s) :
    (IsRaw r.ID = true →
      (generator.NextID s r.ID r.typ).1 = Except.ok r'.ID ∧ r' = r.setID r'.ID) ∧
    (IsRaw r.ID = false → r' = r) := by
  induction l generalizing plan0 g0 l' i with
  | nil => simp at hr
  | cons a rest ih =>
    obtain ⟨a', rest', plan1, e, hrest, h1, h2⟩ :=
      assignNodes_cons IsRaw generator a rest l' plan0 plan g0 g' h
    subst e
    cases i with
    | zero =>
      simp only [List.getElem?_cons_zero, Option.some.injEq, generatorStates] at hr hr' hs
      subst hr hr' hs
      exact ⟨fun hraw => ⟨(h1 hraw).1, (h1 hraw).2.1⟩, fun hraw => (h2 hraw).1⟩
    | succ j =>
      simp only [List.getElem?_cons_succ, generatorStates] at hr hr' hs
      exact ih rest' plan1 _ hrest j hr hr' hs

theorem assignNodes_frame {σ : Type} (IsRaw : RecordID → Bool) (generator : IIDGenerator σ)
    (l l' : List recordType) (plan0 plan : newIDsPlanType) (g0 g' : σ)
    (h : assignNodes IsRaw generator (plan0, g0) l = some (l', (plan, g')))
    (k : RecordID) (hk : ∀ r ∈ l, IsRaw r.ID = true → r.ID ≠ k) :
    GoMap.get plan k = GoMap.get plan0 k := by
  induction l generalizing plan0 g0 l' with
  | nil =>
    simp only [assignNodes, runNodes, Option.some.injEq, Prod.mk.injEq] at h
    rw [← h.2.1]
  | cons a rest ih =>
    obtain ⟨a', rest', plan1, e, hrest, h1, h2⟩ :=
      assignNodes_cons IsRaw generator a rest l' plan0 plan g0 g' h
    rw [ih rest' plan1 _ hrest (fun r hr => hk r (List.mem_cons_of_mem _ hr))]
    by_cases hraw : IsRaw a.ID = true
    · rw [(h1 hraw).2.2, appdef.GoMap_get_set,
        if_neg (hk a (List.mem_cons_self _ _) hraw)]
    · rw [(h2 (by simpa using hraw)).2]

theorem assignNodes_plan {σ : Type} (IsRaw : RecordID → Bool) (generator : IIDGenerator σ)
    (l l' : List recordType) (plan0 plan : newIDsPlanType) (g0 g' : σ)
    (h : assignNodes IsRaw generator (plan0, g0) l = some (l', (plan, g')))
    (hd : ((l.map recordType.ID).filter IsRaw).Nodup)
    (i : Nat) (r r' : recordType) (hr : l[i]? = some r) (hr' : l'[i]? = some r')
    (hraw : IsRaw r.ID = true) :
    GoMap.get plan r.ID = some r'.ID := by
  induction l generalizing plan0 g0 l' i with
  | nil => simp at hr
  | cons a rest ih =>
    obtain ⟨a', rest', plan1, e, hrest, h1, h2⟩ :=
      assignNodes_cons IsRaw generator a rest l' plan0 plan g0 g' h
    subst e
    have hd' : ((rest.map recordType.ID).filter IsRaw).Nodup := by
      simp only [List.map_cons, List.filter_cons] at hd
      split at hd
      · exact (List.nodup_cons.mp hd).2
      · exact hd
    cases i with
    | zero =>
      simp only [List.getElem?_cons_zero, Option.some.injEq] at hr hr'
      subst hr hr'
      have hnot : ∀ x ∈ rest, IsRaw x.ID = true → x.ID ≠ a.ID := by
        intro x hx hxraw hxe
        simp only [List.map_cons, List.filter_cons, hraw, if_true] at hd
        have := (List.nodup_cons.mp hd).1
        apply this
        rw [List.mem_filter]
        exact ⟨List.mem_map.mpr ⟨x, hx, hxe⟩, hraw⟩
      rw [assignNodes_frame IsRaw generator rest rest' plan1 plan _ g' hrest a.ID hnot,
        (h1 hraw).2.2, appdef.GoMap_get_set, if_pos rfl]
    | succ j =>
      simp only [List.getElem?_cons_succ] at hr hr'
      exact ih rest' plan1 _ hrest hd' j hr hr'

theorem assignNodes_last {σ : Type} (IsRaw : RecordID → Bool) (generator : IIDGenerator σ)
    (l l' : List recordType) (plan0 plan : newIDsPlanType) (g0 g' : σ)
    (h : assignNodes IsRaw generator (plan0, g0) l = some (l', (plan, g'))) :
    (generatorStates IsRaw generator g0 l).getLast? = some g' := by
  induction l generalizing plan0 g0 l' with
  | nil =>
    simp only [assignNodes, runNodes, Option.some.injEq, Prod.mk.injEq] at h
    simp [generatorStates, h.2.2]
  | cons a rest ih =>
    obtain ⟨a', rest', plan1, e, hrest, -, -⟩ :=
      assignNodes_cons IsRaw generator a rest l' plan0 plan g0 g' h
    have := ih rest' plan1 _ hrest
    have hne : ∃ x xs, generatorStates IsRaw generator
        (if IsRaw a.ID then (generator.NextID g0 a.ID a.typ).2 else g0) rest = x :: xs := by
      cases rest <;> exact ⟨_, _, rfl⟩
    obtain ⟨x, xs, hx⟩ := hne
    rw [generatorStates, hx, List.getLast?_cons_cons, ← hx]
    exact this

theorem runNodes_map (f : recordType → recordType) (l : List recordType) :
    runNodes (fun (_ : Unit) r => (f r, ())) (fun _ _ => false) () l =
      some (l.map f, ()) := by
  induction l with
  | nil => rfl
  | cons r rest ih => simp [runNodes, ih]

theorem put_AsRecordID (IsRaw : RecordID → Bool) (newIDs : newIDsPlanType)
    (st : recordType × Bool) (e : String × RecordID) (n : String) :
    (objectType.regenerateIDs.put IsRaw newIDs st e).1.AsRecordID n =
      if e.1 = n ∧ IsRaw e.2 = true then newIDs.at e.2 else st.1.AsRecordID n := by
  unfold objectType.regenerateIDs.put
  by_cases hraw : IsRaw e.2 = true
  · simp only [hraw, if_true, and_true, AsRecordID_PutRecordID]
  · simp [hraw]

theorem foldl_put_AsRecordID (IsRaw : RecordID → Bool) (newIDs : newIDsPlanType)
    (f : String → RecordID) (l : List (String × RecordID))
    (hl : ∀ e ∈ l, e.2 = f e.1) (st : recordType × Bool) (n : String) :
    (l.foldl (objectType.regenerateIDs.put IsRaw newIDs) st).1.AsRecordID n =
      if n ∈ l.map Prod.fst ∧ IsRaw (f n) = true then newIDs.at (f n)
      else st.1.AsRecordID n := by
  induction l generalizing st with
  | nil => simp
  | cons e rest ih =>
    have hr : ∀ x ∈ rest, x.2 = f x.1 := fun x hx => hl x (List.mem_cons_of_mem _ hx)
    have he1 : e.2 = f e.1 := hl e (List.mem_cons_self _ _)
    simp only [List.foldl_cons, List.map_cons, List.mem_cons]
    rw [ih hr, put_AsRecordID]
    by_cases hraw : IsRaw (f n) = true
    · by_cases h1 : n ∈ rest.map Prod.fst
      · simp [h1, hraw]
      · by_cases h2 : e.1 = n
        · subst h2
          simp [h1, hraw, he1]
        · have : ¬ n = e.1 := fun x => h2 x.symm
          simp [h1, h2, this]
    · by_cases h2 : e.1 = n
      · subst h2
        simp [hraw, he1]
      · simp [hraw, h2]

theorem AsRecordID_setParent (rec : recordType) (v : RecordID) (n : String) :
    (rec.setParent v).AsRecordID n =
      if n = SystemField_ParentID then v else rec.AsRecordID n := by
  by_cases h1 : n = SystemField_ID
  · subst h1
    simp [recordType.AsRecordID, recordType.setParent, SystemField_ID, SystemField_ParentID]
  · by_cases h2 : n = SystemField_ParentID
    · subst h2
      simp [recordType.AsRecordID, recordType.setParent, h1]
    · simp [recordType.AsRecordID, recordType.setParent, h1, h2]

/-- What the second walk of `objectType.regenerateIDs` leaves in a record-ID
field of a node: a value that is not raw stays; a raw value that the plan maps
to a storage ID that is not raw becomes that storage ID. -/
theorem rewriteRecord_AsRecordID (IsRaw : RecordID → Bool) (newIDs : newIDsPlanType)
    (hnull : IsRaw NullRecordID = false) (rec : recordType) (n : String) :
    (IsRaw (rec.AsRecordID n) = false →
      (objectType.regenerateIDs.rewriteRecord IsRaw newIDs rec).1.AsRecordID n =
        rec.AsRecordID n) ∧
    (∀ sid, IsRaw (rec.AsRecordID n) = true →
      GoMap.get newIDs (rec.AsRecordID n) = some sid → IsRaw sid = false →
      (objectType.regenerateIDs.rewriteRecord IsRaw newIDs rec).1.AsRecordID n = sid) := by
  unfold objectType.regenerateIDs.rewriteRecord
  simp only []
  generalize hr1 : (if IsRaw rec.Parent = true then rec.setParent (newIDs.at rec.Parent)
    else rec) = rec1
  rw [foldl_put_AsRecordID IsRaw newIDs rec1.AsRecordID _ (RecordIDs_values rec1)]
  have hm := mem_RecordIDs_names rec1 n
  have hv : rec1.AsRecordID n =
      if n = SystemField_ParentID ∧ IsRaw rec.Parent = true then newIDs.at rec.Parent
      else rec.AsRecordID n := by
    rw [← hr1]
    by_cases hp : IsRaw rec.Parent = true
    · simp only [hp, if_true, and_true, AsRecordID_setParent]
    · simp [hp]
  have hpar : rec.AsRecordID SystemField_ParentID = rec.Parent := by
    simp [recordType.AsRecordID, recordType.Parent, SystemField_ID, SystemField_ParentID]
  constructor
  · intro hraw
    have hv' : rec1.AsRecordID n = rec.AsRecordID n := by
      rw [hv]
      by_cases hn : n = SystemField_ParentID
      · subst hn
        rw [hpar] at hraw
        simp [hraw]
      · simp [hn]
    rw [hv']
    simp [hraw]
  · intro sid hraw hget hsid
    have hnz : rec.AsRecordID n ≠ NullRecordID := by
      intro h0
      rw [h0, hnull] at hraw
      cases hraw
    have hnz' : sid ≠ NullRecordID → True := fun _ => trivial
    by_cases hn : n = SystemField_ParentID
    · subst hn
      rw [hpar] at hraw hget
      have hv' : rec1.AsRecordID SystemField_ParentID = sid := by
        rw [hv]
        simp [hraw, newIDsPlanType.at, hget]
      rw [hv']
      simp [hsid]
    · have hv' : rec1.AsRecordID n = rec.AsRecordID n := by
        rw [hv]
        simp [hn]
      rw [hv'] at hm ⊢
      rw [if_pos ⟨hm.mpr hnz, hraw⟩]
      simp [newIDsPlanType.at, hget]

theorem generatorStates_length {σ : Type} (IsRaw : RecordID → Bool)
    (generator : IIDGenerator σ) (g : σ) (l : List recordType) :
    (generatorStates IsRaw generator g l).length = l.length + 1 := by
  induction l generalizing g with
  | nil => rfl
  | cons r rest ih => simp [generatorStates, ih]

theorem AsRecordID_SystemField_ID (rec : recordType) :
    rec.AsRecordID SystemField_ID = rec.ID := by
  simp [recordType.AsRecordID, recordType.ID]

theorem regenerateIDs_walks {σ : Type} (IsRaw : RecordID → Bool)
    (rowBuild : recordType → Option String) (generator : IIDGenerator σ) (g g' : σ)
    (o o' : objectType)
    (hok : objectType.regenerateIDs IsRaw rowBuild generator g o = (o', g', none)) :
    ∃ l₁ plan,
      assignNodes IsRaw generator ([], g) o.nodes = some (l₁, (plan, g')) ∧
      o'.nodes = l₁.map (fun r => (objectType.regenerateIDs.rewriteRecord IsRaw plan r).1) := by
  unfold objectType.regenerateIDs at hok
  rcases h1 : objectType.forEach
    (fun st c => objectType.regenerateIDs.assign IsRaw generator st c.record) ([], g) o with
    ⟨o₁, st, err⟩
  rw [h1] at hok
  cases err with
  | some e => simp at hok
  | none =>
    simp only [Prod.mk.injEq] at hok
    obtain ⟨ho, hg, he⟩ := hok
    obtain ⟨plan, g₁⟩ := st
    simp only [] at hg ho he
    subst hg
    have n1 := forEach_nodes
      (fun st c => objectType.regenerateIDs.assign IsRaw generator st c.record)
      (fun s r => ((objectType.regenerateIDs.assign IsRaw generator s r).1,
        (objectType.regenerateIDs.assign IsRaw generator s r).2.1))
      (fun s r => (objectType.regenerateIDs.assign IsRaw generator s r).2.2.isSome)
      (fun _ _ => rfl) (fun s c h => by simp [h]) o ([], g) o₁ (plan, g₁) h1
    have n2 := forEach_nodes (objectType.regenerateIDs.rewrite IsRaw rowBuild plan)
      (fun _ r => ((objectType.regenerateIDs.rewriteRecord IsRaw plan r).1, ()))
      (fun _ _ => false)
      (fun s c => by
        unfold objectType.regenerateIDs.rewrite
        simp only []
        split <;> rfl)
      (fun _ _ _ => rfl) o₁ () o' () (by rw [← ho, ← he])
    rw [runNodes_map] at n2
    simp only [Option.some.injEq, Prod.mk.injEq, and_true] at n2
    exact ⟨o₁.nodes, plan, n1, n2.symm⟩

/-- C11. For every object tree whose nodes carry pairwise distinct raw IDs and
on which `objectType.regenerateIDs` succeeds, with a generator whose storage IDs
are not raw and the null ID not raw: the tree keeps its nodes; every node with a
raw ID ends with the storage ID that `NextID` returned for it, called in the
state the generator had reached after the nodes visited before; a node whose ID
is not raw keeps it; and every record-ID field other than `sys.ID`, also
`sys.ParentID`, that held the raw ID of a node `m` of the tree holds the storage
ID of `m` afterwards, wherever `m` lies in the tree. -/
theorem objectType_regenerateIDs_tree {σ : Type} (IsRaw : RecordID → Bool)
    (rowBuild : recordType → Option String) (generator : IIDGenerator σ) (g g' : σ)
    (o o' : objectType)
    (hnull : IsRaw NullRecordID = false)
    (hgen : ∀ s id t sid, (generator.NextID s id t).1 = Except.ok sid → IsRaw sid = false)
    (hd : ((o.nodes.map recordType.ID).filter IsRaw).Nodup)
    (hok : objectType.regenerateIDs IsRaw rowBuild generator g o = (o', g', none)) :
    o'.nodes.length = o.nodes.length ∧
    (generatorStates IsRaw generator g o.nodes).getLast? = some g' ∧
    (∀ (i : Nat) (r r' : recordType) (s : σ), o.nodes[i]? = some r → o'.nodes[i]? = some r' →
      (generatorStates IsRaw generator g o.nodes)[i]? = some s →
      (IsRaw r.ID = true → (generator.NextID s r.ID r.typ).1 = Except.ok r'.ID) ∧
      (IsRaw r.ID = false → r'.ID = r.ID)) ∧
    (∀ (i j : Nat) (r r' m m' : recordType) (n : String),
      o.nodes[i]? = some r → o'.nodes[i]? = some r' →
      o.nodes[j]? = some m → o'.nodes[j]? = some m' →
      IsRaw m.ID = true → n ≠ SystemField_ID → r.AsRecordID n = m.ID →
      r'.AsRecordID n = m'.ID) := by
  obtain ⟨l₁, plan, h1, h2⟩ := regenerateIDs_walks IsRaw rowBuild generator g g' o o' hok
  have hlen : l₁.length = o.nodes.length := runNodes_length _ _ _ _ _ _ h1
  have hkeep : ∀ r₁ : recordType, IsRaw r₁.ID = false →
      (objectType.regenerateIDs.rewriteRecord IsRaw plan r₁).1.ID = r₁.ID := by
    intro r₁ hr
    have := (rewriteRecord_AsRecordID IsRaw plan hnull r₁ SystemField_ID).1
      (by rw [AsRecordID_SystemField_ID]; exact hr)
    rwa [AsRecordID_SystemField_ID, AsRecordID_SystemField_ID] at this
  have hmid : ∀ (i : Nat) (r r' : recordType), o.nodes[i]? = some r → o'.nodes[i]? = some r' →
      ∃ r₁ s, l₁[i]? = some r₁ ∧
        r' = (objectType.regenerateIDs.rewriteRecord IsRaw plan r₁).1 ∧
        (generatorStates IsRaw generator g o.nodes)[i]? = some s ∧
        (IsRaw r.ID = true →
          (generator.NextID s r.ID r.typ).1 = Except.ok r₁.ID ∧ r₁ = r.setID r₁.ID) ∧
        (IsRaw r.ID = false → r₁ = r) := by
    intro i r r' hr hr'
    rw [h2, List.getElem?_map] at hr'
    cases h₁ : l₁[i]? with
    | none => simp [h₁] at hr'
    | some r₁ =>
      simp only [h₁, Option.map_some', Option.some.injEq] at hr'
      have hi : i < (generatorStates IsRaw generator g o.nodes).length := by
        rw [generatorStates_length]
        have := (List.getElem?_eq_some_iff.mp hr).1
        omega
      have hs : (generatorStates IsRaw generator g o.nodes)[i]? =
          some ((generatorStates IsRaw generator g o.nodes)[i]) :=
        List.getElem?_eq_getElem hi
      exact ⟨r₁, _, rfl, hr'.symm, hs,
        assignNodes_index IsRaw generator _ _ _ _ _ _ h1 i r r₁ _ hr h₁ hs⟩
  refine ⟨by rw [h2, List.length_map, hlen],
    assignNodes_last IsRaw generator _ _ _ _ _ _ h1, ?_, ?_⟩
  · intro i r r' s hr hr' hs
    obtain ⟨r₁, s', h₁, e, hs', ha, hb⟩ := hmid i r r' hr hr'
    rw [hs] at hs'
    obtain rfl := Option.some.inj hs'
    constructor
    · intro hraw
      obtain ⟨hn, -⟩ := ha hraw
      rw [e, hkeep r₁ (hgen _ _ _ _ hn)]
      exact hn
    · intro hraw
      rw [e, hb hraw, hkeep r hraw]
  · intro i j r r' m m' n hr hr' hm hm' hraw hn href
    obtain ⟨r₁, s, h₁, e, -, ha, hb⟩ := hmid i r r' hr hr'
    obtain ⟨m₁, t, hm₁, em, -, hma, -⟩ := hmid j m m' hm hm'
    have hr₁ : r₁.AsRecordID n = r.AsRecordID n := by
      by_cases hrr : IsRaw r.ID = true
      · rw [(ha hrr).2, AsRecordID_setID _ _ _ hn]
      · rw [hb (by simpa using hrr)]
    have hsid : IsRaw m₁.ID = false := hgen _ _ _ _ (hma hraw).1
    have hplan : GoMap.get plan m.ID = some m₁.ID :=
      assignNodes_plan IsRaw generator _ _ _ _ _ _ h1 hd j m m₁ hm hm₁ hraw
    rw [e, em, hkeep m₁ hsid]
    apply (rewriteRecord_AsRecordID IsRaw plan hnull r₁ n).2 m₁.ID
    · rw [hr₁, href]; exact hraw
    · rw [hr₁, href]; exact hplan
    · exact hsid

theorem objectType_regenerateIDs_tree_witness :
    (objectType.regenerateIDs exampleIsRaw (fun _ => none) storageGenerator 0
      exampleObject).1.nodes.length = exampleObject.nodes.length ∧
    (generatorStates exampleIsRaw storageGenerator 0 exampleObject.nodes).getLast? = some 3 :=
  have h := objectType_regenerateIDs_tree exampleIsRaw (fun _ => none) storageGenerator 0 3
    exampleObject
    (objectType.regenerateIDs exampleIsRaw (fun _ => none) storageGenerator 0 exampleObject).1
    (by decide)
    (by
      intro s id t sid h
      simp only [storageGenerator, Except.ok.injEq] at h
      subst h
      simp only [exampleIsRaw, Bool.and_eq_false_imp, decide_eq_true_eq, decide_eq_false_iff_not]
      intro _
      exact Nat.not_le.mpr
        (Nat.lt_of_lt_of_le (by decide : 65535 < 65536) (Nat.le_add_right 65536 s)))
    (by decide) rfl
  ⟨h.1, h.2.1⟩

/-- The object tree of the example after `regenerateIDs`: the reference of the
first child to its sibling, visited later, holds the sibling's storage ID, and
both children have the storage ID of the document as parent. -/
theorem regenerateIDs_exampleObject :
    ((objectType.regenerateIDs exampleIsRaw (fun _ => none) storageGenerator 0
      exampleObject).1.nodes.map
        (fun r => (r.ID, r.Parent, r.AsRecordID "next", r.AsRecordID "doc"))) =
      [(65536, 0, 0, 0), (65537, 65536, 65538, 0), (65538, 65536, 0, 65536)] := by
  decide

/-- C17. For every event and every error `err` that is not nil,
`setError(event, err)` leaves the error record with `ValidEvent()` false,
`ErrStr()` equal to `err.Error()`, `QNameFromParams()` equal to the event's name
and `OriginalEventBytes()` equal in content to the event's raw bytes;
`setError(event, nil)` resets it to the initial state. -/
theorem setError_state (e : eventErrorType) (event : eventType) (err : Error) :
    (e.setError event (some err)).ValidEvent = false ∧
    (e.setError event (some err)).ErrStr = err.Error ∧
    (e.setError event (some err)).QNameFromParams = event.name ∧
    (e.setError event (some err)).OriginalEventBytes = event.rawBytes ∧
    e.setError event none = makeEventError ∧
    (e.setError event none).ValidEvent = true ∧
    (e.setError event none).ErrStr = "" ∧
    (e.setError event none).QNameFromParams = appdef.NullQName ∧
    (e.setError event none).OriginalEventBytes = [] :=
  ⟨rfl, rfl, rfl, rfl, rfl, rfl, rfl, rfl, rfl⟩

theorem eventType_build_buildErr (rowBuild : recordType → Option String) (ev : eventType) :
    (ev.build rowBuild).1.buildErr = ev.buildErr ∧
    (ev.build rowBuild).1.name = ev.name ∧
    (ev.build rowBuild).1.rawBytes = ev.rawBytes := by
  unfold eventType.build
  split
  · exact ⟨rfl, rfl, rfl⟩
  · split <;> exact ⟨rfl, rfl, rfl⟩

/-- C16 as the spec states it fails: the build of the CUD of `exampleEvent`
fails on the create with ID 1, `build` returns the error, and the event is
still valid afterwards, its error record untouched. -/
theorem eventType_build_leaves_valid :
    (exampleEvent.build rejectRawOne).2 = some (Error.joined ["field is required"]) ∧
    (exampleEvent.build rejectRawOne).1.valid = true ∧
    (exampleEvent.build rejectRawOne).1.Error.ErrStr = "" := by
  refine ⟨?_, ?_, ?_⟩ <;> rfl

/-- C16, amended. Whenever `eventType.build` fails, also because a sub-build
(argument object, unlogged argument object or CUD plan) fails, it returns the
error and leaves the error record of the event as it was; it is
`setBuildError`, called with the error returned, that puts the event in the
invalid state: `valid()` is false, `Error().ErrStr()` is the text of the error,
`Error().QNameFromParams()` is the event's name and
`Error().OriginalEventBytes()` is a copy of the raw bytes. -/
theorem eventType_build_then_setBuildError (rowBuild : recordType → Option String)
    (ev : eventType) (err : Error) (h : (ev.build rowBuild).2 = some err) :
    (ev.build rowBuild).1.Error = ev.Error ∧
    (ev.build rowBuild).1.valid = ev.valid ∧
    ((ev.build rowBuild).1.setBuildError (ev.build rowBuild).2).valid = false ∧
    ((ev.build rowBuild).1.setBuildError (ev.build rowBuild).2).Error.ErrStr = err.Error ∧
    ((ev.build rowBuild).1.setBuildError (ev.build rowBuild).2).Error.QNameFromParams
      = ev.name ∧
    ((ev.build rowBuild).1.setBuildError (ev.build rowBuild).2).Error.OriginalEventBytes
      = ev.rawBytes := by
  obtain ⟨h1, h2, h3⟩ := eventType_build_buildErr rowBuild ev
  rw [h]
  refine ⟨h1, ?_, rfl, rfl, ?_, ?_⟩
  · simp only [eventType.valid, h1]
  · simp only [eventType.setBuildError, eventType.Error, eventErrorType.setError,
      eventErrorType.QNameFromParams, h2]
  · simp only [eventType.setBuildError, eventType.Error, eventErrorType.setError,
      eventErrorType.OriginalEventBytes, CopyBytes, h3]

theorem eventType_build_then_setBuildError_witness :
    ((exampleEvent.build rejectRawOne).1.setBuildError
      (exampleEvent.build rejectRawOne).2).valid = false ∧
    ((exampleEvent.build rejectRawOne).1.setBuildError
      (exampleEvent.build rejectRawOne).2).Error.ErrStr = "field is required" :=
  have h := eventType_build_then_setBuildError rejectRawOne exampleEvent
    (Error.joined ["field is required"]) rfl
  ⟨h.2.2.1, h.2.2.2.1⟩

/-- C13. Calling `eventType.storeToBytes` twice on the same event, with no `Free`
in between, returns the same bytes both times, and the second call leaves the
encoder alone, whatever `change` is made to the members of the event between
the calls. After a `Free` the encoder runs again. -/
theorem storeToBytes_cached {ε : Type} (codec_LastVersion : Nat)
    (storeEvent : ε → eventType → List Nat × ε) (enc : ε) (ev : eventType)
    (change : eventType → eventType) :
    (eventType.storeToBytes codec_LastVersion storeEvent
        (eventType.storeToBytes codec_LastVersion storeEvent enc ev).2.2
        { change (eventType.storeToBytes codec_LastVersion storeEvent enc ev).1 with
          buffer := (eventType.storeToBytes codec_LastVersion storeEvent enc ev).1.buffer })
      = ({ change (eventType.storeToBytes codec_LastVersion storeEvent enc ev).1 with
            buffer := (eventType.storeToBytes codec_LastVersion storeEvent enc ev).1.buffer },
          (eventType.storeToBytes codec_LastVersion storeEvent enc ev).2.1,
          (eventType.storeToBytes codec_LastVersion storeEvent enc ev).2.2) ∧
    (ev.buffer = none →
      (eventType.storeToBytes codec_LastVersion storeEvent enc ev).2.1 =
        codec_LastVersion :: (storeEvent enc { ev with buffer := some [] }).1 ∧
      (eventType.storeToBytes codec_LastVersion storeEvent enc ev).2.2 =
        (storeEvent enc { ev with buffer := some [] }).2) ∧
    (eventType.storeToBytes codec_LastVersion storeEvent
        (eventType.storeToBytes codec_LastVersion storeEvent enc ev).2.2
        (eventType.storeToBytes codec_LastVersion storeEvent enc ev).1.Free).2.2
      = (storeEvent (eventType.storeToBytes codec_LastVersion storeEvent enc ev).2.2
          { (eventType.storeToBytes codec_LastVersion storeEvent enc ev).1 with
            buffer := some [] }).2 := by
  refine ⟨?_, ?_, ?_⟩
  · cases hb : ev.buffer with
    | none => simp [eventType.storeToBytes, hb]
    | some b => simp [eventType.storeToBytes, hb]
  · intro hb
    simp [eventType.storeToBytes, hb]
  · cases hb : ev.buffer with
    | none => simp [eventType.storeToBytes, hb, eventType.Free]
    | some b => simp [eventType.storeToBytes, hb, eventType.Free]

theorem storeToBytes_cached_witness :
    (eventType.storeToBytes 1 exampleStoreEvent 0 exampleEvent).2.1 = [1, 1, 10] ∧
    (eventType.storeToBytes 1 exampleStoreEvent 0 exampleEvent).2.2 = 1 ∧
    (eventType.storeToBytes 1 exampleStoreEvent 1
        { (eventType.storeToBytes 1 exampleStoreEvent 0 exampleEvent).1 with
          pLogOffs := 99 }).2 = ([1, 1, 10], 1) :=
  have h := storeToBytes_cached 1 exampleStoreEvent 0 exampleEvent
    (fun e => { e with pLogOffs := 99 })
  ⟨(h.2.1 rfl).1, (h.2.1 rfl).2, congrArg Prod.snd h.1⟩

/-- C14. For every slice whose first byte is neither `codec_RawDynoBuffer` nor
`codec_RDB_1`, `eventType.loadFromBytes` returns an error wrapping
`ErrUnknownCodec` and leaves the event as it was, whatever the decoder is; for
an empty slice it returns a read error; for each of the two known codec bytes it
decodes the remaining bytes with that codec version and returns the decoder's
error. -/
theorem loadFromBytes_codec (codec_RawDynoBuffer codec_RDB_1 : Nat)
    (loadEvent : eventType → Nat → List Nat → eventType × Option Error)
    (ev : eventType) (codec : Nat) (buf : List Nat) :
    (codec ≠ codec_RawDynoBuffer → codec ≠ codec_RDB_1 →
      ∃ msg, eventType.loadFromBytes codec_RawDynoBuffer codec_RDB_1 loadEvent ev
        (codec :: buf) = (ev, some (Error.ErrUnknownCodec msg))) ∧
    (∃ msg, eventType.loadFromBytes codec_RawDynoBuffer codec_RDB_1 loadEvent ev []
        = (ev, some (Error.readByte msg))) ∧
    (eventType.loadFromBytes codec_RawDynoBuffer codec_RDB_1 loadEvent ev
        (codec_RawDynoBuffer :: buf) = loadEvent ev codec_RawDynoBuffer buf) ∧
    (eventType.loadFromBytes codec_RawDynoBuffer codec_RDB_1 loadEvent ev
        (codec_RDB_1 :: buf) = loadEvent ev codec_RDB_1 buf) := by
  refine ⟨?_, ⟨_, rfl⟩, ?_, ?_⟩
  · intro h1 h2
    exact ⟨"unknown codec version", by simp [eventType.loadFromBytes, h1, h2]⟩
  · simp only [eventType.loadFromBytes, true_or, if_true]
    rcases loadEvent ev codec_RawDynoBuffer buf with ⟨e, err⟩
    cases err <;> rfl
  · simp only [eventType.loadFromBytes, or_true, if_true]
    rcases loadEvent ev codec_RDB_1 buf with ⟨e, err⟩
    cases err <;> rfl

theorem loadFromBytes_codec_witness :
    ∃ msg, (eventType.loadFromBytes 0 1 (fun e _ _ => (e, none)) exampleEvent [7, 1, 10]).2
      = some (Error.ErrUnknownCodec msg) :=
  match (loadFromBytes_codec 0 1 (fun e _ _ => (e, none)) exampleEvent 7 [1, 10]).1
    (by decide) (by decide) with
  | ⟨msg, h⟩ => ⟨msg, congrArg Prod.snd h⟩

theorem updateRecType_build_result_independent (rowBuild : recordType → Option String)
    (origin changes r₁ r₂ : recordType) :
    updateRecType.build rowBuild { originRec := origin, changes := changes, result := r₁ } =
      updateRecType.build rowBuild { originRec := origin, changes := changes, result := r₂ } :=
  rfl

theorem applyRecs_creates_ok (store : recordType → Option Error) (cs stored : List recordType)
    (h : cudType.applyRecs.creates store cs = (stored, none)) : stored = cs := by
  induction cs generalizing stored with
  | nil =>
    simp only [cudType.applyRecs.creates, Prod.mk.injEq, and_true] at h
    exact h.symm
  | cons r rest ih =>
    simp only [cudType.applyRecs.creates] at h
    cases hs : store r with
    | some e => simp [hs] at h
    | none =>
      simp only [hs, Prod.mk.injEq] at h
      obtain ⟨h1, h2⟩ := h
      rw [← h1]
      exact congrArg (List.cons r) (ih _ (Prod.ext rfl h2))

theorem applyRecs_updates_ok (empty : recordType → Bool)
    (rowBuild : recordType → Option String)
    (load : recordType → recordType × Option Error) (store : recordType → Option Error)
    (us us' : GoMap RecordID updateRecType) (stored : List recordType)
    (h : cudType.applyRecs.updates empty rowBuild load store us = (us', stored, none)) :
    stored = us.map (fun e => storedResult empty rowBuild load e.2) := by
  induction us generalizing us' stored with
  | nil =>
    simp only [cudType.applyRecs.updates, Prod.mk.injEq, and_true] at h
    simp [← h.2]
  | cons e rest ih =>
    obtain ⟨k, u⟩ := e
    simp only [cudType.applyRecs.updates] at h
    have key : ∀ (loaded : updateRecType × Option Error),
        loaded.1.result = storedResult empty rowBuild load u ∨ loaded.2 ≠ none →
        (match loaded with
          | (u, some err) => ((k, u) :: rest, ([] : List recordType), some err)
          | (u, none) =>
            match store u.result with
            | some err => ((k, u) :: rest, [u.result], some err)
            | none =>
              ((k, u) :: (cudType.applyRecs.updates empty rowBuild load store rest).1,
                u.result :: (cudType.applyRecs.updates empty rowBuild load store rest).2.1,
                (cudType.applyRecs.updates empty rowBuild load store rest).2.2))
          = (us', stored, none) →
        stored = (((k, u) :: rest).map (fun e => storedResult empty rowBuild load e.2)) := by
      rintro ⟨u', err⟩ hres hm
      cases err with
      | some e => simp at hm
      | none =>
        simp only [] at hm
        cases hs : store u'.result with
        | some e => simp [hs] at hm
        | none =>
          simp only [hs, Prod.mk.injEq] at hm
          obtain ⟨-, h2, h3⟩ := hm
          rcases hres with hres | hres
          · rw [← h2, List.map_cons, ← hres]
            exact congrArg (List.cons u'.result) (ih _ _ (Prod.ext rfl (Prod.ext rfl h3)))
          · exact absurd rfl hres
    apply key _ _ h
    unfold storedResult
    by_cases he : empty u.originRec = true
    · simp only [he, if_true]
      rcases hl : load u.originRec with ⟨origin, lerr⟩
      cases lerr with
      | some e => exact Or.inr (by simp)
      | none => exact Or.inl (by simp only [])
    · simp only [he, Bool.false_eq_true, if_false]
      exact Or.inl trivial

/-- C12. When `applyRecs` succeeds it passes to `store` the creates and then, for
every update entry, its result; for an entry whose origin was never loaded
(empty origin) that result is rebuilt from the origin `load` fills in and the
changes of the entry. The rebuilt record is the one `updateRecType.build` gives
for any in-memory entry with that origin and those changes, whatever its result
held before, and so is the error of the build. -/
theorem applyRecs_lazy_load (empty : recordType → Bool)
    (rowBuild : recordType → Option String)
    (load : recordType → recordType × Option Error) (store : recordType → Option Error)
    (cud cud' : cudType) (stored : List recordType)
    (hok : cudType.applyRecs empty rowBuild load store cud = (cud', stored, none)) :
    stored = cud.creates ++
      cud.updates.map (fun e => storedResult empty rowBuild load e.2) ∧
    (∀ e ∈ cud.updates, empty e.2.originRec = true →
      ∀ inMemory : updateRecType,
        inMemory.originRec = (load e.2.originRec).1 → inMemory.changes = e.2.changes →
        storedResult empty rowBuild load e.2 = (updateRecType.build rowBuild inMemory).1.result ∧
        (updateRecType.build rowBuild { e.2 with originRec := (load e.2.originRec).1 }).2 =
          (updateRecType.build rowBuild inMemory).2) := by
  constructor
  · unfold cudType.applyRecs at hok
    rcases hc : cudType.applyRecs.creates store cud.creates with ⟨st, err⟩
    rw [hc] at hok
    cases err with
    | some e => simp at hok
    | none =>
      simp only [Prod.mk.injEq] at hok
      obtain ⟨-, h2, h3⟩ := hok
      rw [← h2, applyRecs_creates_ok store _ _ hc]
      exact congrArg (fun l => cud.creates ++ l)
        (applyRecs_updates_ok empty rowBuild load store cud.updates _ _
          (Prod.ext rfl (Prod.ext rfl h3)))
  · intro e _ hempty inMemory ho hc
    obtain ⟨o, c, r⟩ := inMemory
    simp only [] at ho hc
    subst ho hc
    simp only [storedResult, hempty, if_true]
    exact ⟨rfl, rfl⟩

theorem applyRecs_lazy_load_witness :
    (cudType.applyRecs exampleEmpty (fun _ => none) (fun _ => (exampleOrigin, none))
      (fun _ => none)
      { appCfg := exampleAppCfg, creates := [], updates := [(322685000131072, exampleReloaded)] }
      ).2.1 = [] ++ [(exampleUpdate.build (fun _ => none)).1.result] :=
  have h := applyRecs_lazy_load exampleEmpty (fun _ => none) (fun _ => (exampleOrigin, none))
    (fun _ => none)
    { appCfg := exampleAppCfg, creates := [], updates := [(322685000131072, exampleReloaded)] }
    _ _ rfl
  h.1

theorem GoMap_get_none_iff {K V : Type} [DecidableEq K] (m : GoMap K V) (k : K) :
    GoMap.get m k = none ↔ k ∉ m.map Prod.fst := by
  induction m with
  | nil => simp [GoMap.get]
  | cons e rest ih =>
    obtain ⟨a, v⟩ := e
    by_cases h : a = k
    · simp [GoMap.get, h]
    · have h' : ¬ k = a := fun x => h x.symm
      simp [GoMap.get, h, h', ih]

theorem GoMap_set_of_get_none {K V : Type} [DecidableEq K] (m : GoMap K V) (k : K) (v : V)
    (h : GoMap.get m k = none) : GoMap.set m k v = m ++ [(k, v)] := by
  induction m with
  | nil => rfl
  | cons e rest ih =>
    obtain ⟨a, w⟩ := e
    by_cases ha : a = k
    · simp [GoMap.get, ha] at h
    · simp only [GoMap.get, ha, if_false] at h
      simp [GoMap.set, ha, ih h]

theorem Update_keys (cud : cudType) (record : recordType) :
    (cud.Update record).1.updates.map Prod.fst =
      if record.ID ∈ cud.updates.map Prod.fst then cud.updates.map Prod.fst
      else cud.updates.map Prod.fst ++ [record.ID] := by
  cases hg : GoMap.get cud.updates record.ID with
  | none =>
    have hn := (GoMap_get_none_iff cud.updates record.ID).mp hg
    simp only [cudType.Update, hg, hn, if_false, GoMap_set_of_get_none _ _ _ hg,
      List.map_append, List.map_cons, List.map_nil]
  | some u =>
    have hn : record.ID ∈ cud.updates.map Prod.fst := by
      by_contra hc
      rw [(GoMap_get_none_iff cud.updates record.ID).mpr hc] at hg
      cases hg
    simp only [cudType.Update, hg, hn, if_true]

theorem Update_foldl_keys (records : List recordType) (cud : cudType)
    (hn : (cud.updates.map Prod.fst).Nodup) :
    ((records.foldl (fun c r => (c.Update r).1) cud).updates.map Prod.fst).Nodup ∧
    ∀ k, k ∈ (records.foldl (fun c r => (c.Update r).1) cud).updates.map Prod.fst ↔
      k ∈ cud.updates.map Prod.fst ∨ k ∈ records.map recordType.ID := by
  induction records generalizing cud with
  | nil => simp [hn]
  | cons r rest ih =>
    have hk := Update_keys cud r
    have hn' : ((cud.Update r).1.updates.map Prod.fst).Nodup := by
      rw [hk]
      split
      · exact hn
      · rename_i hnot
        exact List.Nodup.append hn (List.nodup_singleton _) (by simpa using hnot)
    obtain ⟨h1, h2⟩ := ih (cud.Update r).1 hn'
    refine ⟨h1, fun k => ?_⟩
    simp only [List.foldl_cons, List.map_cons, List.mem_cons]
    rw [h2 k, hk]
    split
    · rename_i hin
      constructor
      · rintro (h | h)
        · exact Or.inl h
        · exact Or.inr (Or.inr h)
      · rintro (h | h | h)
        · exact Or.inl h
        · exact Or.inl (h ▸ hin)
        · exact Or.inr h
    · simp only [List.mem_append, List.mem_singleton]
      tauto

/-- C18. `cudType.Update(record)` creates an update-plan entry keyed by
`record.ID()` only when no entry for that ID exists: it is added after the
others, its origin a copy of the record and its changes empty. Otherwise the
call leaves the whole plan as it is, the stored origin and the changes already
written included, and returns the writer of the existing entry. In both cases
an entry for the ID exists afterwards, and after any sequence of `Update` calls
on a new CUD the number of entries is the number of distinct record IDs passed. -/
theorem Update_lookup_or_create (cud : cudType) (record : recordType)
    (records : List recordType) :
    (∀ u, GoMap.get cud.updates record.ID = some u →
      (cud.Update record).1 = cud ∧ (cud.Update record).2 = record.ID) ∧
    (GoMap.get cud.updates record.ID = none →
      (cud.Update record).1.updates =
        cud.updates ++ [(record.ID, newUpdateRec cud.appCfg record)] ∧
      (cud.Update record).1.creates = cud.creates ∧
      (cud.Update record).2 = record.ID ∧
      (newUpdateRec cud.appCfg record).originRec = record ∧
      (newUpdateRec cud.appCfg record).changes.ID = record.ID ∧
      (newUpdateRec cud.appCfg record).changes.dyB = []) ∧
    GoMap.get (cud.Update record).1.updates record.ID ≠ none ∧
    ((records.foldl (fun c r => (c.Update r).1) (makeCUD cud.appCfg)).updates).length =
      ((records.map recordType.ID).dedup).length := by
  refine ⟨?_, ?_, ?_, ?_⟩
  · intro u hu
    simp [cudType.Update, hu]
  · intro hn
    refine ⟨?_, ?_, ?_, rfl, ?_, ?_⟩
    · simp [cudType.Update, hn, GoMap_set_of_get_none _ _ _ hn]
    · simp [cudType.Update, hn]
    · simp [cudType.Update, hn]
    · simp only [newUpdateRec, recordType.setQName, recordType.ID]
      split <;> rfl
    · simp only [newUpdateRec, recordType.setQName]
      split <;> rfl
  · intro hc
    have hk := Update_keys cud record
    have := (GoMap_get_none_iff _ _).mp hc
    rw [hk] at this
    split at this
    · rename_i hin
      exact this hin
    · simp at this
  · obtain ⟨h1, h2⟩ := Update_foldl_keys records (makeCUD cud.appCfg) (by simp [makeCUD])
    have e : ((records.foldl (fun c r => (c.Update r).1) (makeCUD cud.appCfg)).updates.map
        Prod.fst).toFinset = (records.map recordType.ID).toFinset := by
      ext k
      simp only [List.mem_toFinset]
      rw [h2 k]
      simp [makeCUD]
    rw [← List.card_toFinset, ← e, List.toFinset_card_of_nodup h1, List.length_map]

theorem Update_lookup_or_create_witness :
    ((exampleCUD.Update exampleOrigin).1.Update exampleOrigin).1.updates.length = 1 ∧
    ((exampleCUD.Update exampleOrigin).1.Update exampleOrigin).2 = exampleOrigin.ID :=
  have h1 := (Update_lookup_or_create exampleCUD exampleOrigin []).2.1 rfl
  have h2 := (Update_lookup_or_create (exampleCUD.Update exampleOrigin).1 exampleOrigin []).1
    (newUpdateRec exampleAppCfg exampleOrigin) rfl
  ⟨by rw [h2.1, h1.1]; rfl, h2.2⟩

/-- C19. `cudType.Create(qName)` appends exactly one record at the end of the
creates list and leaves the earlier creates and the updates map unchanged; the
record is marked new and has the type the application definition holds for
`qName`, so its QName is `qName` for a known name. The creates list, and its
enumeration by `enumRecs`, keep the order of the `Create` calls. -/
theorem Create_appends (cud : cudType) (qName : appdef.QName) (qNames : List appdef.QName) :
    (cud.Create qName).1.creates = cud.creates ++ [(cud.Create qName).2] ∧
    (cud.Create qName).1.updates = cud.updates ∧
    (cud.Create qName).2.isNew = true ∧
    (∀ t, cud.appCfg.TypeByName qName = some t →
      (cud.Create qName).2.typ = t ∧
      (t.QName = qName → (cud.Create qName).2.QName = qName)) ∧
    (cud.Create qName).2.dyB = [] ∧
    (cud.Create qName).1.enumRecs =
      cud.creates ++ [(cud.Create qName).2] ++ cud.updates.map (fun e => e.2.changes) ∧
    (qNames.foldl (fun c q => (c.Create q).1) cud).creates =
      cud.creates ++ qNames.map (fun q => (cud.Create q).2) ∧
    (qNames.foldl (fun c q => (c.Create q).1) cud).updates = cud.updates := by
  have hseq : ∀ (qs : List appdef.QName) (c : cudType),
      (qs.foldl (fun c q => (c.Create q).1) c).creates =
        c.creates ++ qs.map (fun q => (c.Create q).2) ∧
      (qs.foldl (fun c q => (c.Create q).1) c).updates = c.updates ∧
      (qs.foldl (fun c q => (c.Create q).1) c).appCfg = c.appCfg := by
    intro qs
    induction qs with
    | nil => intro c; simp
    | cons q rest ih =>
      intro c
      obtain ⟨h1, h2, h3⟩ := ih (c.Create q).1
      have hcfg : (c.Create q).1.appCfg = c.appCfg := rfl
      refine ⟨?_, ?_, ?_⟩
      · simp only [List.foldl_cons, h1, List.map_cons]
        simp [cudType.Create]
      · simp only [List.foldl_cons, h2]
        rfl
      · simp only [List.foldl_cons, h3, hcfg]
  refine ⟨rfl, rfl, ?_, ?_, ?_, rfl, (hseq qNames cud).1, (hseq qNames cud).2.1⟩
  · simp only [cudType.Create, recordType.setQName]
    split <;> rfl
  · intro t ht
    simp only [cudType.Create, recordType.setQName, ht, recordType.QName]
    exact ⟨trivial, fun h => h⟩
  · simp only [cudType.Create, recordType.setQName]
    split <;> rfl

theorem Create_appends_witness :
    ((exampleCUD.Create ⟨"test", "rec"⟩).1.creates.length = 4) ∧
    (exampleCUD.Create ⟨"test", "rec"⟩).2.QName = ⟨"test", "rec"⟩ :=
  have h := Create_appends exampleCUD ⟨"test", "rec"⟩ []
  ⟨by rw [h.1]; rfl, (h.2.2.2.1 (IType.other ⟨"test", "rec"⟩) rfl).2 rfl⟩

theorem setQName_frame (appCfg : AppConfigType) (rec : recordType) (q : appdef.QName) :
    (rec.setQName appCfg q).id = rec.id ∧ (rec.setQName appCfg q).parentID = rec.parentID ∧
    (rec.setQName appCfg q).container = rec.container := by
  simp only [recordType.setQName]
  split <;> exact ⟨rfl, rfl, rfl⟩

theorem setQName_QName (appCfg : AppConfigType) (rec : recordType) (q : appdef.QName) :
    (rec.setQName appCfg q).QName =
      match appCfg.TypeByName q with
      | some t => t.QName
      | none => appdef.NullQName := by
  simp only [recordType.setQName, recordType.QName]
  split <;> rfl

/-- C20. `objectType.ChildBuilder(containerName)` always appends exactly one new
child, without children of its own, to the parent's child list and leaves the
parent's record and earlier children as they were. When the parent has a QName
and its type declares the container, the child gets the type the application
definition holds for the container's target QName, so its QName is the target
QName for a known target; when the parent has no QName, or its type has no such
container or no containers at all, the child is the empty record with NullQName.
The child's container name, and its parent ID when the parent's ID is non-null,
are set exactly when the child's QName was resolved; otherwise both stay in
their initial state. The call fails to return only when the parent has a QName
and its type has no containers at all. -/
theorem ChildBuilder_appends_child (appCfg : AppConfigType) (o : objectType)
    (containerName : String) :
    (o.ChildBuilder appCfg containerName).1.record = o.record ∧
    (o.ChildBuilder appCfg containerName).1.child =
      o.child ++ [(o.ChildBuilder appCfg containerName).2.1] ∧
    (o.ChildBuilder appCfg containerName).2.1.child = [] ∧
    (∀ container q, o.QName ≠ appdef.NullQName →
      appCfg.Container o.record.typ = some container → container containerName = some q →
      (o.ChildBuilder appCfg containerName).2.1.QName = (makeRecord.setQName appCfg q).QName ∧
      ∀ t, appCfg.TypeByName q = some t → t.QName = q →
        (o.ChildBuilder appCfg containerName).2.1.QName = q) ∧
    ((o.QName = appdef.NullQName ∨ appCfg.Container o.record.typ = none ∨
        ∃ container, appCfg.Container o.record.typ = some container ∧
          container containerName = none) →
      (o.ChildBuilder appCfg containerName).2.1.record = makeRecord ∧
      (o.ChildBuilder appCfg containerName).2.1.QName = appdef.NullQName) ∧
    ((o.ChildBuilder appCfg containerName).2.1.QName ≠ appdef.NullQName →
      (o.ChildBuilder appCfg containerName).2.1.record.Container = containerName ∧
      (o.ChildBuilder appCfg containerName).2.1.record.Parent = o.record.ID) ∧
    ((o.ChildBuilder appCfg containerName).2.1.QName = appdef.NullQName →
      (o.ChildBuilder appCfg containerName).2.1.record.Container = "" ∧
      (o.ChildBuilder appCfg containerName).2.1.record.Parent = NullRecordID) ∧
    ((o.ChildBuilder appCfg containerName).2.2 = true ↔
      o.QName ≠ appdef.NullQName ∧ appCfg.Container o.record.typ = none) := by
  have m1 : makeObject.record = makeRecord := rfl
  have m2 : makeObject.child = [] := rfl
  by_cases hq : o.QName = appdef.NullQName
  · have e : o.ChildBuilder appCfg containerName =
        (.mk o.record (o.child ++ [makeObject]), makeObject, false) := by
      simp [objectType.ChildBuilder, hq]
    rw [e]
    refine ⟨rfl, rfl, rfl, ?_, ?_, ?_, ?_, ?_⟩
    · intro _ _ h; exact absurd hq h
    · intro _; exact ⟨rfl, rfl⟩
    · intro h; exact absurd rfl h
    · intro _; exact ⟨rfl, rfl⟩
    · simp [hq]
  · cases hc : appCfg.Container o.record.typ with
    | none =>
      have e : o.ChildBuilder appCfg containerName =
          (.mk o.record (o.child ++ [makeObject]), makeObject, true) := by
        simp [objectType.ChildBuilder, hq, hc]
      rw [e]
      refine ⟨rfl, rfl, rfl, ?_, ?_, ?_, ?_, ?_⟩
      · intro _ _ _ h; cases h
      · intro _; exact ⟨rfl, rfl⟩
      · intro h; exact absurd rfl h
      · intro _; exact ⟨rfl, rfl⟩
      · simp [hq]
    | some container =>
      cases hn : container containerName with
      | none =>
        have e : o.ChildBuilder appCfg containerName =
            (.mk o.record (o.child ++ [makeObject]), makeObject, false) := by
          simp [objectType.ChildBuilder, hq, hc, hn]
        rw [e]
        refine ⟨rfl, rfl, rfl, ?_, ?_, ?_, ?_, ?_⟩
        · intro c q _ h1 h2
          cases h1
          rw [hn] at h2
          cases h2
        · intro _; exact ⟨rfl, rfl⟩
        · intro h; exact absurd rfl h
        · intro _; exact ⟨rfl, rfl⟩
        · simp
      | some q =>
        obtain ⟨f1, f2, f3⟩ := setQName_frame appCfg makeRecord q
        by_cases hr : (makeRecord.setQName appCfg q).QName = appdef.NullQName
        · have e : o.ChildBuilder appCfg containerName =
              (.mk o.record (o.child ++ [.mk (makeRecord.setQName appCfg q) []]),
                .mk (makeRecord.setQName appCfg q) [], false) := by
            simp [objectType.ChildBuilder, hq, hc, hn, hr, m1, m2]
          rw [e]
          refine ⟨rfl, rfl, rfl, ?_, ?_, ?_, ?_, ?_⟩
          · intro c q' _ h1 h2
            cases h1
            rw [hn] at h2
            cases h2
            refine ⟨rfl, fun t ht htq => ?_⟩
            have := setQName_QName appCfg makeRecord q
            rw [ht] at this
            exact this.trans htq
          · rintro (h | h | ⟨c, h1, h2⟩)
            · exact absurd h hq
            · cases h
            · cases h1
              rw [hn] at h2
              cases h2
          · intro h; exact absurd hr h
          · intro _
            exact ⟨f3, f2⟩
          · simp
        · by_cases hid : o.record.ID = NullRecordID
          · have e : o.ChildBuilder appCfg containerName =
                (.mk o.record (o.child ++
                    [.mk ((makeRecord.setQName appCfg q).setContainer containerName) []]),
                  .mk ((makeRecord.setQName appCfg q).setContainer containerName) [], false) := by
              simp [objectType.ChildBuilder, hq, hc, hn, hr, hid, m1, m2]
            rw [e]
            refine ⟨rfl, rfl, rfl, ?_, ?_, ?_, ?_, ?_⟩
            · intro c q' _ h1 h2
              cases h1
              rw [hn] at h2
              cases h2
              refine ⟨rfl, fun t ht htq => ?_⟩
              have := setQName_QName appCfg makeRecord q
              rw [ht] at this
              exact this.trans htq
            · rintro (h | h | ⟨c, h1, h2⟩)
              · exact absurd h hq
              · cases h
              · cases h1
                rw [hn] at h2
                cases h2
            · intro _
              exact ⟨rfl, f2.trans hid.symm⟩
            · intro h; exact absurd h hr
            · simp
          · have e : o.ChildBuilder appCfg containerName =
                (.mk o.record (o.child ++
                    [.mk (((makeRecord.setQName appCfg q).setParent o.record.ID).setContainer
                      containerName) []]),
                  .mk (((makeRecord.setQName appCfg q).setParent o.record.ID).setContainer
                      containerName) [], false) := by
              simp [objectType.ChildBuilder, hq, hc, hn, hr, hid, m1, m2]
            rw [e]
            refine ⟨rfl, rfl, rfl, ?_, ?_, ?_, ?_, ?_⟩
            · intro c q' _ h1 h2
              cases h1
              rw [hn] at h2
              cases h2
              refine ⟨rfl, fun t ht htq => ?_⟩
              have := setQName_QName appCfg makeRecord q
              rw [ht] at this
              exact this.trans htq
            · rintro (h | h | ⟨c, h1, h2⟩)
              · exact absurd h hq
              · cases h
              · cases h1
                rw [hn] at h2
                cases h2
            · intro _
              exact ⟨rfl, rfl⟩
            · intro h; exact absurd h hr
            · simp

theorem ChildBuilder_appends_child_witness :
    (exampleObject.ChildBuilder exampleAppCfg "rec").2.1.QName = ⟨"test", "rec"⟩ ∧
    (exampleObject.ChildBuilder exampleAppCfg "rec").2.1.record.Container = "rec" ∧
    (exampleObject.ChildBuilder exampleAppCfg "rec").2.1.record.Parent = exampleObject.record.ID :=
  have h := ChildBuilder_appends_child exampleAppCfg exampleObject "rec"
  have hq := (h.2.2.2.1 _ ⟨"test", "rec"⟩ (by decide) rfl rfl).2
    (IType.other ⟨"test", "rec"⟩) rfl rfl
  ⟨hq, h.2.2.2.2.2.1 (by rw [hq]; decide)⟩

theorem errorsJoin_eq_none (errs : List (Option Error)) :
    errorsJoin errs = none ↔ ∀ e ∈ errs, e = none := by
  unfold errorsJoin
  cases h : errs.filterMap id with
  | nil =>
    simp only [true_iff]
    intro e he
    cases e with
    | none => rfl
    | some x =>
      have : x ∈ errs.filterMap id := List.mem_filterMap.mpr ⟨some x, he, rfl⟩
      rw [h] at this
      cases this
  | cons x xs =>
    have hx : x ∈ errs.filterMap id := by rw [h]; exact List.mem_cons_self _ _
    obtain ⟨e, he, hid⟩ := List.mem_filterMap.mp hx
    constructor
    · intro h0
      cases h0
    · intro hall
      rw [hall e he] at hid
      cases hid

theorem errorsJoin_texts (errs : List (Option Error)) (e : Error) (he : some e ∈ errs) :
    errorsJoin errs = some (Error.joined ((errs.filterMap id).map Error.Error)) ∧
    e.Error ∈ (errs.filterMap id).map Error.Error := by
  have hx : e ∈ errs.filterMap id := List.mem_filterMap.mpr ⟨some e, he, rfl⟩
  refine ⟨?_, List.mem_map.mpr ⟨e, hx, rfl⟩⟩
  unfold errorsJoin
  cases h : errs.filterMap id with
  | nil => rw [h] at hx; cases hx
  | cons x xs => rfl

/-- C27. For an event with a non-empty name known to the application,
`eventType.build` builds the argument object, the unlogged argument object and
the CUD plan whatever the others return: the CUD plan of the event is the one
its build leaves, the error returned is the join of the errors of the three,
holding the text of each one that failed in that order, and it is nil if and
only if all three sub-builds return nil. -/
theorem eventType_build_joins (rowBuild : recordType → Option String) (ev : eventType)
    (nameID : Nat) (hname : ev.name ≠ appdef.NullQName)
    (hknown : ev.appCfg.qNames ev.name = Except.ok nameID) :
    (ev.build rowBuild).2 =
      errorsJoin [ev.argObject.build rowBuild, ev.argUnlObj.build rowBuild,
        (ev.cud.build rowBuild).2] ∧
    (ev.build rowBuild).1.cud = (ev.cud.build rowBuild).1 ∧
    ((ev.build rowBuild).2 = none ↔
      ev.argObject.build rowBuild = none ∧ ev.argUnlObj.build rowBuild = none ∧
      (ev.cud.build rowBuild).2 = none) ∧
    (∀ e, (ev.argObject.build rowBuild = some e ∨ ev.argUnlObj.build rowBuild = some e ∨
        (ev.cud.build rowBuild).2 = some e) →
      (ev.build rowBuild).2 = some (Error.joined
        (([ev.argObject.build rowBuild, ev.argUnlObj.build rowBuild,
          (ev.cud.build rowBuild).2].filterMap id).map Error.Error)) ∧
      e.Error ∈ ([ev.argObject.build rowBuild, ev.argUnlObj.build rowBuild,
          (ev.cud.build rowBuild).2].filterMap id).map Error.Error) := by
  have hb : ev.build rowBuild =
      ({ ev with cud := (ev.cud.build rowBuild).1 },
        errorsJoin [ev.argObject.build rowBuild, ev.argUnlObj.build rowBuild,
          (ev.cud.build rowBuild).2]) := by
    unfold eventType.build
    rw [if_neg hname, hknown]
  rw [hb]
  refine ⟨rfl, rfl, ?_, ?_⟩
  · rw [errorsJoin_eq_none]
    simp
  · intro e he
    apply errorsJoin_texts
    simp only [List.mem_cons, List.mem_singleton]
    rcases he with h | h | h
    · exact Or.inl h.symm
    · exact Or.inr (Or.inl h.symm)
    · exact Or.inr (Or.inr (Or.inl h.symm))

theorem eventType_build_joins_witness :
    (exampleFailingEvent.build rejectRawOne).2 =
      some (Error.joined ["field is required", "field is required"]) :=
  (eventType_build_joins rejectRawOne exampleFailingEvent 303 (by decide) rfl).1.trans rfl

/-- C28. Whenever `updateRecType.build` returns an `ErrUnableToUpdateSystemField`
error, or fails while building the changes, the result record of the entry is
an exact copy of the origin record, whatever it held before: no change of a
user field and no change of `sys.IsActive` of the rejected update is applied.
The origin and the changes are as they were. -/
theorem updateRecType_build_error_result (rowBuild : recordType → Option String)
    (upd : updateRecType) :
    (∀ msg, (upd.build rowBuild).2 = some (Error.ErrUnableToUpdateSystemField msg) →
      (upd.build rowBuild).1.result = upd.originRec) ∧
    (∀ err, upd.changes.QName ≠ appdef.NullQName → upd.changes.build rowBuild = some err →
      (upd.build rowBuild).2 = some err ∧ (upd.build rowBuild).1.result = upd.originRec) ∧
    (upd.build rowBuild).1.originRec = upd.originRec ∧
    (upd.build rowBuild).1.changes = upd.changes := by
  have hrow : ∀ (r : recordType) (msg : String),
      r.build rowBuild ≠ some (Error.ErrUnableToUpdateSystemField msg) := by
    intro r msg h
    unfold recordType.build at h
    cases hr : rowBuild r with
    | none => rw [hr] at h; cases h
    | some t => rw [hr] at h; cases h
  unfold updateRecType.build
  simp only [recordType.copyFrom]
  by_cases hq : upd.changes.QName = appdef.NullQName
  · rw [if_pos hq]
    refine ⟨?_, ?_, rfl, rfl⟩
    · intro msg h
      cases h
    · intro err h
      exact absurd hq h
  · rw [if_neg hq]
    cases hc : upd.changes.build rowBuild with
    | some e =>
      refine ⟨?_, ?_, rfl, rfl⟩
      · intro msg _
        rfl
      · intro err _ h
        cases h
        exact ⟨rfl, rfl⟩
    | none =>
      dsimp only
      split
      · refine ⟨?_, ?_, rfl, rfl⟩
        · intro msg _
          rfl
        · intro err _ h
          cases h
      · split
        · refine ⟨?_, ?_, rfl, rfl⟩
          · intro msg _
            rfl
          · intro err _ h
            cases h
        · split
          · refine ⟨?_, ?_, rfl, rfl⟩
            · intro msg _
              rfl
            · intro err _ h
              cases h
          · refine ⟨?_, ?_, ?_, ?_⟩
            · intro msg h
              split at h <;> split at h <;>
                first
                | exact absurd h (hrow _ msg)
                | cases h
            · intro err _ h
              cases h
            · split <;> split <;> rfl
            · split <;> split <;> rfl

theorem updateRecType_build_error_result_witness :
    (exampleRejectedUpdate.build (fun _ => none)).2 =
      some (Error.ErrUnableToUpdateSystemField "record container can not to be updated") ∧
    (exampleRejectedUpdate.build (fun _ => none)).1.result = exampleOrigin :=
  ⟨rfl, (updateRecType_build_error_result (fun _ => none) exampleRejectedUpdate).1
    "record container can not to be updated" rfl⟩

/-- What the second walk of `objectType.regenerateIDs` leaves in a record-ID
field of a node whose value is raw and is no key of the plan: the null ID. -/
theorem rewriteRecord_AsRecordID_absent (IsRaw : RecordID → Bool) (newIDs : newIDsPlanType)
    (rec : recordType) (n : String)
    (hraw : IsRaw (rec.AsRecordID n) = true)
    (habs : GoMap.get newIDs (rec.AsRecordID n) = none) :
    (objectType.regenerateIDs.rewriteRecord IsRaw newIDs rec).1.AsRecordID n =
      NullRecordID := by
  unfold objectType.regenerateIDs.rewriteRecord
  simp only []
  generalize hr1 : (if IsRaw rec.Parent = true then rec.setParent (newIDs.at rec.Parent)
    else rec) = rec1
  rw [foldl_put_AsRecordID IsRaw newIDs rec1.AsRecordID _ (RecordIDs_values rec1)]
  have hm := mem_RecordIDs_names rec1 n
  have hv : rec1.AsRecordID n =
      if n = SystemField_ParentID ∧ IsRaw rec.Parent = true then newIDs.at rec.Parent
      else rec.AsRecordID n := by
    rw [← hr1]
    by_cases hp : IsRaw rec.Parent = true
    · simp only [hp, if_true, and_true, AsRecordID_setParent]
    · simp [hp]
  have hpar : rec.AsRecordID SystemField_ParentID = rec.Parent := by
    simp [recordType.AsRecordID, recordType.Parent, SystemField_ID, SystemField_ParentID]
  have hat : newIDs.at (rec.AsRecordID n) = NullRecordID := by
    simp [newIDsPlanType.at, habs, NullRecordID]
  by_cases hn : n = SystemField_ParentID
  · subst hn
    rw [hpar] at hraw hat
    have hv' : rec1.AsRecordID SystemField_ParentID = NullRecordID := by
      rw [hv, if_pos ⟨rfl, hraw⟩, hat]
    have hnot : SystemField_ParentID ∉ (rec1.RecordIDs false).map Prod.fst :=
      fun hin => hm.mp hin hv'
    rw [if_neg (fun h => hnot h.1), hv']
  · have hv' : rec1.AsRecordID n = rec.AsRecordID n := by
      rw [hv]
      simp [hn]
    rw [hv'] at hm ⊢
    by_cases hz : rec.AsRecordID n = NullRecordID
    · rw [if_neg (fun h => hm.mp h.1 hz), hz]
    · rw [if_pos ⟨hm.mpr hz, hraw⟩, hat]

theorem regenerateIDs_node {σ : Type} (IsRaw : RecordID → Bool)
    (rowBuild : recordType → Option String) (generator : IIDGenerator σ) (g g' : σ)
    (o o' : objectType)
    (hok : objectType.regenerateIDs IsRaw rowBuild generator g o = (o', g', none)) :
    ∃ l₁ plan,
      assignNodes IsRaw generator ([], g) o.nodes = some (l₁, (plan, g')) ∧
      ∀ (i : Nat) (r r' : recordType), o.nodes[i]? = some r → o'.nodes[i]? = some r' →
        ∃ r₁, l₁[i]? = some r₁ ∧
          r' = (objectType.regenerateIDs.rewriteRecord IsRaw plan r₁).1 ∧
          ∀ n, n ≠ SystemField_ID → r₁.AsRecordID n = r.AsRecordID n := by
  obtain ⟨l₁, plan, h1, h2⟩ := regenerateIDs_walks IsRaw rowBuild generator g g' o o' hok
  refine ⟨l₁, plan, h1, ?_⟩
  intro i r r' hr hr'
  rw [h2, List.getElem?_map] at hr'
  cases h₁ : l₁[i]? with
  | none => simp [h₁] at hr'
  | some r₁ =>
    simp only [h₁, Option.map_some', Option.some.injEq] at hr'
    have hi : i < (generatorStates IsRaw generator g o.nodes).length := by
      rw [generatorStates_length]
      have := (List.getElem?_eq_some_iff.mp hr).1
      omega
    have hs : (generatorStates IsRaw generator g o.nodes)[i]? =
        some ((generatorStates IsRaw generator g o.nodes)[i]) :=
      List.getElem?_eq_getElem hi
    obtain ⟨ha, hb⟩ := assignNodes_index IsRaw generator _ _ _ _ _ _ h1 i r r₁ _ hr h₁ hs
    refine ⟨r₁, rfl, hr'.symm, fun n hn => ?_⟩
    by_cases hrr : IsRaw r.ID = true
    · rw [(ha hrr).2, AsRecordID_setID _ _ _ hn]
    · rw [hb (by simpa using hrr)]

/-- C29. When `objectType.regenerateIDs` succeeds, every `sys.ParentID` and every
other record-ID field of a node whose value is raw and is not the ID of any
node of the tree holds `NullRecordID` afterwards, whereas `regenerateIDsInRecord`
of the CUD path leaves a reference that is no key of its plan as it was. -/
theorem regenerateIDs_absent_reference {σ : Type} (IsRaw : RecordID → Bool)
    (rowBuild : recordType → Option String) (generator : IIDGenerator σ) (g g' : σ)
    (o o' : objectType)
    (hok : objectType.regenerateIDs IsRaw rowBuild generator g o = (o', g', none)) :
    (∀ (i : Nat) (r r' : recordType) (n : String),
      o.nodes[i]? = some r → o'.nodes[i]? = some r' → n ≠ SystemField_ID →
      IsRaw (r.AsRecordID n) = true → (∀ m ∈ o.nodes, m.ID ≠ r.AsRecordID n) →
      r'.AsRecordID n = NullRecordID) ∧
    (∀ (rec : recordType) (newIDs : newIDsPlanType) (n : String),
      GoMap.get newIDs (rec.AsRecordID n) = none →
      (regenerateIDsInRecord IsRaw rowBuild rec newIDs).1.AsRecordID n = rec.AsRecordID n) := by
  obtain ⟨l₁, plan, h1, hnode⟩ := regenerateIDs_node IsRaw rowBuild generator g g' o o' hok
  constructor
  · intro i r r' n hr hr' hn hraw hout
    obtain ⟨r₁, -, e, hf⟩ := hnode i r r' hr hr'
    have hplan : GoMap.get plan (r.AsRecordID n) = none := by
      rw [assignNodes_frame IsRaw generator _ _ _ _ _ _ h1 (r.AsRecordID n)
        (fun m hm _ => hout m hm)]
      rfl
    rw [e]
    apply rewriteRecord_AsRecordID_absent
    · rw [hf n hn]; exact hraw
    · rw [hf n hn]; exact hplan
  · intro rec newIDs n habs
    rw [regenerateIDsInRecord_AsRecordID]
    unfold planID
    split
    · rw [habs]
    · rfl

theorem regenerateIDs_absent_reference_witness :
    ((objectType.regenerateIDs exampleIsRaw (fun _ => none) storageGenerator 0
      danglingObject).1.nodes.map
        (fun r => (r.AsRecordID SystemField_ParentID, r.AsRecordID "other"))) =
      [(0, 0), (0, 0)] ∧
    (regenerateIDsInRecord exampleIsRaw (fun _ => none)
      (exampleRecord (IType.other ⟨"test", "rec"⟩) 2 [("other", FieldValue.RecordID 7)])
      [(2, 65537)]).1.AsRecordID "other" = 7 :=
  have h := regenerateIDs_absent_reference exampleIsRaw (fun _ => none) storageGenerator 0 2
    danglingObject
    (objectType.regenerateIDs exampleIsRaw (fun _ => none) storageGenerator 0 danglingObject).1
    rfl
  ⟨by decide, h.2 _ [(2, 65537)] "other" rfl⟩

end istructsmem

namespace uniques

open appdef (GoMap)
open istructsmem (RecordID NullRecordID FieldValue)

theorem ref_put (st : uniquesStateType) (c u : appdef.QName) (k : List Nat)
    (r : uniqueViewRecord) : (st.put c u k r).ref c u k = some r.refRecordID := by
  simp [uniquesStateType.put, uniquesStateType.ref, appdef.GoMap_get_set]

theorem getCurrentUniqueViewRecord_ref (st st1 : uniquesStateType) (c u : appdef.QName)
    (k : List Nat) (appStructs : IAppStructs) (r : uniqueViewRecord)
    (h : getCurrentUniqueViewRecord st c k appStructs u = (st1, Except.ok r)) :
    st1.ref c u k = some r.refRecordID := by
  unfold getCurrentUniqueViewRecord at h
  dsimp only at h
  generalize hm1 : (match GoMap.get st c with
    | some m => m
    | none => []) = m1 at h
  generalize hm2 : (match GoMap.get m1 u with
    | some m => m
    | none => []) = m2 at h
  cases hg : GoMap.get m2 k with
  | some cur =>
    rw [hg] at h
    simp only [Prod.mk.injEq, Except.ok.injEq] at h
    obtain ⟨h1, h2⟩ := h
    subst h1 h2
    simp [uniquesStateType.ref, appdef.GoMap_get_set, hg]
  | none =>
    rw [hg] at h
    dsimp only at h
    rcases hu : getUniqueIDByValues appStructs u k with ⟨id, ok, err⟩
    rw [hu] at h
    cases err with
    | some e => simp at h
    | none =>
      simp only [Prod.mk.injEq, Except.ok.injEq] at h
      obtain ⟨h1, h2⟩ := h
      subst h1 h2
      simp [uniquesStateType.ref, appdef.GoMap_get_set]

theorem modified_activate (cudRec : ICUDRow) (uniqueFields : List IField)
    (c u : appdef.QName) (holder : RecordID)
    (hsys : uniqueFields.any (fun f => f.Name = SystemField_IsActive) = false)
    (h0 : holder ≠ NullRecordID) (h1 : holder ≠ cudRec.ID)
    (post : List (String × FieldValue)) :
    ∀ (pre : List (String × FieldValue)),
      (∀ e ∈ pre, e.1 ≠ SystemField_IsActive ∧
        uniqueFields.any (fun f => f.Name = e.1) = false) →
      validateCUD.modified cudRec uniqueFields c u
        (pre ++ (SystemField_IsActive, FieldValue.bool true) :: post) holder =
        (holder, some (conflict c holder u))
  | [], _ => by
    simp [validateCUD.modified, validateCUD.callback, hsys, h0, h1]
  | e :: pre, hpre => by
    obtain ⟨name, v⟩ := e
    have he := hpre (name, v) (List.mem_cons_self _ _)
    have ih := modified_activate cudRec uniqueFields c u holder hsys h0 h1 post pre
      (fun x hx => hpre x (List.mem_cons_of_mem _ hx))
    rw [List.cons_append]
    generalize pre ++ (SystemField_IsActive, FieldValue.bool true) :: post = l at ih ⊢
    simp only [validateCUD.modified, validateCUD.callback, he.2,
      Bool.false_eq_true, if_false, he.1, ne_eq, not_false_eq_true, if_true, ih]

/-- One call of `validateCUD`, on the holder `getCurrentUniqueViewRecord`
returns for the unique combination of the CUD, taken from the state or, on
first use, from the stored view. When that holder is a non-null ID, a CUD that
inserts a new record with the combination is rejected with the 409 conflict
that names the holder, and so is a CUD of another record that activates it
(unless the enumeration of its modified fields meets a change of a unique field
first, which is rejected as such); the state keeps the holder. When there is no
holder, the inserting CUD is accepted and its record becomes the holder. -/
theorem validateCUD_second_holder (zeroByte MaxFieldLength : Nat) (cudRec : ICUDRow)
    (appStructs : IAppStructs) (uniqueFields : List IField) (uniqueQName : appdef.QName)
    (uniquesState st1 : uniquesStateType) (rowSource : IRowReader) (key : List Nat)
    (holder : RecordID)
    (hrow : (if cudRec.IsNew then Except.ok cudRec.row else appStructs.RecordsGet cudRec.ID) =
      Except.ok rowSource)
    (hkey : getUniqueKeyValues zeroByte MaxFieldLength rowSource uniqueFields = Except.ok key)
    (hcur : getCurrentUniqueViewRecord uniquesState cudRec.QName key appStructs uniqueQName =
      (st1, Except.ok { refRecordID := holder })) :
    st1.ref cudRec.QName uniqueQName key = some holder ∧
    (cudRec.IsNew = true → holder ≠ NullRecordID →
      validateCUD zeroByte MaxFieldLength cudRec appStructs uniqueFields uniqueQName
          uniquesState =
        (st1, some (Error.conflict 409 cudRec.QName holder uniqueQName))) ∧
    (cudRec.IsNew = true → holder = NullRecordID →
      (validateCUD zeroByte MaxFieldLength cudRec appStructs uniqueFields uniqueQName
          uniquesState).2 = none ∧
      (validateCUD zeroByte MaxFieldLength cudRec appStructs uniqueFields uniqueQName
          uniquesState).1.ref cudRec.QName uniqueQName key = some cudRec.ID) ∧
    (∀ pre post, cudRec.IsNew = false →
      cudRec.ModifiedFields = pre ++ (SystemField_IsActive, FieldValue.bool true) :: post →
      (∀ e ∈ pre, e.1 ≠ SystemField_IsActive ∧
        uniqueFields.any (fun f => f.Name = e.1) = false) →
      uniqueFields.any (fun f => f.Name = SystemField_IsActive) = false →
      holder ≠ NullRecordID → holder ≠ cudRec.ID →
      (validateCUD zeroByte MaxFieldLength cudRec appStructs uniqueFields uniqueQName
          uniquesState).2 = some (Error.conflict 409 cudRec.QName holder uniqueQName) ∧
      (validateCUD zeroByte MaxFieldLength cudRec appStructs uniqueFields uniqueQName
          uniquesState).1.ref cudRec.QName uniqueQName key = some holder) := by
  refine ⟨getCurrentUniqueViewRecord_ref _ _ _ _ _ _ _ hcur, ?_, ?_, ?_⟩
  · intro hnew h0
    have hr : cudRec.row = rowSource := by simpa [hnew] using hrow
    subst hr
    unfold validateCUD
    simp only [hnew, if_true, hkey, hcur, h0, if_false, conflict, StatusConflict]
  · intro hnew h0
    have hr : cudRec.row = rowSource := by simpa [hnew] using hrow
    subst hr
    unfold validateCUD
    simp only [hnew, if_true, hkey, hcur, h0, ref_put, and_self]
  · intro pre post hnew hmod hpre hsys h0 h1
    have hr : appStructs.RecordsGet cudRec.ID = Except.ok rowSource := by
      simpa [hnew] using hrow
    unfold validateCUD
    simp only [hnew, Bool.false_eq_true, if_false, hr, hkey, hcur, hmod,
      modified_activate cudRec uniqueFields cudRec.QName uniqueQName holder hsys h0 h1 post pre
        hpre, ref_put, conflict, StatusConflict, and_self]

/-- The example of the comment in `getCurrentUniqueViewRecord`: the stored
record 111 holds `xxx` and is inactive; the CUD inserting the new record 222
with `xxx` is accepted, and a later CUD of the event that activates 111 is
denied with the 409 conflict that names 222. -/
theorem validateCUD_second_holder_example :
    (validateCUD 0 65535 cudActivate111 exampleAppStructs exampleUniqueFields ⟨"test", "uniq"⟩
      (eventUniqueValidator.loop 0 65535 exampleAppStructs [cudInsert222] []).1).2 =
      some (Error.conflict 409 ⟨"test", "doc"⟩ 222 ⟨"test", "uniq"⟩) ∧
    eventUniqueValidator 0 65535 [cudInsert222] exampleAppStructs = none ∧
    eventUniqueValidator 0 65535 [cudInsert222, cudActivate111] exampleAppStructs =
      some (Error.conflict 409 ⟨"test", "doc"⟩ 222 ⟨"test", "uniq"⟩) :=
  have h := validateCUD_second_holder 0 65535 cudActivate111 exampleAppStructs
    exampleUniqueFields ⟨"test", "uniq"⟩
    (eventUniqueValidator.loop 0 65535 exampleAppStructs [cudInsert222] []).1
    (getCurrentUniqueViewRecord
      (eventUniqueValidator.loop 0 65535 exampleAppStructs [cudInsert222] []).1
      ⟨"test", "doc"⟩ [120, 120, 120] exampleAppStructs ⟨"test", "uniq"⟩).1
    rowXXX [120, 120, 120] 222 rfl rfl rfl
  ⟨(h.2.2.2 [] [] rfl rfl (fun _ he => nomatch he) rfl (by decide) (by decide)).1, rfl, rfl⟩

/-- C26. The validator does not keep what the claim says. In a storage where
the active record 111 holds the combination `xxx`, an event that only inserts
the new record 222 with `xxx` is rejected with the 409 conflict that names 111.
When a CUD that updates the inactive record 333, which holds `xxx` too, with
`sys.IsActive` false comes first, the holder the state tracks for `xxx`, 111, is
cleared although 333 is not the holder; the insert of 222 is then accepted,
`eventUniqueValidator` returns nil and the state tracks 222, a second active
holder of `xxx` beside 111. -/
theorem eventUniqueValidator_accepts_second_holder :
    eventUniqueValidator 0 65535 [cudInsert222] storageWithHolder111 =
      some (Error.conflict 409 ⟨"test", "doc"⟩ 111 ⟨"test", "uniq"⟩) ∧
    (getCurrentUniqueViewRecord [] ⟨"test", "doc"⟩ [120, 120, 120] storageWithHolder111
      ⟨"test", "uniq"⟩).2 = Except.ok { refRecordID := 111 } ∧
    (eventUniqueValidator.loop 0 65535 storageWithHolder111 [cudDeactivate333] []) =
      ([(⟨"test", "doc"⟩, [(⟨"test", "uniq"⟩, [([120, 120, 120], { refRecordID := 0 })])])],
        none) ∧
    eventUniqueValidator 0 65535 [cudDeactivate333, cudInsert222] storageWithHolder111 = none ∧
    (eventUniqueValidator.loop 0 65535 storageWithHolder111
      [cudDeactivate333, cudInsert222] []).1.ref ⟨"test", "doc"⟩ ⟨"test", "uniq"⟩
        [120, 120, 120] = some 222 :=
  ⟨rfl, rfl, rfl, rfl, rfl⟩

theorem append_separator_inj (z : Nat) :
    ∀ (a₁ a₂ b₁ b₂ : List Nat), z ∉ a₁ → z ∉ a₂ →
      a₁ ++ z :: b₁ = a₂ ++ z :: b₂ → a₁ = a₂ ∧ b₁ = b₂
  | [], [], b₁, b₂, _, _, h => by
    simp only [List.nil_append, List.cons.injEq, true_and] at h
    exact ⟨rfl, h⟩
  | [], y :: a₂, b₁, b₂, _, h2, h => by
    simp only [List.nil_append, List.cons_append, List.cons.injEq] at h
    exact absurd (h.1 ▸ List.mem_cons_self _ _) h2
  | x :: a₁, [], b₁, b₂, h1, _, h => by
    simp only [List.nil_append, List.cons_append, List.cons.injEq] at h
    exact absurd (h.1 ▸ List.mem_cons_self _ _) h1
  | x :: a₁, y :: a₂, b₁, b₂, h1, h2, h => by
    simp only [List.cons_append, List.cons.injEq] at h
    obtain ⟨r1, r2⟩ := append_separator_inj z a₁ a₂ b₁ b₂
      (fun hm => h1 (List.mem_cons_of_mem _ hm)) (fun hm => h2 (List.mem_cons_of_mem _ hm)) h.2
    exact ⟨by rw [h.1, r1], r2⟩

theorem getUniqueKeyValues_two_strings (zeroByte MaxFieldLength : Nat) (f₁ f₂ : String)
    (rec : IRowReader) (key : List Nat)
    (h : getUniqueKeyValues zeroByte MaxFieldLength rec
      [⟨f₁, appdef.DataKind_string⟩, ⟨f₂, appdef.DataKind_string⟩] = Except.ok key) :
    key = zeroByte :: (rec f₁ appdef.DataKind_string ++
      zeroByte :: rec f₂ appdef.DataKind_string) := by
  unfold getUniqueKeyValues at h
  dsimp only at h
  have hb : getUniqueKeyValues.loop zeroByte rec
      [(⟨f₁, appdef.DataKind_string⟩ : IField), ⟨f₂, appdef.DataKind_string⟩].length
      [⟨f₁, appdef.DataKind_string⟩, ⟨f₂, appdef.DataKind_string⟩] [] =
      zeroByte :: (rec f₁ appdef.DataKind_string ++
        zeroByte :: rec f₂ appdef.DataKind_string) := by
    simp [getUniqueKeyValues.loop]
  rw [hb] at h
  by_cases hl : (zeroByte :: (rec f₁ appdef.DataKind_string ++
      zeroByte :: rec f₂ appdef.DataKind_string)).length > MaxFieldLength
  · rw [if_pos hl] at h
    cases h
  · rw [if_neg hl] at h
    exact (Except.ok.inj h).symm

/-- The claim C30 fails: with zero as the separator byte, the records with the
values `("a\x00b", "c")` and `("a", "b\x00c")` in the two string fields of a
unique have different pairs of values and the same key bytes. -/
theorem getUniqueKeyValues_collision :
    getUniqueKeyValues 0 65535 (rowAB [97, 0, 98] [99]) twoStringFields =
      Except.ok [0, 97, 0, 98, 0, 99] ∧
    getUniqueKeyValues 0 65535 (rowAB [97] [98, 0, 99]) twoStringFields =
      Except.ok [0, 97, 0, 98, 0, 99] ∧
    (rowAB [97, 0, 98] [99] "a" appdef.DataKind_string,
      rowAB [97, 0, 98] [99] "b" appdef.DataKind_string) ≠
    (rowAB [97] [98, 0, 99] "a" appdef.DataKind_string,
      rowAB [97] [98, 0, 99] "b" appdef.DataKind_string) :=
  ⟨rfl, rfl, by decide⟩

/-- C30, amended. For a unique made of two string fields, two records whose
values of the first field hold no separator byte and for which
`getUniqueKeyValues` returns the same key bytes have the same pair of unique
field values. -/
theorem getUniqueKeyValues_injective (zeroByte MaxFieldLength : Nat) (f₁ f₂ : String)
    (rec₁ rec₂ : IRowReader) (key : List Nat)
    (h₁ : zeroByte ∉ rec₁ f₁ appdef.DataKind_string)
    (h₂ : zeroByte ∉ rec₂ f₁ appdef.DataKind_string)
    (hk₁ : getUniqueKeyValues zeroByte MaxFieldLength rec₁
      [⟨f₁, appdef.DataKind_string⟩, ⟨f₂, appdef.DataKind_string⟩] = Except.ok key)
    (hk₂ : getUniqueKeyValues zeroByte MaxFieldLength rec₂
      [⟨f₁, appdef.DataKind_string⟩, ⟨f₂, appdef.DataKind_string⟩] = Except.ok key) :
    rec₁ f₁ appdef.DataKind_string = rec₂ f₁ appdef.DataKind_string ∧
    rec₁ f₂ appdef.DataKind_string = rec₂ f₂ appdef.DataKind_string := by
  have e₁ := getUniqueKeyValues_two_strings zeroByte MaxFieldLength f₁ f₂ rec₁ key hk₁
  have e₂ := getUniqueKeyValues_two_strings zeroByte MaxFieldLength f₁ f₂ rec₂ key hk₂
  rw [e₁] at e₂
  simp only [List.cons.injEq, true_and] at e₂
  exact append_separator_inj zeroByte _ _ _ _ h₁ h₂ e₂

theorem getUniqueKeyValues_injective_witness :
    rowAB [97, 98] [99] "a" appdef.DataKind_string =
      (fun name kind => if name = "c" then [1] else rowAB [97, 98] [99] name kind)
        "a" appdef.DataKind_string ∧
    rowAB [97, 98] [99] "b" appdef.DataKind_string =
      (fun name kind => if name = "c" then [1] else rowAB [97, 98] [99] name kind)
        "b" appdef.DataKind_string :=
  getUniqueKeyValues_injective 0 65535 "a" "b" (rowAB [97, 98] [99])
    (fun name kind => if name = "c" then [1] else rowAB [97, 98] [99] name kind)
    [0, 97, 98, 0, 99] (by decide) (by decide) rfl rfl

end uniques
